import Mathlib

/-!
# RemixDDS: the DDS to PNG converter of `dds_bc_all_to_png.c`

A shallow embedding of the block decoders (`decode_bc4_block`, `rgb565_to_rgb888`,
`decode_bc1_block`, `decode_bc2_alpha`, the BC7 wrapper `bc7_decode_block` of
`bc7_decoder.cpp`), of the block-grid assembly loops, the container parser and the format
dispatch of `dds2png_convert`, and of the PNG writer `write_png_core`, followed by the
properties proved about them.

Conventions of the embedding:

* a byte buffer (`const uint8_t*`) is a `List Nat`; a pointer `p + k` is `p.drop k`
  and `p[i]` is `rd p i`;
* `uint8_t`, `uint16_t`, `uint32_t` and `uint64_t`/`size_t` results are reduced with
  `u8`, `u16`, `u32`, `u64` wherever the C code casts or stores into such a type;
* a `for` loop filling `out[i]` for `i = 0 .. n-1` with a value that depends on `i`
  only is the list `(List.range n).map _`; nested loops with a store in the body are
  a left fold over the index tuples in loop order;
* what the code gets from outside is a parameter: the content of the input file, the
  results of `malloc` (`none` for `NULL`, otherwise the uninitialised content), zlib's
  `crc32`, `compressBound` and `compress2`, the BC7 decoder `unpack_bc7`, and the rounding
  of `double` arithmetic;
* a function that writes a file returns its return value together with the bytes it
  passed to `fwrite`.
-/

namespace RemixDDS

/-! ## Machine integers and buffers -/

/-- Value of a cast to `uint8_t`. -/
def u8 (n : Nat) : Nat := n % 256

/-- Value of a cast to `uint16_t`. -/
def u16 (n : Nat) : Nat := n % 65536

/-- Value of a cast to `uint32_t`, and of 32-bit unsigned arithmetic. -/
def u32 (n : Nat) : Nat := n % 4294967296

/-- Value of a cast to `uint64_t` or `size_t`, and of 64-bit unsigned arithmetic. -/
def u64 (n : Nat) : Nat := n % 18446744073709551616

/-- The read `p[i]` from a byte buffer. -/
def rd (p : List Nat) (i : Nat) : Nat := (p[i]?).getD 0

/-- Every cell of the buffer holds a `uint8_t`. -/
def IsBytes (p : List Nat) : Prop := ∀ b ∈ p, b < 256

instance (p : List Nat) : Decidable (IsBytes p) := by
  unfold IsBytes; infer_instance

/-! ## BC4 block decode (`decode_bc4_block`, lines 229-262) -/

/-- The palette `pal[8]` that `decode_bc4_block` builds from the endpoints
`r0 = block[0]` and `r1 = block[1]` (lines 231-252). -/
def bc4_palette (r0 r1 : Nat) : List Nat :=
  if r0 > r1 then
    [ r0, r1,
      u8 ((6*r0 +   r1 + 3) / 7),
      u8 ((5*r0 + 2*r1 + 3) / 7),
      u8 ((4*r0 + 3*r1 + 3) / 7),
      u8 ((3*r0 + 4*r1 + 3) / 7),
      u8 ((2*r0 + 5*r1 + 3) / 7),
      u8 ((  r0 + 6*r1 + 3) / 7) ]
  else
    [ r0, r1,
      u8 ((4*r0 +   r1 + 2) / 5),
      u8 ((3*r0 + 2*r1 + 2) / 5),
      u8 ((2*r0 + 3*r1 + 2) / 5),
      u8 ((  r0 + 4*r1 + 2) / 5),
      0,
      255 ]

/-- The 48-bit index field: `bits |= ((uint64_t)block[2 + i]) << (8 * i)` for
`i = 0 .. 5` (lines 254-257). -/
def bc4_bits (block : List Nat) : Nat :=
  (List.range 6).foldl (fun bits i => bits ||| u64 (rd block (2 + i) <<< (8 * i))) 0

/-- The function `decode_bc4_block`: the 16 samples `out[i] = pal[(bits >> (3*i)) & 7]`. -/
def decode_bc4_block (block : List Nat) : List Nat :=
  let pal := bc4_palette (rd block 0) (rd block 1)
  let bits := bc4_bits block
  (List.range 16).map fun i => rd pal ((bits >>> (3 * i)) &&& 7)

/-! ## BC1 block decode (`rgb565_to_rgb888`, `decode_bc1_block`, lines 267-326) -/

/-- The function `rgb565_to_rgb888`: the triple `(*r, *g, *b)`. -/
def rgb565_to_rgb888 (c : Nat) : Nat × Nat × Nat :=
  let r5 := u8 ((c >>> 11) &&& 0x1F)
  let g6 := u8 ((c >>> 5) &&& 0x3F)
  let b5 := u8 (c &&& 0x1F)
  (u8 ((r5 * 255 + 15) / 31), u8 ((g6 * 255 + 31) / 63), u8 ((b5 * 255 + 15) / 31))

/-- First endpoint `c0 = (uint16_t)(block[0] | (block[1] << 8))`. -/
def bc1_c0 (block : List Nat) : Nat := u16 (rd block 0 ||| (rd block 1 <<< 8))

/-- Second endpoint `c1 = (uint16_t)(block[2] | (block[3] << 8))`. -/
def bc1_c1 (block : List Nat) : Nat := u16 (rd block 2 ||| (rd block 3 <<< 8))

/-- The colour table `c[4][4]` of `decode_bc1_block` (lines 289-315), from the two
raw endpoints. -/
def bc1_palette (c0 c1 : Nat) : List (List Nat) :=
  let e0 := rgb565_to_rgb888 c0
  let e1 := rgb565_to_rgb888 c1
  let r0 := e0.1
  let g0 := e0.2.1
  let b0 := e0.2.2
  let r1 := e1.1
  let g1 := e1.2.1
  let b1 := e1.2.2
  if c0 > c1 then
    [ [r0, g0, b0, 255],
      [r1, g1, b1, 255],
      [u8 ((2*r0 + r1) / 3), u8 ((2*g0 + g1) / 3), u8 ((2*b0 + b1) / 3), 255],
      [u8 ((r0 + 2*r1) / 3), u8 ((g0 + 2*g1) / 3), u8 ((b0 + 2*b1) / 3), 255] ]
  else
    [ [r0, g0, b0, 255],
      [r1, g1, b1, 255],
      [u8 ((r0 + r1) / 2), u8 ((g0 + g1) / 2), u8 ((b0 + b1) / 2), 255],
      [0, 0, 0, 0] ]

/-- The packed index word
`(uint32_t)(block[4] | (block[5] << 8) | (block[6] << 16) | (block[7] << 24))`. -/
def bc1_indices (block : List Nat) : Nat :=
  u32 (rd block 4 ||| (rd block 5 <<< 8) ||| (rd block 6 <<< 16) ||| (rd block 7 <<< 24))

/-- The 2-bit selector of pixel `i`: `(indices >> (2 * i)) & 0x3u`. -/
def bc1_idx (block : List Nat) (i : Nat) : Nat := (bc1_indices block >>> (2 * i)) &&& 0x3

/-- The function `decode_bc1_block`: the 64 bytes of `out_rgba`, where
`out_rgba[i*4 + k] = c[idx][k]`. -/
def decode_bc1_block (block : List Nat) : List Nat :=
  let c := bc1_palette (bc1_c0 block) (bc1_c1 block)
  (List.range 16).flatMap fun i =>
    let idx := bc1_idx block i
    [ rd (c.getD idx []) 0, rd (c.getD idx []) 1, rd (c.getD idx []) 2, rd (c.getD idx []) 3 ]

/-! ## BC2 explicit alpha (`decode_bc2_alpha`, lines 329-340) -/

/-- The 64-bit alpha field: `bits |= ((uint64_t)alphaBlock[i]) << (8 * i)` for
`i = 0 .. 7`. -/
def bc2_bits (alphaBlock : List Nat) : Nat :=
  (List.range 8).foldl (fun bits i => bits ||| u64 (rd alphaBlock i <<< (8 * i))) 0

/-- The function `decode_bc2_alpha`: `out_alpha[i] = (uint8_t)(a4 * 17)` with
`a4 = (uint8_t)((bits >> (4 * i)) & 0xF)`. -/
def decode_bc2_alpha (alphaBlock : List Nat) : List Nat :=
  let bits := bc2_bits alphaBlock
  (List.range 16).map fun i =>
    let a4 := u8 ((bits >>> (4 * i)) &&& 0xF)
    u8 (a4 * 17)

/-! ## Image assembly (the block loops of `dds2png_convert`, lines 383-727) -/

/-- The grid sizes `blocks_x = (w + 3) / 4` and `blocks_y = (h + 3) / 4`, computed in
`uint32_t` (lines 392-393). -/
def blocks_of (d : Nat) : Nat := u32 (d + 3) / 4

/-- One iteration of the innermost loop: block row `by_`, block column `bx`,
sub-pixel row `py`, sub-pixel column `px`. -/
structure Visit where
  by_ : Nat
  bx : Nat
  py : Nat
  px : Nat
deriving DecidableEq

/-- The iterations of the four nested `for` loops, in execution order:
`by < blocks_y`, `bx < blocks_x`, `py < 4`, `px < 4`. -/
def loop_tuples (w h : Nat) : List Visit :=
  (List.range (blocks_of h)).flatMap fun by_ =>
  (List.range (blocks_of w)).flatMap fun bx =>
  (List.range 4).flatMap fun py =>
  (List.range 4).map fun px => Visit.mk by_ bx py px

/-- Absolute column `uint32_t x = bx * 4 + px`. -/
def pix_x (v : Visit) : Nat := u32 (v.bx * 4 + v.px)

/-- Absolute row `uint32_t y = by * 4 + py`. -/
def pix_y (v : Visit) : Nat := u32 (v.by_ * 4 + v.py)

/-- The clip test `x < w && y < h` (written `if (x >= w || y >= h) continue;` in the
BC1, BC2, BC3, BC5 and BC7 branches). -/
def in_image (w h : Nat) (v : Visit) : Bool := decide (pix_x v < w ∧ pix_y v < h)

/-- Destination byte offset `((size_t)y * w + x) * c` for `c` bytes per pixel. -/
def dst_index (w c : Nat) (v : Visit) : Nat := u64 (u64 (pix_y v * w + pix_x v) * c)

/-- Index of the sub-pixel inside its decoded block, `py * 4 + px`. -/
def src_index (v : Visit) : Nat := v.py * 4 + v.px

/-- The block pointer `blk = bc + ((uint64_t)by * blocks_x + bx) * bs` for blocks of
`bs` bytes. -/
def block_ptr (w bs : Nat) (bc : List Nat) (v : Visit) : List Nat :=
  bc.drop (u64 (u64 (v.by_ * blocks_of w + v.bx) * bs))

/-- The stores `img[dst + k] = bytes[k]` for `k = 0 .. bytes.length - 1`. -/
def store_pixel (img : List Nat) (dst : Nat) (bytes : List Nat) : List Nat :=
  (List.range bytes.length).foldl (fun im k => im.set (dst + k) (rd bytes k)) img

/-- Body of the innermost loop for a format with `c` bytes per pixel and blocks of
`bs` bytes; `texel blk idx` is the list of the `c` bytes stored for sub-pixel `idx`
of the block at `blk`. -/
def assemble_step (w h c bs : Nat) (texel : List Nat → Nat → List Nat) (bc : List Nat)
    (img : List Nat) (v : Visit) : List Nat :=
  if in_image w h v then
    store_pixel img (dst_index w c v) (texel (block_ptr w bs bc v) (src_index v))
  else img

/-- The four nested loops run on the raster `img` (whose initial content is what
`malloc` returned). -/
def assemble (w h c bs : Nat) (texel : List Nat → Nat → List Nat) (bc img : List Nat) :
    List Nat :=
  (loop_tuples w h).foldl (assemble_step w h c bs texel bc) img

/-- BC1 store (lines 431-437): the four bytes `rgba_block[src + 0 .. src + 3]` with
`src = (py * 4 + px) * 4`. -/
def texel_bc1 (blk : List Nat) (idx : Nat) : List Nat :=
  let rgba_block := decode_bc1_block blk
  let src := idx * 4
  [rd rgba_block (src + 0), rd rgba_block (src + 1), rd rgba_block (src + 2),
   rd rgba_block (src + 3)]

/-- BC2 store (lines 476-498): colour from `decode_bc1_block(blk + 8)`, alpha from
`decode_bc2_alpha` of the first 8 bytes. -/
def texel_bc2 (blk : List Nat) (idx : Nat) : List Nat :=
  let alpha_block := blk.take 8
  let alpha := decode_bc2_alpha alpha_block
  let rgba_color := decode_bc1_block (blk.drop 8)
  let src := idx * 4
  [rd rgba_color (src + 0), rd rgba_color (src + 1), rd rgba_color (src + 2), rd alpha idx]

/-- BC3 store (lines 537-557): colour from `decode_bc1_block(blk + 8)`, alpha from
`decode_bc4_block(blk)`. -/
def texel_bc3 (blk : List Nat) (idx : Nat) : List Nat :=
  let alpha := decode_bc4_block blk
  let rgba_color := decode_bc1_block (blk.drop 8)
  let src := idx * 4
  [rd rgba_color (src + 0), rd rgba_color (src + 1), rd rgba_color (src + 2), rd alpha idx]

/-- BC4 store (line 603): the single byte `block_pixels[py * 4 + px]`. -/
def texel_bc4 (blk : List Nat) (idx : Nat) : List Nat :=
  let block_pixels := decode_bc4_block blk
  [rd block_pixels idx]

/-- Assembly loop of the BC1 branch (lines 419-441). -/
def assemble_bc1 (w h : Nat) (bc img : List Nat) : List Nat := assemble w h 4 8 texel_bc1 bc img

/-- Assembly loop of the BC2 branch (lines 472-502). -/
def assemble_bc2 (w h : Nat) (bc img : List Nat) : List Nat := assemble w h 4 16 texel_bc2 bc img

/-- Assembly loop of the BC3 branch (lines 533-561). -/
def assemble_bc3 (w h : Nat) (bc img : List Nat) : List Nat := assemble w h 4 16 texel_bc3 bc img

/-- Assembly loop of the BC4 branch (lines 592-608). -/
def assemble_bc4 (w h : Nat) (bc img : List Nat) : List Nat := assemble w h 1 8 texel_bc4 bc img

/-- Iteration `v` stores into byte `j` of a raster with `c` bytes per pixel. -/
def hits (w h c : Nat) (v : Visit) (j : Nat) : Prop :=
  in_image w h v = true ∧ dst_index w c v ≤ j ∧ j < dst_index w c v + c

/-! ## BC7 wrapper (`bc7_decode_block`, `bc7_decoder.cpp` lines 5-27) -/

/-- The pixel type `bc7decomp::color_rgba`: four `uint8_t` channels. -/
structure color_rgba where
  r : Nat
  g : Nat
  b : Nat
  a : Nat
deriving DecidableEq

/-- The function `bc7_decode_block`. The external decoder `bc7decomp::unpack_bc7` is the
parameter `unpack_bc7`: it returns the flag `ok` and the contents of `pixels[16]` after
the call. -/
def bc7_decode_block (unpack_bc7 : List Nat → Bool × List color_rgba) (block : List Nat) :
    List Nat :=
  let ok := (unpack_bc7 block).1
  let pixels := (unpack_bc7 block).2
  if !ok then
    (List.range 16).flatMap fun _ => [255, 0, 255, 255]
  else
    (List.range 16).flatMap fun i =>
      [ (pixels.getD i (color_rgba.mk 0 0 0 0)).r, (pixels.getD i (color_rgba.mk 0 0 0 0)).g,
        (pixels.getD i (color_rgba.mk 0 0 0 0)).b, (pixels.getD i (color_rgba.mk 0 0 0 0)).a ]

/-- BC7 store (lines 711-717): the four bytes `rgba_block[src + 0 .. src + 3]` of
`bc7_decode_block(blk, rgba_block)`. -/
def texel_bc7 (unpack_bc7 : List Nat → Bool × List color_rgba) (blk : List Nat) (idx : Nat) :
    List Nat :=
  let rgba_block := bc7_decode_block unpack_bc7 (blk.take 16)
  let src := idx * 4
  [rd rgba_block (src + 0), rd rgba_block (src + 1), rd rgba_block (src + 2),
   rd rgba_block (src + 3)]

/-! ## BC5 normal reconstruction (lines 643-663)

`double` values are rationals; every arithmetic operation is followed by the rounding
operator `fl` of the floating-point format and `sqrt` is the parameter `fsqrt`. With
`fl = id` the arithmetic is exact. -/

/-- The normalisation `(double)s / 255.0 * 2.0 - 1.0` of a decoded sample. -/
def bc5_normal (fl : ℚ → ℚ) (s : Nat) : ℚ := fl (fl (fl ((s : ℚ) / 255) * 2) - 1)

/-- The remap `(uint8_t)((v * 0.5 + 0.5) * 255.0 + 0.5)`: the conversion to `uint8_t`
drops the fraction of a non-negative value. -/
def bc5_byte (fl : ℚ → ℚ) (v : ℚ) : Nat :=
  u8 (Int.toNat ⌊fl (fl (fl (fl (v * (1 / 2)) + 1 / 2) * 255) + 1 / 2)⌋)

/-- BC5 store (lines 643-662): red and green from the two BC4 halves, blue from the
reconstructed `nz`. -/
def texel_bc5 (fl fsqrt : ℚ → ℚ) (blk : List Nat) (idx : Nat) : List Nat :=
  let rx := decode_bc4_block blk
  let gy := decode_bc4_block (blk.drop 8)
  let nx := bc5_normal fl (rd rx idx)
  let ny := bc5_normal fl (rd gy idx)
  let nz2 := fl (fl (1 - fl (nx * nx)) - fl (ny * ny))
  let nz := if nz2 > 0 then fsqrt nz2 else 0
  [bc5_byte fl nx, bc5_byte fl ny, bc5_byte fl nz]

/-- The standard model of `double` rounding: every operation result is within relative
error `2^-53` of the exact value (no overflow or underflow occurs in the code modelled
here). The identity, exact arithmetic, is one such rounding. -/
def IsRounding (fl : ℚ → ℚ) : Prop := ∀ x, |fl x - x| ≤ |x| / 9007199254740992

/-- The remap formula as the specification words it, `round(v*0.5+0.5)*255`. -/
def bc5_byte_spec (v : ℚ) : ℤ := round (v * (1 / 2) + 1 / 2) * 255

/-! ## PNG writer (`png_write_u32`, `write_png_core`, lines 97-225) -/

/-- The four bytes written by `png_write_u32(f, v)`. -/
def png_write_u32 (v : Nat) : List Nat :=
  [u8 ((v >>> 24) &&& 0xFF), u8 ((v >>> 16) &&& 0xFF), u8 ((v >>> 8) &&& 0xFF), u8 (v &&& 0xFF)]

/-- The PNG signature `sig[8]`. -/
def png_sig : List Nat := [137, 80, 78, 71, 13, 10, 26, 10]

/-- The chunk type `"IHDR"`. -/
def tag_IHDR : List Nat := [73, 72, 68, 82]

/-- The chunk type `"IDAT"`. -/
def tag_IDAT : List Nat := [73, 68, 65, 84]

/-- The chunk type `"IEND"`. -/
def tag_IEND : List Nat := [73, 69, 78, 68]

/-- The array `ihdr[13]` (lines 127-142). -/
def png_ihdr (width height color_type : Nat) : List Nat :=
  [ u8 ((width >>> 24) &&& 0xFF), u8 ((width >>> 16) &&& 0xFF),
    u8 ((width >>> 8) &&& 0xFF), u8 (width &&& 0xFF),
    u8 ((height >>> 24) &&& 0xFF), u8 ((height >>> 16) &&& 0xFF),
    u8 ((height >>> 8) &&& 0xFF), u8 (height &&& 0xFF),
    8, color_type, 0, 0, 0 ]

/-- The zlib functions used by the writer. `crc32 c buf` is `crc32(c, buf, len)` for a
buffer `buf` of `len` bytes, `compress2 src level` is the output of `compress2` when it returns `Z_OK` and `none`
otherwise. -/
structure Zlib where
  crc32 : Nat → List Nat → Nat
  compressBound : Nat → Nat
  compress2 : List Nat → Nat → Option (List Nat)

/-- What the PNG writer gets from its environment: whether `fopen` succeeds, the buffer
returned by `malloc(raw_size)` (`none` for `NULL`, otherwise its uninitialised content),
whether `malloc(comp_bound)` succeeds, and zlib. -/
structure PngEnv where
  fopen_ok : Bool
  malloc_raw : Nat → Option (List Nat)
  malloc_comp : Nat → Bool
  zlib : Zlib

/-- The copy `memcpy(&dst[doff], &src[soff], n)`. -/
def memcpy (dst : List Nat) (doff : Nat) (src : List Nat) (soff n : Nat) : List Nat :=
  store_pixel dst doff ((List.range n).map fun k => rd src (soff + k))

/-- The row stride `stride_raw = (size_t)width * bytes_per_pixel + 1`. -/
def png_stride_raw (width bpp : Nat) : Nat := u64 (u64 (width * bpp) + 1)

/-- The buffer size `raw_size = stride_raw * height`. -/
def png_raw_size (width height bpp : Nat) : Nat := u64 (png_stride_raw width bpp * height)

/-- Body of the scanline loop (lines 165-167). The length of the `memcpy` is the
`uint32_t` product `width * bytes_per_pixel`. -/
def png_fill_row (width bpp : Nat) (image raw : List Nat) (y : Nat) : List Nat :=
  let row_off := u64 (y * png_stride_raw width bpp)
  memcpy (raw.set row_off 0) (row_off + 1) image (u64 (u64 (y * width) * bpp)) (u32 (width * bpp))

/-- The scanline loop `for (y = 0; y < height; ++y)` run on the buffer `raw`. -/
def png_fill_raw (width height bpp : Nat) (image raw : List Nat) : List Nat :=
  (List.range height).foldl (png_fill_row width bpp image) raw

/-- The 32-bit value stored in `crc` for a chunk: `crc32(0L, Z_NULL, 0)` updated with
the type and then, when there is one, with the payload. The length parameter of zlib's
`crc32` is the 32-bit `uInt`: of a payload of `len` bytes the call feeds the first
`len mod 2^32` bytes (13 for IHDR; the IDAT call at line 194 passes the 64-bit
`comp_bound`). -/
def png_crc (z : Zlib) (tag : List Nat) (payload : Option (List Nat)) : Nat :=
  match payload with
  | none => u32 (z.crc32 (u32 (z.crc32 0 [])) tag)
  | some p => u32 (z.crc32 (u32 (z.crc32 (u32 (z.crc32 0 [])) tag)) (p.take (u32 p.length)))

/-- The function `write_png_core`: its return value and the bytes it wrote to the
output file. The IDAT length field is the `uint32_t` cast of `comp_bound` (line 189) and
the IDAT checksum is `png_crc` of the payload, which covers `comp_bound mod 2^32` bytes
of it (line 194). -/
def write_png_core (env : PngEnv) (width height : Nat) (image : List Nat)
    (color_type bytes_per_pixel : Nat) : Nat × List Nat :=
  if !env.fopen_ok then (1, [])
  else
    let ihdr := png_ihdr width height color_type
    let head := png_sig ++ png_write_u32 13 ++ tag_IHDR ++ ihdr
      ++ png_write_u32 (png_crc env.zlib tag_IHDR (some ihdr))
    let raw_size := png_raw_size width height bytes_per_pixel
    match env.malloc_raw raw_size with
    | none => (1, head)
    | some raw0 =>
      let raw := png_fill_raw width height bytes_per_pixel image raw0
      if !env.malloc_comp (env.zlib.compressBound raw_size) then (1, head)
      else
        match env.zlib.compress2 raw 9 with
        | none => (1, head)
        | some comp =>
          (0, head ++ png_write_u32 (u32 comp.length) ++ tag_IDAT ++ comp
                ++ png_write_u32 (png_crc env.zlib tag_IDAT (some comp))
                ++ png_write_u32 0 ++ tag_IEND
                ++ png_write_u32 (png_crc env.zlib tag_IEND none))

/-- The big-endian 32-bit field of the chunk layout. -/
def be32 (v : Nat) : List Nat :=
  [v / 16777216 % 256, v / 65536 % 256, v / 256 % 256, v % 256]

/-- A chunk as the PNG layout words it: length, type, payload, CRC-32 of type and
payload. -/
def png_chunk (z : Zlib) (tag payload : List Nat) : List Nat :=
  be32 payload.length ++ tag ++ payload ++ be32 (z.crc32 0 (tag ++ payload))

/-- One byte step of the CRC-32 register: the byte is XORed in and the register is shifted
right eight times, the polynomial `0xEDB88320` being XORed in when a one is shifted
out. -/
def crc32_step (c b : Nat) : Nat :=
  (List.range 8).foldl
    (fun c _ => if c % 2 = 1 then (c >>> 1) ^^^ 0xEDB88320 else c >>> 1) (c ^^^ u8 b)

/-- The zlib function `crc32(crc, buf, len)`: the running value is reduced to 32 bits and
complemented, every byte of the buffer is fed to the register, and the result is
complemented again. -/
def crc32_zlib (crc : Nat) (buf : List Nat) : Nat :=
  (buf.foldl crc32_step (u32 crc ^^^ 0xFFFFFFFF)) ^^^ 0xFFFFFFFF

/-- The contract of zlib's `crc32` that the writer relies on: feeding two buffers in
turn is feeding their concatenation, and every value is a 32-bit value. -/
def CrcContract (z : Zlib) : Prop :=
  (∀ c a b, z.crc32 (z.crc32 c a) b = z.crc32 c (a ++ b)) ∧ ∀ c a, z.crc32 c a < 4294967296

/-! ## Container parser and format dispatch (`dds2png_convert`, lines 348-735) -/

/-- The constant `DDS_MAGIC`. -/
def DDS_MAGIC : Nat := 0x20534444

/-- The constant `DDS_FOURCC('D','X','1','0')`. -/
def FOURCC_DX10 : Nat := 68 ||| (88 <<< 8) ||| (49 <<< 16) ||| (48 <<< 24)

/-- A `uint32_t` field read at byte offset `off` of a buffer that `fread` filled
(little-endian host). -/
def le32 (p : List Nat) (off : Nat) : Nat :=
  rd p off + 256 * rd p (off + 1) + 65536 * rd p (off + 2) + 16777216 * rd p (off + 3)

/-- The `return 1` statements of `dds2png_convert` that precede the call of the PNG
writer, in source order. -/
inductive Reject where
  | no_input
  | bad_magic
  | short_header
  | not_dx10
  | short_dx10
  | zero_dim
  | no_payload_buffer
  | truncated
  | no_raster
  | unsupported
deriving DecidableEq

/-- The arguments with which a format branch calls `write_png_gray8`, `write_png_rgb8`
or `write_png_rgba8`. -/
structure Raster where
  w : Nat
  h : Nat
  color_type : Nat
  bytes_per_pixel : Nat
  img : List Nat

/-- What `dds2png_convert` gets from its environment: the BC7 decoder, the rounding of
`double` arithmetic and `sqrt`, whether `malloc(bc_bytes)` succeeds, the buffer returned
by the `malloc` of the raster, and the environment of the PNG writer. -/
structure Env where
  unpack_bc7 : List Nat → Bool × List color_rgba
  fl : ℚ → ℚ
  fsqrt : ℚ → ℚ
  malloc_bc : Nat → Bool
  malloc_img : Nat → Option (List Nat)
  png : PngEnv

/-- One format branch: allocate and read `block_count * bs` payload bytes, allocate the
raster of `w * h * c` bytes, run the assembly loop. -/
def convert_branch (env : Env) (file : List Nat) (w h bs c color_type : Nat)
    (texel : List Nat → Nat → List Nat) : Except Reject Raster :=
  let block_count := u64 (blocks_of w * blocks_of h)
  let bc_bytes := u64 (block_count * bs)
  if !env.malloc_bc bc_bytes then .error Reject.no_payload_buffer
  else if file.length - 148 < bc_bytes then .error Reject.truncated
  else
    let bc := (file.drop 148).take bc_bytes
    match env.malloc_img (u64 (u64 (w * h) * c)) with
    | none => .error Reject.no_raster
    | some img0 => .ok (Raster.mk w h color_type c (assemble w h c bs texel bc img0))

/-- The function `dds2png_convert` up to the call of the PNG writer; `file` is the
content of the input file, `none` when it cannot be opened. -/
def dds2png_raster (env : Env) (file : Option (List Nat)) : Except Reject Raster :=
  match file with
  | none => .error Reject.no_input
  | some f =>
    if f.length < 4 ∨ le32 f 0 ≠ DDS_MAGIC then .error Reject.bad_magic
    else if f.length < 128 then .error Reject.short_header
    else if le32 f 84 ≠ FOURCC_DX10 then .error Reject.not_dx10
    else if f.length < 148 then .error Reject.short_dx10
    else
      let w := le32 f 16
      let h := le32 f 12
      if w = 0 ∨ h = 0 then .error Reject.zero_dim
      else
        let fmt := le32 f 128
        if fmt = 71 then convert_branch env f w h 8 4 6 texel_bc1
        else if fmt = 74 then convert_branch env f w h 16 4 6 texel_bc2
        else if fmt = 77 then convert_branch env f w h 16 4 6 texel_bc3
        else if fmt = 80 then convert_branch env f w h 8 1 0 texel_bc4
        else if fmt = 83 then convert_branch env f w h 16 3 2 (texel_bc5 env.fl env.fsqrt)
        else if fmt = 98 then convert_branch env f w h 16 4 6 (texel_bc7 env.unpack_bc7)
        else .error Reject.unsupported

/-- The function `dds2png_convert`: its return value and the bytes written to the
output file. -/
def dds2png_convert (env : Env) (file : Option (List Nat)) : Nat × List Nat :=
  match dds2png_raster env file with
  | .error _ => (1, [])
  | .ok r => write_png_core env.png r.w r.h r.img r.color_type r.bytes_per_pixel

/-- A rejection at a header check, before any payload byte is read or decoded. -/
def Reject.at_header (e : Reject) : Prop :=
  e = Reject.bad_magic ∨ e = Reject.short_header ∨ e = Reject.not_dx10 ∨
    e = Reject.short_dx10 ∨ e = Reject.zero_dim ∨ e = Reject.unsupported

/-- The header checks of `dds2png_convert` all pass: at least 148 bytes, the magic, the
`DX10` FourCC, and non-zero width and height. -/
def ValidHeader (f : List Nat) : Prop :=
  148 ≤ f.length ∧ le32 f 0 = DDS_MAGIC ∧ le32 f 84 = FOURCC_DX10 ∧
    le32 f 16 ≠ 0 ∧ le32 f 12 ≠ 0

/-! ## Named parts of the BC5 store -/

/-- The value `nz2 = 1.0 - nx*nx - ny*ny` of the BC5 branch (line 656). -/
def bc5_nz2 (fl : ℚ → ℚ) (nx ny : ℚ) : ℚ := fl (fl (1 - fl (nx * nx)) - fl (ny * ny))

/-- The value `nz = (nz2 > 0.0) ? sqrt(nz2) : 0.0` of the BC5 branch (line 657). -/
def bc5_nz (fl fsqrt : ℚ → ℚ) (nx ny : ℚ) : ℚ :=
  if bc5_nz2 fl nx ny > 0 then fsqrt (bc5_nz2 fl nx ny) else 0

/-! ## The second BC4 decoder (`decode_bc4`, `dds_bc4_bc5_to_png.c` lines 182-209) -/

/-- The function `decode_bc4` of `dds_bc4_bc5_to_png.c`. The palette entries are stored
into `uint8_t pal[8]` without an explicit cast. -/
def decode_bc4 (blk : List Nat) : List Nat :=
  let r0 := rd blk 0
  let r1 := rd blk 1
  let pal2 := if r0 > r1 then u8 ((6*r0 + r1 + 3) / 7) else u8 ((4*r0 + r1 + 2) / 5)
  let pal3 := if r0 > r1 then u8 ((5*r0 + 2*r1 + 3) / 7) else u8 ((3*r0 + 2*r1 + 2) / 5)
  let pal4 := if r0 > r1 then u8 ((4*r0 + 3*r1 + 3) / 7) else u8 ((2*r0 + 3*r1 + 2) / 5)
  let pal5 := if r0 > r1 then u8 ((3*r0 + 4*r1 + 3) / 7) else u8 ((r0 + 4*r1 + 2) / 5)
  let pal6 := if r0 > r1 then u8 ((2*r0 + 5*r1 + 3) / 7) else 0
  let pal7 := if r0 > r1 then u8 ((r0 + 6*r1 + 3) / 7) else 255
  let pal := [r0, r1, pal2, pal3, pal4, pal5, pal6, pal7]
  let bits := (List.range 6).foldl (fun bits i => bits ||| u64 (rd blk (2 + i) <<< (8 * i))) 0
  (List.range 16).map fun i => rd pal ((bits >>> (3 * i)) &&& 7)

/-! ## Write failures of the PNG writer -/

/-- The function `write_png_core` on an output device that accepts only the first `cap`
bytes: every `fwrite` beyond them fails. The code never inspects the result of `fwrite`
or `fclose`, so the return value is the one of `write_png_core`; the second component
is what reached the file. -/
def write_png_core_disk (env : PngEnv) (cap width height : Nat) (image : List Nat)
    (color_type bytes_per_pixel : Nat) : Nat × List Nat :=
  ((write_png_core env width height image color_type bytes_per_pixel).1,
   ((write_png_core env width height image color_type bytes_per_pixel).2).take cap)

/-! ## Header layout (`DDS_PIXELFORMAT`, `DDS_HEADER`, `DDS_HEADER_DX10`, lines 43-81) -/

/-- Sizes in bytes of the fields of the packed struct `DDS_PIXELFORMAT`, in order:
`dwSize, dwFlags, dwFourCC, dwRGBBitCount, dwRBitMask, dwGBitMask, dwBBitMask,
dwABitMask`. -/
def DDS_PIXELFORMAT_fields : List Nat := [4, 4, 4, 4, 4, 4, 4, 4]

/-- Sizes in bytes of the fields of the packed struct `DDS_HEADER`, in order:
`dwSize, dwFlags, dwHeight, dwWidth, dwPitchOrLinearSize, dwDepth, dwMipMapCount,
dwReserved1[11], ddspf, dwCaps, dwCaps2, dwCaps3, dwCaps4, dwReserved2`. -/
def DDS_HEADER_fields : List Nat :=
  [4, 4, 4, 4, 4, 4, 4, 11 * 4, DDS_PIXELFORMAT_fields.sum, 4, 4, 4, 4, 4]

/-- Sizes in bytes of the fields of the packed struct `DDS_HEADER_DX10`, in order:
`dxgiFormat, resourceDimension, miscFlag, arraySize, miscFlags2`. -/
def DDS_HEADER_DX10_fields : List Nat := [4, 4, 4, 4, 4]

/-- Offset of field number `k` in a packed struct (`#pragma pack(push,1)`). -/
def field_offset (fields : List Nat) (k : Nat) : Nat := (fields.take k).sum

/-- The block size of a supported format: 8 bytes for codes 71 and 80, 16 bytes for the
others. -/
def block_size (fmt : Nat) : Nat := if fmt = 71 ∨ fmt = 80 then 8 else 16

/-- The number of payload bytes `bc_bytes` that the branch of the file's format reads. -/
def payload_bytes (f : List Nat) : Nat :=
  blocks_of (le32 f 16) * blocks_of (le32 f 12) * block_size (le32 f 128)

/-- The pixel decoder of the branch of a supported format code (lines 456-722). -/
def format_texel (env : Env) (fmt : Nat) : List Nat → Nat → List Nat :=
  if fmt = 71 then texel_bc1
  else if fmt = 74 then texel_bc2
  else if fmt = 77 then texel_bc3
  else if fmt = 80 then texel_bc4
  else if fmt = 83 then texel_bc5 env.fl env.fsqrt
  else texel_bc7 env.unpack_bc7

/-- The number of bytes per pixel of the raster of a supported format code. -/
def format_channels (fmt : Nat) : Nat := if fmt = 80 then 1 else if fmt = 83 then 3 else 4

/-- The PNG colour type of the raster of a supported format code. -/
def format_color_type (fmt : Nat) : Nat := if fmt = 80 then 0 else if fmt = 83 then 2 else 6

/-! ## Worker pool scheduler (`workerThread`, `main`, `batch_dds2png.cpp` lines 104-210) -/

/-- The struct `Job`. -/
structure Job where
  dds : String
  png : String
deriving DecidableEq

/-- Where a worker thread stands in `workerThread`.
* `check`: about to take `queueMutex` and evaluate the predicate
  `!jobQueue.empty() || done.load()` of `queueCV.wait` (loop entry or after a wake-up);
* `parking`: the predicate was false; the thread holds the mutex and is about to block
  in `wait`, it is not yet a waiter of `queueCV`;
* `waiting`: blocked in `wait`, to be unblocked by `notify_all`;
* `working job`: the job was popped and the mutex released; `dds2png_convert` runs,
  then `jobsFinished++`;
* `exited`: returned. -/
inductive WorkerPc where
  | check
  | parking
  | waiting
  | working (job : Job)
  | exited
deriving DecidableEq

/-- Where the main thread stands after it has filled the queue and launched the workers.
* `notify_start`: about to call `queueCV.notify_all()` (line 200);
* `polling`: in the loop `while (jobsFinished.load() < jobsTotal.load())`;
* `set_done`: the loop was left, about to execute `done = true`;
* `notify_done`: about to call `queueCV.notify_all()` (line 208);
* `joining`: in the `join` loop;
* `finished`: about to return. -/
inductive MainPc where
  | notify_start
  | polling
  | set_done
  | notify_done
  | joining
  | finished
deriving DecidableEq

/-- The shared state of the scheduler and the position of every thread. `counted` is a
ghost record of the jobs whose `jobsFinished++` has been executed, latest first. -/
structure Sched where
  jobQueue : List Job
  done : Bool
  jobsTotal : Nat
  jobsFinished : Nat
  workers : List WorkerPc
  main : MainPc
  counted : List Job
deriving DecidableEq

/-- A thread that takes the next step: worker number `i`, whose call of
`dds2png_convert` returns `ret` if it is the step that finishes a job, or the main
thread. -/
inductive Actor where
  | worker (i : Nat) (ret : Int)
  | main_thread

/-- The effect of `queueCV.notify_all()`: every waiter is unblocked and will evaluate
the predicate again. -/
def notify_all (ws : List WorkerPc) : List WorkerPc :=
  ws.map fun w => if w = WorkerPc.waiting then WorkerPc.check else w

/-- The job a worker holds: popped from the queue and not yet counted. -/
def worker_job (w : WorkerPc) : List Job :=
  match w with
  | WorkerPc.working job => [job]
  | _ => []

/-- The jobs that are in flight, over all workers. -/
def in_flight (ws : List WorkerPc) : List Job := ws.flatMap worker_job

/-- One step of worker `i` (lines 106-130); `none` when the worker is blocked, has
returned or does not exist. -/
def worker_step (s : Sched) (i : Nat) (_ret : Int) : Option Sched :=
  match s.workers[i]? with
  | some WorkerPc.check =>
    match s.jobQueue with
    | [] =>
      if s.done then some { s with workers := s.workers.set i WorkerPc.exited }
      else some { s with workers := s.workers.set i WorkerPc.parking }
    | job :: rest =>
      some { s with jobQueue := rest, workers := s.workers.set i (WorkerPc.working job) }
  | some WorkerPc.parking => some { s with workers := s.workers.set i WorkerPc.waiting }
  | some (WorkerPc.working job) =>
    some { s with jobsFinished := s.jobsFinished + 1, counted := job :: s.counted,
                  workers := s.workers.set i WorkerPc.check }
  | _ => none

/-- One step of the main thread (lines 200-210); `none` while it sleeps in the polling
loop, while a `join` blocks, and after the last statement. -/
def main_step (s : Sched) : Option Sched :=
  match s.main with
  | MainPc.notify_start => some { s with workers := notify_all s.workers, main := MainPc.polling }
  | MainPc.polling =>
    if s.jobsFinished < s.jobsTotal then none else some { s with main := MainPc.set_done }
  | MainPc.set_done => some { s with done := true, main := MainPc.notify_done }
  | MainPc.notify_done => some { s with workers := notify_all s.workers, main := MainPc.joining }
  | MainPc.joining =>
    if s.workers.all (fun w => decide (w = WorkerPc.exited)) then
      some { s with main := MainPc.finished }
    else none
  | MainPc.finished => none

/-- One step of the scheduler by the given thread. -/
def sched_step (s : Sched) (a : Actor) : Option Sched :=
  match a with
  | Actor.worker i ret => worker_step s i ret
  | Actor.main_thread => main_step s

/-- The state after the queue is filled and the threads are launched (lines 179-198):
no thread is launched when there is no job; the thread count is floored at 1. -/
def sched_init (jobs : List Job) (threads : Int) : Sched :=
  if jobs = [] then Sched.mk [] false 0 0 [] MainPc.finished []
  else Sched.mk jobs false jobs.length 0
    (List.replicate (if threads < 1 then 1 else threads.toNat) WorkerPc.check)
    MainPc.notify_start []

/-- The state reached from `s` when the threads step in the order given by `schedule`;
`none` if a scheduled thread cannot step. -/
def sched_run (s : Sched) (schedule : List Actor) : Option Sched :=
  schedule.foldl (fun st a => st.bind fun s => sched_step s a) (some s)

/-- The states reachable from the initial state of a batch. -/
def Reachable (jobs : List Job) (threads : Int) (s : Sched) : Prop :=
  ∃ schedule, sched_run (sched_init jobs threads) schedule = some s

/-- Progress rank of a worker position: the number of steps the worker can still take
without popping a job and without being notified. -/
def worker_rank (w : WorkerPc) : Nat :=
  match w with
  | WorkerPc.exited => 0
  | WorkerPc.waiting => 1
  | WorkerPc.parking => 2
  | WorkerPc.check => 3
  | WorkerPc.working _ => 4

/-- Progress rank of the main thread: the number of statements it still has to execute. -/
def main_rank (m : MainPc) : Nat :=
  match m with
  | MainPc.notify_start => 5
  | MainPc.polling => 4
  | MainPc.set_done => 3
  | MainPc.notify_done => 2
  | MainPc.joining => 1
  | MainPc.finished => 0

/-- A bound on the number of steps that remain possible from a state. -/
def sched_measure (s : Sched) : Nat :=
  (2 * s.workers.length + 1) * main_rank s.main + (s.workers.map worker_rank).sum
    + 2 * s.jobQueue.length

/-! ## Test inputs -/

/-- The four bytes of a little-endian `uint32_t` field in a file. -/
def le32_bytes (v : Nat) : List Nat :=
  [v % 256, v / 256 % 256, v / 65536 % 256, v / 16777216 % 256]

/-- A 148-byte DDS header with DX10 extension: magic, `dwSize = 124`, the given height
and width, FourCC `DX10`, the given DXGI format code, all other fields zero. -/
def dds_header (w h fmt : Nat) : List Nat :=
  [68, 68, 83, 32] ++ le32_bytes 124 ++ List.replicate 4 0 ++ le32_bytes h ++ le32_bytes w
    ++ List.replicate 64 0 ++ [68, 88, 49, 48] ++ List.replicate 40 0 ++ le32_bytes fmt
    ++ List.replicate 16 0

/-- A checksum for tests that satisfies the contract of `crc32` (feeding two buffers in
turn is feeding their concatenation, values are 32-bit): the sum of the bytes added to
the running value; and a compressor stand-in that returns the payload `comp`. -/
def sum_zlib (comp : List Nat) : Zlib :=
  Zlib.mk (fun c buf => (c + buf.sum) % 4294967296) (fun n => n + 64) (fun _ _ => some comp)

/-- A compressed payload of `n + 2` bytes for tests: a zero byte, `n` zero bytes and a
byte 7. -/
def wide_payload (n : Nat) : List Nat := 0 :: (List.replicate n 0 ++ [7])

/-- A PNG-writer environment for tests in which every step succeeds and the compressor
returns `wide_payload n`. -/
def wide_png_env (n : Nat) : PngEnv :=
  PngEnv.mk true (fun k => some (List.replicate k 0)) (fun _ => true)
    (sum_zlib (wide_payload n))

/-- Two jobs for tests. -/
def sample_job : Job := ⟨"a.dds", "a.png"⟩

def sample_job2 : Job := ⟨"b.dds", "b.png"⟩

/-- A PNG-writer environment for tests: every `malloc` succeeds and returns zeroed
memory, `crc32` is the real CRC-32, and the compressor stand-in stores its input. -/
def sample_png_env (fopen_ok : Bool) : PngEnv :=
  PngEnv.mk fopen_ok (fun n => some (List.replicate n 0)) (fun _ => true)
    (Zlib.mk crc32_zlib (fun n => n + 64) (fun src _ => some src))

/-- A converter environment for tests: a BC7 decoder that always fails, exact
arithmetic, allocations that succeed with zeroed memory. -/
def sample_env (fopen_ok : Bool) : Env :=
  Env.mk (fun _ => (false, [])) id id (fun _ => true) (fun n => some (List.replicate n 0))
    (sample_png_env fopen_ok)

/-! ## Buffers and bit fields -/

theorem rd_map_range (f : Nat → Nat) (n i : Nat) (hi : i < n) :
    rd ((List.range n).map f) i = f i := by
  simp [rd, hi]

theorem rd_take (p : List Nat) (n i : Nat) (hi : i < n) : rd (p.take n) i = rd p i := by
  simp [rd, List.getElem?_take, hi]

theorem rd_drop (p : List Nat) (n i : Nat) : rd (p.drop n) i = rd p (n + i) := by
  simp [rd]

theorem isBytes_rd (p : List Nat) (hp : IsBytes p) (i : Nat) : rd p i < 256 := by
  unfold rd
  rcases h : p[i]? with _ | b
  · simp
  · simpa using hp b (List.getElem?_mem h)

theorem lor_shl (a b n : Nat) (ha : a < 2 ^ n) : a ||| (b <<< n) = a + 2 ^ n * b := by
  rw [Nat.or_comm, Nat.shiftLeft_eq, Nat.mul_comm, ← Nat.mul_add_lt_is_or ha, Nat.add_comm]

theorem and_7 (x : Nat) : x &&& 7 = x % 8 := Nat.and_pow_two_sub_one_eq_mod x 3
theorem and_3 (x : Nat) : x &&& 3 = x % 4 := Nat.and_pow_two_sub_one_eq_mod x 2
theorem and_15 (x : Nat) : x &&& 15 = x % 16 := Nat.and_pow_two_sub_one_eq_mod x 4
theorem and_31 (x : Nat) : x &&& 31 = x % 32 := Nat.and_pow_two_sub_one_eq_mod x 5
theorem and_63 (x : Nat) : x &&& 63 = x % 64 := Nat.and_pow_two_sub_one_eq_mod x 6

/-- The little-endian accumulation loop `bits |= ((uint64_t)f(i)) << (8 * i)`. -/
theorem le_fold (f : Nat → Nat) (hf : ∀ i, f i < 256) (n : Nat) (hn : n ≤ 8) :
    (List.range n).foldl (fun bits i => bits ||| u64 (f i <<< (8 * i))) 0
        = ∑ i in Finset.range n, 256 ^ i * f i ∧
      ∑ i in Finset.range n, 256 ^ i * f i < 256 ^ n := by
  induction n with
  | zero => simp
  | succ n ih =>
    obtain ⟨ih1, ih2⟩ := ih (by omega)
    have hpow : (256 : Nat) ^ n = 2 ^ (8 * n) := by
      rw [pow_mul]; norm_num
    have hle : 256 ^ n * f n ≤ 256 ^ n * 255 := Nat.mul_le_mul_left _ (by have := hf n; omega)
    have hP : (256 : Nat) ^ n ≤ 256 ^ 7 := Nat.pow_le_pow_right (by norm_num) (by omega)
    have hu : u64 (f n <<< (8 * n)) = 256 ^ n * f n := by
      rw [Nat.shiftLeft_eq, ← hpow, Nat.mul_comm]
      unfold u64
      apply Nat.mod_eq_of_lt
      norm_num at hP
      omega
    rw [List.range_succ, List.foldl_append, ih1, Finset.sum_range_succ]
    simp only [List.foldl_cons, List.foldl_nil]
    constructor
    · rw [Nat.shiftLeft_eq, ← hpow] at hu
      rw [Nat.shiftLeft_eq, ← hpow, hu]
      have := lor_shl (∑ i in Finset.range n, 256 ^ i * f i) (f n) (8 * n) (by rw [← hpow]; exact ih2)
      rw [Nat.shiftLeft_eq, ← hpow] at this
      rw [Nat.mul_comm (256 ^ n) (f n), this, Nat.mul_comm]
    · rw [pow_succ]; omega

theorem bc4_bits_eq (block : List Nat) (hb : IsBytes block) :
    bc4_bits block = rd block 2 + 256 * rd block 3 + 65536 * rd block 4
      + 16777216 * rd block 5 + 4294967296 * rd block 6 + 1099511627776 * rd block 7 := by
  have h := (le_fold (fun i => rd block (2 + i)) (fun i => isBytes_rd block hb _) 6 (by omega)).1
  unfold bc4_bits
  rw [h]
  simp [Finset.sum_range_succ]

theorem bc2_bits_eq (p : List Nat) (hb : IsBytes p) :
    bc2_bits p = rd p 0 + 256 * rd p 1 + 65536 * rd p 2 + 16777216 * rd p 3
      + 4294967296 * rd p 4 + 1099511627776 * rd p 5 + 281474976710656 * rd p 6
      + 72057594037927936 * rd p 7 := by
  have h := (le_fold (fun i => rd p i) (fun i => isBytes_rd p hb _) 8 (by omega)).1
  unfold bc2_bits
  rw [h]
  simp [Finset.sum_range_succ]

/-! ## The block grid -/

theorem mem_loop_tuples (w h : Nat) (v : Visit) :
    v ∈ loop_tuples w h ↔
      v.by_ < blocks_of h ∧ v.bx < blocks_of w ∧ v.py < 4 ∧ v.px < 4 := by
  simp only [loop_tuples, List.mem_flatMap, List.mem_map, List.mem_range]
  constructor
  · rintro ⟨a, ha, b, hb, c, hc, d, hd, rfl⟩
    exact ⟨ha, hb, hc, hd⟩
  · rintro ⟨ha, hb, hc, hd⟩
    exact ⟨v.by_, ha, v.bx, hb, v.py, hc, v.px, hd, rfl⟩

theorem blocks_of_le (d : Nat) : blocks_of d ≤ 1073741823 := by
  unfold blocks_of u32; omega

theorem blocks_of_eq (d : Nat) (hd : d + 3 < 4294967296) : blocks_of d = (d + 3) / 4 := by
  unfold blocks_of u32; rw [Nat.mod_eq_of_lt hd]

theorem pix_x_eq (w h : Nat) (v : Visit) (hv : v ∈ loop_tuples w h) :
    pix_x v = v.bx * 4 + v.px := by
  obtain ⟨_, hb, _, hd⟩ := (mem_loop_tuples w h v).1 hv
  have := blocks_of_le w
  unfold pix_x u32; omega

theorem pix_y_eq (w h : Nat) (v : Visit) (hv : v ∈ loop_tuples w h) :
    pix_y v = v.by_ * 4 + v.py := by
  obtain ⟨ha, _, hc, _⟩ := (mem_loop_tuples w h v).1 hv
  have := blocks_of_le h
  unfold pix_y u32; omega

theorem in_image_iff (w h : Nat) (v : Visit) (hv : v ∈ loop_tuples w h) :
    in_image w h v = true ↔ v.bx * 4 + v.px < w ∧ v.by_ * 4 + v.py < h := by
  simp [in_image, pix_x_eq w h v hv, pix_y_eq w h v hv]

/-- Two iterations that address the same pixel are the same iteration. -/
theorem visit_eq_of_pix_eq (w h : Nat) (u v : Visit) (hu : u ∈ loop_tuples w h)
    (hv : v ∈ loop_tuples w h) (hx : pix_x u = pix_x v) (hy : pix_y u = pix_y v) : u = v := by
  rw [pix_x_eq w h u hu, pix_x_eq w h v hv] at hx
  rw [pix_y_eq w h u hu, pix_y_eq w h v hv] at hy
  obtain ⟨_, _, hc, hd⟩ := (mem_loop_tuples w h u).1 hu
  obtain ⟨_, _, hc', hd'⟩ := (mem_loop_tuples w h v).1 hv
  cases u; cases v
  simp only [Visit.mk.injEq] at *
  omega

theorem u64_le (n : Nat) : u64 n ≤ n := Nat.mod_le _ _

theorem dst_index_le (w c : Nat) (v : Visit) :
    dst_index w c v ≤ (pix_y v * w + pix_x v) * c := by
  unfold dst_index
  exact (u64_le _).trans (Nat.mul_le_mul_right c (u64_le _))

theorem pixel_bytes_lt (w h c x y k : Nat) (hx : x < w) (hy : y < h) (hk : k < c) :
    (y * w + x) * c + k < w * h * c := by
  have h1 : y * w + x + 1 ≤ h * w := by
    have : (y + 1) * w ≤ h * w := Nat.mul_le_mul_right w hy
    rw [Nat.add_mul] at this
    omega
  have h2 : (y * w + x + 1) * c ≤ h * w * c := Nat.mul_le_mul_right c h1
  rw [Nat.add_mul] at h2
  rw [Nat.mul_comm w h]
  omega

theorem dst_index_eq (w h c : Nat) (v : Visit) (hx : pix_x v < w) (hy : pix_y v < h)
    (hc : 0 < c) (hsz : w * h * c < 18446744073709551616) :
    dst_index w c v = (pix_y v * w + pix_x v) * c := by
  have h1 := pixel_bytes_lt w h c (pix_x v) (pix_y v) 0 hx hy hc
  have h2 : pix_y v * w + pix_x v ≤ (pix_y v * w + pix_x v) * c := Nat.le_mul_of_pos_right _ hc
  unfold dst_index u64
  rw [Nat.mod_eq_of_lt (a := pix_y v * w + pix_x v) (by omega), Nat.mod_eq_of_lt (by omega)]

/-! ## Block decoders -/

theorem rd_flatMap4 (f : Nat → List Nat) (hf : ∀ j, (f j).length = 4) (n i k : Nat)
    (hi : i < n) (hk : k < 4) : rd ((List.range n).flatMap f) (i * 4 + k) = rd (f i) k := by
  have hlen : ∀ m, ((List.range m).flatMap f).length = m * 4 := by
    intro m
    induction m with
    | zero => simp
    | succ m ih => rw [List.range_succ, List.flatMap_append, List.length_append, ih]; simp [hf]; omega
  induction n with
  | zero => omega
  | succ n ih =>
    rw [List.range_succ, List.flatMap_append]
    unfold rd
    by_cases hin : i < n
    · rw [List.getElem?_append_left (by rw [hlen]; omega)]
      exact ih hin
    · have hie : i = n := by omega
      subst hie
      rw [List.getElem?_append_right (by rw [hlen]; omega), hlen]
      simp

theorem bc4_palette_length (r0 r1 : Nat) : (bc4_palette r0 r1).length = 8 := by
  unfold bc4_palette; split <;> rfl

theorem decode_bc4_block_rd (block : List Nat) (i : Nat) (hi : i < 16) :
    rd (decode_bc4_block block) i
      = rd (bc4_palette (rd block 0) (rd block 1)) ((bc4_bits block >>> (3 * i)) &&& 7) := by
  unfold decode_bc4_block
  exact rd_map_range _ 16 i hi

theorem bc4_bits_congr (p q : List Nat) (h : ∀ j, 2 ≤ j → j < 8 → rd p j = rd q j) :
    bc4_bits p = bc4_bits q := by
  simp [bc4_bits, List.range, List.range.loop, h]

theorem decode_bc4_block_take (p : List Nat) :
    decode_bc4_block (p.take 8) = decode_bc4_block p := by
  have hb : bc4_bits (p.take 8) = bc4_bits p :=
    bc4_bits_congr _ _ (fun j _ hj => rd_take p 8 j hj)
  unfold decode_bc4_block
  rw [hb, rd_take p 8 0 (by omega), rd_take p 8 1 (by omega)]

theorem bc1_c0_eq (block : List Nat) (hb : IsBytes block) :
    bc1_c0 block = rd block 0 + 256 * rd block 1 := by
  have h0 := isBytes_rd block hb 0
  have h1 := isBytes_rd block hb 1
  unfold bc1_c0 u16
  rw [lor_shl _ _ 8 (by norm_num; exact h0)]
  norm_num
  omega

theorem bc1_c1_eq (block : List Nat) (hb : IsBytes block) :
    bc1_c1 block = rd block 2 + 256 * rd block 3 := by
  have h0 := isBytes_rd block hb 2
  have h1 := isBytes_rd block hb 3
  unfold bc1_c1 u16
  rw [lor_shl _ _ 8 (by norm_num; exact h0)]
  norm_num
  omega

theorem bc1_indices_eq (block : List Nat) (hb : IsBytes block) :
    bc1_indices block
      = rd block 4 + 256 * rd block 5 + 65536 * rd block 6 + 16777216 * rd block 7 := by
  have h4 := isBytes_rd block hb 4
  have h5 := isBytes_rd block hb 5
  have h6 := isBytes_rd block hb 6
  have h7 := isBytes_rd block hb 7
  unfold bc1_indices u32
  rw [lor_shl _ _ 8 (by norm_num; exact h4), lor_shl _ _ 16 (by norm_num; omega),
    lor_shl _ _ 24 (by norm_num; omega)]
  norm_num
  omega

theorem bc1_idx_eq (block : List Nat) (i : Nat) :
    bc1_idx block i = (bc1_indices block / 4 ^ i) % 4 := by
  unfold bc1_idx
  rw [and_3, Nat.shiftRight_eq_div_pow, pow_mul]; norm_num

theorem bc1_idx_lt (block : List Nat) (i : Nat) : bc1_idx block i < 4 := by
  rw [bc1_idx_eq]; exact Nat.mod_lt _ (by norm_num)

theorem decode_bc1_block_rd (block : List Nat) (i k : Nat) (hi : i < 16) (hk : k < 4) :
    rd (decode_bc1_block block) (i * 4 + k)
      = rd ((bc1_palette (bc1_c0 block) (bc1_c1 block)).getD (bc1_idx block i) []) k := by
  unfold decode_bc1_block
  refine Eq.trans (rd_flatMap4 _ (fun j => ?_) 16 i k hi hk) ?_
  · rfl
  · interval_cases k <;> simp [rd]

theorem rgb565_lt (c : Nat) :
    (rgb565_to_rgb888 c).1 < 256 ∧ (rgb565_to_rgb888 c).2.1 < 256 ∧
      (rgb565_to_rgb888 c).2.2 < 256 := by
  simp only [rgb565_to_rgb888, u8]
  omega

theorem bc1_palette_gt (c0 c1 r0 g0 b0 r1 g1 b1 : Nat) (hgt : c0 > c1)
    (he0 : rgb565_to_rgb888 c0 = (r0, g0, b0)) (he1 : rgb565_to_rgb888 c1 = (r1, g1, b1)) :
    bc1_palette c0 c1 =
      [ [r0, g0, b0, 255], [r1, g1, b1, 255],
        [(2*r0 + r1) / 3, (2*g0 + g1) / 3, (2*b0 + b1) / 3, 255],
        [(r0 + 2*r1) / 3, (g0 + 2*g1) / 3, (b0 + 2*b1) / 3, 255] ] := by
  have l0 := rgb565_lt c0
  have l1 := rgb565_lt c1
  rw [he0] at l0
  rw [he1] at l1
  simp only at l0 l1
  simp only [bc1_palette, he0, he1, if_pos hgt, u8]
  have e : ∀ n, n < 256 → n % 256 = n := fun n hn => Nat.mod_eq_of_lt hn
  rw [e _ (by omega), e _ (by omega), e _ (by omega), e _ (by omega), e _ (by omega),
    e _ (by omega)]

theorem bc1_palette_le (c0 c1 r0 g0 b0 r1 g1 b1 : Nat) (hle : c0 ≤ c1)
    (he0 : rgb565_to_rgb888 c0 = (r0, g0, b0)) (he1 : rgb565_to_rgb888 c1 = (r1, g1, b1)) :
    bc1_palette c0 c1 =
      [ [r0, g0, b0, 255], [r1, g1, b1, 255],
        [(r0 + r1) / 2, (g0 + g1) / 2, (b0 + b1) / 2, 255],
        [0, 0, 0, 0] ] := by
  have l0 := rgb565_lt c0
  have l1 := rgb565_lt c1
  rw [he0] at l0
  rw [he1] at l1
  simp only at l0 l1
  have hng : ¬ c0 > c1 := by omega
  simp only [bc1_palette, he0, he1, if_neg hng, u8]
  have e : ∀ n, n < 256 → n % 256 = n := fun n hn => Nat.mod_eq_of_lt hn
  rw [e _ (by omega), e _ (by omega), e _ (by omega)]

theorem isBytes_drop (p : List Nat) (hp : IsBytes p) (n : Nat) : IsBytes (p.drop n) :=
  fun b hb => hp b (List.mem_of_mem_drop hb)

theorem isBytes_take (p : List Nat) (hp : IsBytes p) (n : Nat) : IsBytes (p.take n) :=
  fun b hb => hp b (List.mem_of_mem_take hb)

theorem decode_bc1_block_take (p : List Nat) :
    decode_bc1_block (p.take 8) = decode_bc1_block p := by
  have r : ∀ j, j < 8 → rd (p.take 8) j = rd p j := fun j hj => rd_take p 8 j hj
  have h0 : bc1_c0 (p.take 8) = bc1_c0 p := by
    unfold bc1_c0; rw [r 0 (by omega), r 1 (by omega)]
  have h1 : bc1_c1 (p.take 8) = bc1_c1 p := by
    unfold bc1_c1; rw [r 2 (by omega), r 3 (by omega)]
  have hi : ∀ i, bc1_idx (p.take 8) i = bc1_idx p i := by
    intro i
    unfold bc1_idx bc1_indices
    rw [r 4 (by omega), r 5 (by omega), r 6 (by omega), r 7 (by omega)]
  unfold decode_bc1_block
  simp only [h0, h1, hi]

theorem decode_bc2_alpha_rd (p : List Nat) (i : Nat) (hi : i < 16) :
    rd (decode_bc2_alpha p) i = 17 * ((bc2_bits p / 16 ^ i) % 16) := by
  unfold decode_bc2_alpha
  rw [rd_map_range _ 16 i hi]
  simp only [u8]
  have : (bc2_bits p >>> (4 * i)) &&& 15 = (bc2_bits p / 16 ^ i) % 16 := by
    rw [and_15, Nat.shiftRight_eq_div_pow, pow_mul]; norm_num
  rw [this]
  omega

theorem bc2_nibbles (p : List Nat) (hp : IsBytes p) (k : Nat) (hk : k < 8) :
    (bc2_bits p / 16 ^ (2 * k)) % 16 = rd p k % 16 ∧
    (bc2_bits p / 16 ^ (2 * k + 1)) % 16 = rd p k / 16 := by
  have hbits := bc2_bits_eq p hp
  have h0 := isBytes_rd p hp 0
  have h1 := isBytes_rd p hp 1
  have h2 := isBytes_rd p hp 2
  have h3 := isBytes_rd p hp 3
  have h4 := isBytes_rd p hp 4
  have h5 := isBytes_rd p hp 5
  have h6 := isBytes_rd p hp 6
  have h7 := isBytes_rd p hp 7
  rw [hbits]
  interval_cases k <;> norm_num <;> omega

theorem bc1_transparent (block : List Nat) (hle : bc1_c0 block ≤ bc1_c1 block) (i k : Nat)
    (hi : i < 16) (hk : k < 4) (h3 : bc1_idx block i = 3) :
    rd (decode_bc1_block block) (i * 4 + k) = 0 := by
  rw [decode_bc1_block_rd block i k hi hk,
    bc1_palette_le _ _ _ _ _ _ _ _ hle rfl rfl, h3]
  interval_cases k <;> simp [rd]

/-! ## The assembly fold -/

theorem rd_set (l : List Nat) (i j a : Nat) (hj : j < l.length) :
    rd (l.set i a) j = if i = j then a else rd l j := by
  unfold rd
  rw [List.getElem?_set]
  by_cases h : i = j
  · subst h; simp [hj]
  · simp [h]

theorem store_loop (img bytes : List Nat) (dst n : Nat) :
    ((List.range n).foldl (fun im k => im.set (dst + k) (rd bytes k)) img).length = img.length ∧
    ∀ j, j < img.length →
      rd ((List.range n).foldl (fun im k => im.set (dst + k) (rd bytes k)) img) j
        = if dst ≤ j ∧ j < dst + n then rd bytes (j - dst) else rd img j := by
  induction n with
  | zero =>
    refine ⟨by simp, fun j _ => ?_⟩
    rw [if_neg (by omega)]
    simp
  | succ n ih =>
    obtain ⟨ihl, ihr⟩ := ih
    rw [List.range_succ, List.foldl_append]
    simp only [List.foldl_cons, List.foldl_nil]
    refine ⟨by rw [List.length_set, ihl], fun j hj => ?_⟩
    rw [rd_set _ _ _ _ (by rw [ihl]; exact hj), ihr j hj]
    by_cases hjn : dst + n = j
    · subst hjn
      rw [if_pos rfl, if_pos (by omega)]
      congr 1
      omega
    · rw [if_neg hjn]
      by_cases hin : dst ≤ j ∧ j < dst + n
      · rw [if_pos hin, if_pos (by omega)]
      · rw [if_neg hin, if_neg (by omega)]

theorem store_pixel_length (img bytes : List Nat) (dst : Nat) :
    (store_pixel img dst bytes).length = img.length :=
  (store_loop img bytes dst bytes.length).1

theorem store_pixel_rd (img bytes : List Nat) (dst j : Nat) (hj : j < img.length) :
    rd (store_pixel img dst bytes) j
      = if dst ≤ j ∧ j < dst + bytes.length then rd bytes (j - dst) else rd img j :=
  (store_loop img bytes dst bytes.length).2 j hj

theorem assemble_step_length (w h c bs : Nat) (texel : List Nat → Nat → List Nat)
    (bc img : List Nat) (v : Visit) :
    (assemble_step w h c bs texel bc img v).length = img.length := by
  unfold assemble_step
  split
  · exact store_pixel_length _ _ _
  · rfl

theorem assemble_step_miss (w h c bs : Nat) (texel : List Nat → Nat → List Nat)
    (htex : ∀ blk idx, (texel blk idx).length = c) (bc img : List Nat) (v : Visit) (j : Nat)
    (hj : j < img.length) (hm : ¬ hits w h c v j) :
    rd (assemble_step w h c bs texel bc img v) j = rd img j := by
  unfold assemble_step
  split
  · rename_i hin
    rw [store_pixel_rd _ _ _ _ hj, htex, if_neg]
    intro hr
    exact hm ⟨hin, hr.1, hr.2⟩
  · rfl

theorem assemble_step_hit (w h c bs : Nat) (texel : List Nat → Nat → List Nat)
    (htex : ∀ blk idx, (texel blk idx).length = c) (bc img : List Nat) (v : Visit) (j : Nat)
    (hj : j < img.length) (hh : hits w h c v j) :
    rd (assemble_step w h c bs texel bc img v) j
      = rd (texel (block_ptr w bs bc v) (src_index v)) (j - dst_index w c v) := by
  unfold assemble_step
  rw [if_pos hh.1, store_pixel_rd _ _ _ _ hj, htex, if_pos ⟨hh.2.1, hh.2.2⟩]

theorem foldl_step_length (w h c bs : Nat) (texel : List Nat → Nat → List Nat)
    (bc : List Nat) (vs : List Visit) (img : List Nat) :
    (vs.foldl (assemble_step w h c bs texel bc) img).length = img.length := by
  induction vs generalizing img with
  | nil => rfl
  | cons v vs ih => rw [List.foldl_cons, ih, assemble_step_length]

theorem foldl_step_miss (w h c bs : Nat) (texel : List Nat → Nat → List Nat)
    (htex : ∀ blk idx, (texel blk idx).length = c) (bc : List Nat) (j : Nat)
    (vs : List Visit) (img : List Nat) (hj : j < img.length)
    (hm : ∀ v ∈ vs, ¬ hits w h c v j) :
    rd (vs.foldl (assemble_step w h c bs texel bc) img) j = rd img j := by
  induction vs generalizing img with
  | nil => rfl
  | cons v vs ih =>
    rw [List.foldl_cons, ih _ (by rw [assemble_step_length]; exact hj)
      (fun u hu => hm u (List.mem_cons_of_mem _ hu))]
    exact assemble_step_miss w h c bs texel htex bc img v j hj (hm v (List.mem_cons_self _ _))

theorem foldl_step_hit (w h c bs : Nat) (texel : List Nat → Nat → List Nat)
    (htex : ∀ blk idx, (texel blk idx).length = c) (bc : List Nat) (j : Nat) (v0 : Visit)
    (hh : hits w h c v0 j) (vs : List Visit) (img : List Nat) (hj : j < img.length)
    (hmem : v0 ∈ vs) (huniq : ∀ v ∈ vs, hits w h c v j → v = v0) :
    rd (vs.foldl (assemble_step w h c bs texel bc) img) j
      = rd (texel (block_ptr w bs bc v0) (src_index v0)) (j - dst_index w c v0) := by
  induction vs generalizing img with
  | nil => cases hmem
  | cons v vs ih =>
    rw [List.foldl_cons]
    have hj' : j < (assemble_step w h c bs texel bc img v).length := by
      rw [assemble_step_length]; exact hj
    have huniq' : ∀ u ∈ vs, hits w h c u j → u = v0 :=
      fun u hu => huniq u (List.mem_cons_of_mem _ hu)
    by_cases hin : v0 ∈ vs
    · exact ih _ hj' hin huniq'
    · have hv : v = v0 := by
        rcases List.mem_cons.1 hmem with h | h
        · exact h.symm
        · exact absurd h hin
      subst hv
      rw [foldl_step_miss w h c bs texel htex bc j vs _ hj']
      · exact assemble_step_hit w h c bs texel htex bc img v j hj hh
      · intro u hu hhit
        exact hin (huniq' u hu hhit ▸ hu)

theorem pixel_of_byte (a c k : Nat) (hk : k < c) : (a * c + k) / c = a := by
  have hc : 0 < c := by omega
  rw [Nat.mul_comm, Nat.mul_add_div hc, Nat.div_eq_of_lt hk, Nat.add_zero]

theorem hits_pixel (w h c : Nat) (hsz : w * h * c < 18446744073709551616) (v : Visit)
    (hv : v ∈ loop_tuples w h) (j : Nat) (hh : hits w h c v j) :
    j / c = pix_y v * w + pix_x v ∧ pix_x v < w ∧ pix_y v < h ∧
      dst_index w c v = (pix_y v * w + pix_x v) * c := by
  obtain ⟨hin, h1, h2⟩ := hh
  have hc : 0 < c := by omega
  have hxy := (in_image_iff w h v hv).1 hin
  rw [← pix_x_eq w h v hv, ← pix_y_eq w h v hv] at hxy
  have hd := dst_index_eq w h c v hxy.1 hxy.2 hc hsz
  refine ⟨?_, hxy.1, hxy.2, hd⟩
  rw [hd] at h1 h2
  have : j = (pix_y v * w + pix_x v) * c + (j - (pix_y v * w + pix_x v) * c) := by omega
  rw [this]
  exact pixel_of_byte _ _ _ (by omega)

theorem hits_unique (w h c : Nat) (hsz : w * h * c < 18446744073709551616) (u v : Visit)
    (hu : u ∈ loop_tuples w h) (hv : v ∈ loop_tuples w h) (j : Nat)
    (hhu : hits w h c u j) (hhv : hits w h c v j) : u = v := by
  obtain ⟨eu, xu, _, _⟩ := hits_pixel w h c hsz u hu j hhu
  obtain ⟨ev, xv, _, _⟩ := hits_pixel w h c hsz v hv j hhv
  have e : pix_y u * w + pix_x u = pix_y v * w + pix_x v := eu.symm.trans ev
  have ey : pix_y u = pix_y v := by
    have h1 := pixel_of_byte (pix_y u) w (pix_x u) xu
    have h2 := pixel_of_byte (pix_y v) w (pix_x v) xv
    rw [e] at h1
    exact h1.symm.trans h2
  have ex : pix_x u = pix_x v := by
    rw [ey] at e
    omega
  exact visit_eq_of_pix_eq w h u v hu hv ex ey

/-- Content of the assembled raster: byte `k` of pixel `(x, y)` is byte `k` of the texel
that the block containing `(x, y)` yields for sub-pixel `(y mod 4)*4 + (x mod 4)`. -/
theorem assemble_rd (w h c bs : Nat) (texel : List Nat → Nat → List Nat)
    (htex : ∀ blk idx, (texel blk idx).length = c) (bc img : List Nat)
    (hw : w + 3 < 4294967296) (hh : h + 3 < 4294967296) (hbs : bs ≤ 16)
    (hlen : img.length = w * h * c) (hsz : w * h * c < 18446744073709551616)
    (x y k : Nat) (hx : x < w) (hy : y < h) (hk : k < c) :
    rd (assemble w h c bs texel bc img) ((y * w + x) * c + k)
      = rd (texel (bc.drop (((y / 4) * ((w + 3) / 4) + x / 4) * bs))
          ((y % 4) * 4 + x % 4)) k := by
  have hm : Visit.mk (y / 4) (x / 4) (y % 4) (x % 4) ∈ loop_tuples w h := by
    rw [mem_loop_tuples, blocks_of_eq w hw, blocks_of_eq h hh]
    simp only
    omega
  have hpx : pix_x (Visit.mk (y / 4) (x / 4) (y % 4) (x % 4)) = x := by
    rw [pix_x_eq w h _ hm]; simp only; omega
  have hpy : pix_y (Visit.mk (y / 4) (x / 4) (y % 4) (x % 4)) = y := by
    rw [pix_y_eq w h _ hm]; simp only; omega
  have hd : dst_index w c (Visit.mk (y / 4) (x / 4) (y % 4) (x % 4)) = (y * w + x) * c := by
    have := dst_index_eq w h c _ (by rw [hpx]; exact hx) (by rw [hpy]; exact hy) (by omega) hsz
    rwa [hpx, hpy] at this
  have hhit : hits w h c (Visit.mk (y / 4) (x / 4) (y % 4) (x % 4)) ((y * w + x) * c + k) := by
    refine ⟨?_, by rw [hd]; omega, by rw [hd]; omega⟩
    rw [in_image_iff w h _ hm]
    simp only
    omega
  have hj : (y * w + x) * c + k < img.length := by
    rw [hlen]; exact pixel_bytes_lt w h c x y k hx hy hk
  have hptr : block_ptr w bs bc (Visit.mk (y / 4) (x / 4) (y % 4) (x % 4))
      = bc.drop (((y / 4) * ((w + 3) / 4) + x / 4) * bs) := by
    unfold block_ptr
    rw [blocks_of_eq w hw]
    simp only
    have h1 : y / 4 * ((w + 3) / 4) ≤ 1073741823 * 1073741823 :=
      Nat.mul_le_mul (by omega) (by omega)
    have h2 : (y / 4 * ((w + 3) / 4) + x / 4) * bs ≤ (1073741823 * 1073741823 + 1073741823) * 16 :=
      Nat.mul_le_mul (by omega) hbs
    unfold u64
    rw [Nat.mod_eq_of_lt (a := y / 4 * ((w + 3) / 4) + x / 4) (by omega),
      Nat.mod_eq_of_lt (by omega)]
  have := foldl_step_hit w h c bs texel htex bc _ _ hhit (loop_tuples w h) img hj hm
    (fun v hv hvh => hits_unique w h c hsz v _ hv hm _ hvh hhit)
  unfold assemble
  rw [this, hd, hptr]
  simp only [src_index]
  congr 1
  omega

/-- The assembly fold is the sequence of stores of the iterations that pass the clip
test. -/
theorem assemble_eq_stores (w h c bs : Nat) (texel : List Nat → Nat → List Nat)
    (bc img : List Nat) :
    assemble w h c bs texel bc img
      = ((loop_tuples w h).filter (in_image w h)).foldl
          (fun im v => store_pixel im (dst_index w c v)
            (texel (block_ptr w bs bc v) (src_index v))) img := by
  unfold assemble
  generalize loop_tuples w h = vs
  induction vs generalizing img with
  | nil => rfl
  | cons v vs ih =>
    rw [List.foldl_cons, ih]
    by_cases hv : in_image w h v = true
    · rw [List.filter_cons_of_pos hv, List.foldl_cons]
      simp [assemble_step, hv]
    · rw [List.filter_cons_of_neg hv]
      simp [assemble_step, hv]

/-! ## Image assembly: the stated properties -/

/-- C2: no out-of-bounds write during assembly. For every width `w`, height `h`, channel
count `c` (in particular 1, 3 and 4) and every tuple `v` visited by the loop: the clip
test passes exactly when `x = bx*4+px < w` and `y = by*4+py < h` (no 32-bit wrap occurs
in `x` or `y`); when it passes, each byte index written, `dst + k` with `k < c`, is at
most `(y*w + x)*c + k`, which is below the raster size `w*h*c`, and equals it whenever
the raster size fits in `size_t`; when it fails, the iteration leaves the raster
unchanged. -/
theorem assembly_writes_in_bounds (w h c : Nat) (v : Visit) (hv : v ∈ loop_tuples w h) :
    (in_image w h v = true ↔ v.bx * 4 + v.px < w ∧ v.by_ * 4 + v.py < h) ∧
    (in_image w h v = true → ∀ k, k < c →
      dst_index w c v + k ≤ ((v.by_ * 4 + v.py) * w + (v.bx * 4 + v.px)) * c + k ∧
      ((v.by_ * 4 + v.py) * w + (v.bx * 4 + v.px)) * c + k < w * h * c ∧
      (w * h * c < 18446744073709551616 →
        dst_index w c v + k = ((v.by_ * 4 + v.py) * w + (v.bx * 4 + v.px)) * c + k)) ∧
    (in_image w h v = false → ∀ (bs : Nat) (texel : List Nat → Nat → List Nat)
      (bc img : List Nat), assemble_step w h c bs texel bc img v = img) := by
  have hxe := pix_x_eq w h v hv
  have hye := pix_y_eq w h v hv
  refine ⟨in_image_iff w h v hv, ?_, ?_⟩
  · intro hin k hk
    obtain ⟨hx, hy⟩ := (in_image_iff w h v hv).1 hin
    have hle := dst_index_le w c v
    rw [hxe, hye] at hle
    refine ⟨by omega, pixel_bytes_lt w h c _ _ k hx hy hk, ?_⟩
    intro hsz
    have := dst_index_eq w h c v (by rw [hxe]; exact hx) (by rw [hye]; exact hy) (by omega) hsz
    rw [hxe, hye] at this
    omega
  · intro hout bs texel bc img
    simp [assemble_step, hout]

/-- Witness for C2: the last sub-pixel of block `(1, 1)` of a 6x6 RGBA image is clipped
(`x = 7`), and sub-pixel `(1, 1)` of that block is stored at bytes `140 .. 143 < 144`. -/
theorem assembly_writes_in_bounds_witness :
    Visit.mk 1 1 1 1 ∈ loop_tuples 6 6 ∧
      (dst_index 6 4 (Visit.mk 1 1 1 1) + 3 ≤ ((1 * 4 + 1) * 6 + (1 * 4 + 1)) * 4 + 3 ∧
        ((1 * 4 + 1) * 6 + (1 * 4 + 1)) * 4 + 3 < 6 * 6 * 4) ∧
      in_image 6 6 (Visit.mk 1 1 3 3) = false :=
  ⟨by decide,
    ⟨((assembly_writes_in_bounds 6 6 4 (Visit.mk 1 1 1 1) (by decide)).2.1
        (by decide) 3 (by decide)).1,
     ((assembly_writes_in_bounds 6 6 4 (Visit.mk 1 1 1 1) (by decide)).2.1
        (by decide) 3 (by decide)).2.1⟩,
    by decide⟩

/-- Content of the BC4 raster when the grid sizes do not wrap: for `w + 3` and `h + 3`
below `2^32`, any payload and any initial raster of `w*h` bytes, the byte at index
`y*w + x` of the assembled raster is entry `(y mod 4)*4 + (x mod 4)` of
`decode_bc4_block` applied to the 8-byte block at block index
`(y div 4)*blocks_x + (x div 4)` of the payload. -/
theorem bc4_raster_content (w h : Nat) (bc img : List Nat)
    (hw : w + 3 < 4294967296) (hh : h + 3 < 4294967296) (hlen : img.length = w * h)
    (x y : Nat) (hx : x < w) (hy : y < h) :
    rd (assemble_bc4 w h bc img) (y * w + x)
      = rd (decode_bc4_block
          ((bc.drop (((y / 4) * blocks_of w + x / 4) * 8)).take 8)) ((y % 4) * 4 + x % 4) := by
  have hsz : w * h * 1 < 18446744073709551616 := by
    have hle : w * h ≤ 4294967295 * 4294967295 := Nat.mul_le_mul (by omega) (by omega)
    rw [Nat.mul_one]
    exact Nat.lt_of_le_of_lt hle (by norm_num)
  have := assemble_rd w h 1 8 texel_bc4 (fun _ _ => rfl) bc img hw hh (by omega)
    (by rw [hlen, Nat.mul_one]) hsz x y 0 hx hy (by omega)
  rw [Nat.mul_one, Nat.add_zero] at this
  unfold assemble_bc4
  rw [this, blocks_of_eq w hw, decode_bc4_block_take]
  simp [texel_bc4, rd]

/-- The end-to-end example: an 8x8 BC4 image whose first block has endpoints `(255, 0)`
and first index 0 has top-left pixel 255, whatever the other indices, the other blocks
and the initial raster hold. -/
theorem bc4_top_left_pixel (rest img : List Nat) (b2 b3 b4 b5 b6 b7 : Nat)
    (hb : IsBytes [255, 0, b2, b3, b4, b5, b6, b7]) (h0 : b2 % 8 = 0)
    (hlen : img.length = 64) :
    rd (assemble_bc4 8 8 ([255, 0, b2, b3, b4, b5, b6, b7] ++ rest) img) 0 = 255 := by
  have := bc4_raster_content 8 8 ([255, 0, b2, b3, b4, b5, b6, b7] ++ rest) img (by decide)
    (by decide) hlen 0 0 (by decide) (by decide)
  simp only [Nat.zero_mul, Nat.zero_div, Nat.zero_mod, Nat.add_zero, List.drop_zero] at this
  have htake : (([255, 0, b2, b3, b4, b5, b6, b7] ++ rest).take 8)
      = [255, 0, b2, b3, b4, b5, b6, b7] := by simp
  rw [this, htake, decode_bc4_block_rd _ 0 (by decide), bc4_bits_eq _ hb, and_7,
    Nat.shiftRight_eq_div_pow]
  have e : (rd [255, 0, b2, b3, b4, b5, b6, b7] 2 + 256 * rd [255, 0, b2, b3, b4, b5, b6, b7] 3
      + 65536 * rd [255, 0, b2, b3, b4, b5, b6, b7] 4
      + 16777216 * rd [255, 0, b2, b3, b4, b5, b6, b7] 5
      + 4294967296 * rd [255, 0, b2, b3, b4, b5, b6, b7] 6
      + 1099511627776 * rd [255, 0, b2, b3, b4, b5, b6, b7] 7) / 2 ^ (3 * 0) % 8 = 0 := by
    simp only [rd, List.getElem?_cons_succ, List.getElem?_cons_zero, Option.getD_some]
    norm_num
    omega
  rw [e]
  simp [rd, bc4_palette]

/-- C3: the BC4 raster for a width whose grid size wraps. For `w = 4294967295`, `h = 1`
the code computes `blocks_x = 0`, so the assembly loop has no iteration and returns the
raster it was given, for every payload: byte 0 of the result is whatever byte 0 of the
freshly allocated raster held, although entry 0 of `decode_bc4_block` applied to block 0
of the payload `FF FF FF FF FF FF FF FF` is 255. -/
theorem bc4_assembly_wide_image :
    blocks_of 4294967295 = 0 ∧
    loop_tuples 4294967295 1 = [] ∧
    (∀ bc img : List Nat, assemble_bc4 4294967295 1 bc img = img) ∧
    (∀ img : List Nat,
      rd (assemble_bc4 4294967295 1 [255, 255, 255, 255, 255, 255, 255, 255] img)
        (0 * 4294967295 + 0) = rd img 0) ∧
    rd (decode_bc4_block
        (([255, 255, 255, 255, 255, 255, 255, 255].drop
          (((0 / 4) * blocks_of 4294967295 + 0 / 4) * 8)).take 8)) ((0 % 4) * 4 + 0 % 4)
      = 255 := by
  have hb : blocks_of 4294967295 = 0 := by decide
  have hl : loop_tuples 4294967295 1 = [] := by
    simp [loop_tuples, hb]
  have ha : ∀ bc img : List Nat, assemble_bc4 4294967295 1 bc img = img := by
    intro bc img
    simp [assemble_bc4, assemble, hl]
  refine ⟨hb, hl, ha, ?_, ?_⟩
  · intro img
    rw [ha]
  · rw [hb]
    decide

/-! ## Block decoders: the stated properties -/

/-- C4: BC1 four-colour mode. For a block of bytes whose little-endian 16-bit endpoints
satisfy `c0 > c1`, with `(r0, g0, b0)` and `(r1, g1, b1)` the RGB888 expansions of `c0`
and `c1`, pixel `i` of `decode_bc1_block` is entry `idx < 4` of the palette
`[e0, e1, (2*e0+e1)/3, (e0+2*e1)/3]` (per component, truncating division, every alpha
255), and its alpha byte is 255. -/
theorem bc1_four_colour_mode (block : List Nat) (hb : IsBytes block) (r0 g0 b0 r1 g1 b1 : Nat)
    (he0 : rgb565_to_rgb888 (bc1_c0 block) = (r0, g0, b0))
    (he1 : rgb565_to_rgb888 (bc1_c1 block) = (r1, g1, b1))
    (hgt : bc1_c0 block > bc1_c1 block) (i : Nat) (hi : i < 16) :
    bc1_c0 block = rd block 0 + 256 * rd block 1 ∧
    bc1_c1 block = rd block 2 + 256 * rd block 3 ∧
    bc1_palette (bc1_c0 block) (bc1_c1 block) =
      [ [r0, g0, b0, 255], [r1, g1, b1, 255],
        [(2*r0 + r1) / 3, (2*g0 + g1) / 3, (2*b0 + b1) / 3, 255],
        [(r0 + 2*r1) / 3, (g0 + 2*g1) / 3, (b0 + 2*b1) / 3, 255] ] ∧
    bc1_idx block i < 4 ∧
    (∀ k, k < 4 → rd (decode_bc1_block block) (i * 4 + k) =
      rd ((bc1_palette (bc1_c0 block) (bc1_c1 block)).getD (bc1_idx block i) []) k) ∧
    rd (decode_bc1_block block) (i * 4 + 3) = 255 := by
  have hpal := bc1_palette_gt _ _ r0 g0 b0 r1 g1 b1 hgt he0 he1
  have hlt := bc1_idx_lt block i
  refine ⟨bc1_c0_eq block hb, bc1_c1_eq block hb, hpal, hlt, ?_, ?_⟩
  · intro k hk
    exact decode_bc1_block_rd block i k hi hk
  · rw [decode_bc1_block_rd block i 3 hi (by omega), hpal]
    generalize bc1_idx block i = idx at hlt
    interval_cases idx <;> simp [rd]

/-- Witness for C4: white and black endpoints, pixel 2 selects palette entry 2. -/
theorem bc1_four_colour_mode_witness :
    IsBytes [255, 255, 0, 0, 0xE4, 0xE4, 0xE4, 0xE4] ∧
      bc1_c0 [255, 255, 0, 0, 0xE4, 0xE4, 0xE4, 0xE4]
        > bc1_c1 [255, 255, 0, 0, 0xE4, 0xE4, 0xE4, 0xE4] ∧
      rd (decode_bc1_block [255, 255, 0, 0, 0xE4, 0xE4, 0xE4, 0xE4]) (2 * 4 + 3) = 255 :=
  ⟨by decide, by decide,
    (bc1_four_colour_mode [255, 255, 0, 0, 0xE4, 0xE4, 0xE4, 0xE4] (by decide)
      255 255 255 0 0 0 (by decide) (by decide) (by decide) 2 (by decide)).2.2.2.2.2⟩

/-- C5: BC1 three-colour mode, degenerate endpoints included. For a block of bytes whose
16-bit endpoints satisfy `c0 <= c1` (in particular `c0 = c1`), the colour table of
`decode_bc1_block` is `[e0, e1, ((e0+e1)/2, alpha 255), (0,0,0,0)]`; every pixel is the
table entry its 2-bit index selects, and a pixel whose index is 3 decodes to `(0,0,0,0)`.
The function is total: its only divisors are the literals 31, 63, 3 and 2. -/
theorem bc1_three_colour_mode (block : List Nat) (hb : IsBytes block) (r0 g0 b0 r1 g1 b1 : Nat)
    (he0 : rgb565_to_rgb888 (bc1_c0 block) = (r0, g0, b0))
    (he1 : rgb565_to_rgb888 (bc1_c1 block) = (r1, g1, b1))
    (hle : bc1_c0 block ≤ bc1_c1 block) (i : Nat) (hi : i < 16) :
    bc1_c0 block = rd block 0 + 256 * rd block 1 ∧
    bc1_c1 block = rd block 2 + 256 * rd block 3 ∧
    bc1_palette (bc1_c0 block) (bc1_c1 block) =
      [ [r0, g0, b0, 255], [r1, g1, b1, 255],
        [(r0 + r1) / 2, (g0 + g1) / 2, (b0 + b1) / 2, 255],
        [0, 0, 0, 0] ] ∧
    (∀ k, k < 4 → rd (decode_bc1_block block) (i * 4 + k) =
      rd ((bc1_palette (bc1_c0 block) (bc1_c1 block)).getD (bc1_idx block i) []) k) ∧
    (bc1_idx block i = 3 → ∀ k, k < 4 → rd (decode_bc1_block block) (i * 4 + k) = 0) := by
  have hpal := bc1_palette_le _ _ r0 g0 b0 r1 g1 b1 hle he0 he1
  refine ⟨bc1_c0_eq block hb, bc1_c1_eq block hb, hpal, ?_, ?_⟩
  · intro k hk
    exact decode_bc1_block_rd block i k hi hk
  · intro h3 k hk
    rw [decode_bc1_block_rd block i k hi hk, hpal, h3]
    interval_cases k <;> simp [rd]

/-- Witness for C5 with equal endpoints `c0 = c1 = 0x1234`: pixel 3 has index 3 and is
transparent black. -/
theorem bc1_three_colour_mode_witness :
    IsBytes [0x34, 0x12, 0x34, 0x12, 0xE4, 0, 0, 0] ∧
      bc1_c0 [0x34, 0x12, 0x34, 0x12, 0xE4, 0, 0, 0]
        = bc1_c1 [0x34, 0x12, 0x34, 0x12, 0xE4, 0, 0, 0] ∧
      bc1_idx [0x34, 0x12, 0x34, 0x12, 0xE4, 0, 0, 0] 3 = 3 ∧
      rd (decode_bc1_block [0x34, 0x12, 0x34, 0x12, 0xE4, 0, 0, 0]) (3 * 4 + 3) = 0 :=
  ⟨by decide, by decide, by decide,
    (bc1_three_colour_mode [0x34, 0x12, 0x34, 0x12, 0xE4, 0, 0, 0] (by decide)
      16 69 165 16 69 165 (by decide) (by decide) (by decide) 3 (by decide)).2.2.2.2
      (by decide) 3 (by decide)⟩

/-- C6: BC4 palette. For endpoint bytes `r0`, `r1` the palette built by
`decode_bc4_block` has `pal[0] = r0`, `pal[1] = r1`; if `r0 > r1` then
`pal[k] = ((8-k)*r0 + (k-1)*r1 + 3)/7` for `k = 2..7`; if `r0 <= r1` then
`pal[k] = ((6-k)*r0 + (k-1)*r1 + 2)/5` for `k = 2..5`, `pal[6] = 0` and `pal[7] = 255`
(truncating division, no loss in the 8-bit cast). Endpoints `(255, 0)` give
`pal[2] = 219`; endpoints `(0, 255)` give `pal[6] = 0` and `pal[7] = 255`. -/
theorem bc4_palette_formula (r0 r1 : Nat) (h0 : r0 < 256) (h1 : r1 < 256) :
    rd (bc4_palette r0 r1) 0 = r0 ∧ rd (bc4_palette r0 r1) 1 = r1 ∧
    (r0 > r1 → ∀ k, 2 ≤ k → k ≤ 7 →
      rd (bc4_palette r0 r1) k = ((8 - k) * r0 + (k - 1) * r1 + 3) / 7) ∧
    (r0 ≤ r1 → (∀ k, 2 ≤ k → k ≤ 5 →
      rd (bc4_palette r0 r1) k = ((6 - k) * r0 + (k - 1) * r1 + 2) / 5) ∧
      rd (bc4_palette r0 r1) 6 = 0 ∧ rd (bc4_palette r0 r1) 7 = 255) ∧
    rd (bc4_palette 255 0) 2 = 219 ∧
    rd (bc4_palette 0 255) 6 = 0 ∧ rd (bc4_palette 0 255) 7 = 255 := by
  refine ⟨?_, ?_, ?_, ?_, by decide, by decide, by decide⟩
  · unfold bc4_palette; split <;> simp [rd]
  · unfold bc4_palette; split <;> simp [rd]
  · intro hgt k hk2 hk7
    simp only [bc4_palette, if_pos hgt]
    interval_cases k <;> simp [rd, u8] <;> omega
  · intro hle
    have hng : ¬ r0 > r1 := by omega
    simp only [bc4_palette, if_neg hng]
    refine ⟨?_, by simp [rd], by simp [rd]⟩
    intro k hk2 hk5
    interval_cases k <;> simp [rd, u8] <;> omega

/-- Witness for C6 at endpoints `(200, 100)`: `pal[4] = (4*200 + 3*100 + 3)/7 = 157`. -/
theorem bc4_palette_formula_witness :
    200 < 256 ∧ 100 < 256 ∧ rd (bc4_palette 200 100) 4 = ((8 - 4) * 200 + (4 - 1) * 100 + 3) / 7 :=
  ⟨by decide, by decide,
    (bc4_palette_formula 200 100 (by decide) (by decide)).2.2.1 (by decide) 4 (by decide)
      (by decide)⟩

/-- C7: BC4 index unpacking. For a block of bytes and `i < 16`, `bits` is the 48-bit
little-endian integer of bytes 2..7, sample `i` of `decode_bc4_block` is
`pal[(bits >> 3*i) & 7]`, that index is `(bits / 8^i) mod 8` and lies inside the
8-entry palette, and bytes 0..1 matter only through the palette: a block with the same
bytes 2..7 and the same palette decodes to the same 16 samples. -/
theorem bc4_index_unpacking (block : List Nat) (hb : IsBytes block) (i : Nat) (hi : i < 16) :
    bc4_bits block = rd block 2 + 256 * rd block 3 + 65536 * rd block 4
      + 16777216 * rd block 5 + 4294967296 * rd block 6 + 1099511627776 * rd block 7 ∧
    bc4_bits block < 2 ^ 48 ∧
    rd (decode_bc4_block block) i
      = rd (bc4_palette (rd block 0) (rd block 1)) ((bc4_bits block >>> (3 * i)) &&& 7) ∧
    (bc4_bits block >>> (3 * i)) &&& 7 = (bc4_bits block / 8 ^ i) % 8 ∧
    (bc4_bits block >>> (3 * i)) &&& 7 < (bc4_palette (rd block 0) (rd block 1)).length ∧
    (∀ block' : List Nat, (∀ j, 2 ≤ j → j < 8 → rd block' j = rd block j) →
      bc4_palette (rd block' 0) (rd block' 1) = bc4_palette (rd block 0) (rd block 1) →
      decode_bc4_block block' = decode_bc4_block block) := by
  have hbits := bc4_bits_eq block hb
  have h2 := isBytes_rd block hb 2
  have h3 := isBytes_rd block hb 3
  have h4 := isBytes_rd block hb 4
  have h5 := isBytes_rd block hb 5
  have h6 := isBytes_rd block hb 6
  have h7 := isBytes_rd block hb 7
  have hidx : (bc4_bits block >>> (3 * i)) &&& 7 = (bc4_bits block / 8 ^ i) % 8 := by
    rw [and_7, Nat.shiftRight_eq_div_pow, pow_mul]; norm_num
  refine ⟨hbits, by norm_num; omega, decode_bc4_block_rd block i hi, hidx, ?_, ?_⟩
  · rw [bc4_palette_length, hidx]
    exact Nat.mod_lt _ (by norm_num)
  · intro block' hsame hpal
    unfold decode_bc4_block
    rw [hpal, bc4_bits_congr block' block hsame]

/-- Witness for C7: in the block with index bytes `88 C6 FA 88 C6 FA` sample 5 uses
palette entry 5. -/
theorem bc4_index_unpacking_witness :
    IsBytes [255, 0, 0x88, 0xC6, 0xFA, 0x88, 0xC6, 0xFA] ∧
      rd (decode_bc4_block [255, 0, 0x88, 0xC6, 0xFA, 0x88, 0xC6, 0xFA]) 5
        = rd (bc4_palette (rd [255, 0, 0x88, 0xC6, 0xFA, 0x88, 0xC6, 0xFA] 0)
            (rd [255, 0, 0x88, 0xC6, 0xFA, 0x88, 0xC6, 0xFA] 1))
          ((bc4_bits [255, 0, 0x88, 0xC6, 0xFA, 0x88, 0xC6, 0xFA] >>> (3 * 5)) &&& 7) :=
  ⟨by decide,
    (bc4_index_unpacking [255, 0, 0x88, 0xC6, 0xFA, 0x88, 0xC6, 0xFA] (by decide) 5
      (by decide)).2.2.1⟩

/-- C8: BC2 explicit alpha. For a BC2 block of bytes and pixel `i < 16`, the four bytes
stored by the BC2 branch are the RGB bytes of pixel `i` of `decode_bc1_block` applied to
bytes 8..15, followed by 17 times nibble `i` of the little-endian 64-bit value of bytes
0..7 (whatever alpha `decode_bc1_block` computed is not used); nibble `2k` is the low
nibble of byte `k` and nibble `2k+1` its high nibble. -/
theorem bc2_explicit_alpha (blk : List Nat) (hb : IsBytes blk) (i : Nat) (hi : i < 16) :
    bc2_bits (blk.take 8) = rd blk 0 + 256 * rd blk 1 + 65536 * rd blk 2 + 16777216 * rd blk 3
      + 4294967296 * rd blk 4 + 1099511627776 * rd blk 5 + 281474976710656 * rd blk 6
      + 72057594037927936 * rd blk 7 ∧
    texel_bc2 blk i =
      [ rd (decode_bc1_block ((blk.drop 8).take 8)) (i * 4 + 0),
        rd (decode_bc1_block ((blk.drop 8).take 8)) (i * 4 + 1),
        rd (decode_bc1_block ((blk.drop 8).take 8)) (i * 4 + 2),
        17 * ((bc2_bits (blk.take 8) / 16 ^ i) % 16) ] ∧
    (∀ k, k < 8 →
      (bc2_bits (blk.take 8) / 16 ^ (2 * k)) % 16 = rd blk k % 16 ∧
      (bc2_bits (blk.take 8) / 16 ^ (2 * k + 1)) % 16 = rd blk k / 16) := by
  have ht := isBytes_take blk hb 8
  refine ⟨?_, ?_, ?_⟩
  · rw [bc2_bits_eq _ ht]
    simp only [rd_take blk 8 _ (by omega : 0 < 8), rd_take blk 8 _ (by omega : 1 < 8),
      rd_take blk 8 _ (by omega : 2 < 8), rd_take blk 8 _ (by omega : 3 < 8),
      rd_take blk 8 _ (by omega : 4 < 8), rd_take blk 8 _ (by omega : 5 < 8),
      rd_take blk 8 _ (by omega : 6 < 8), rd_take blk 8 _ (by omega : 7 < 8)]
  · simp only [texel_bc2]
    rw [decode_bc2_alpha_rd _ i hi, decode_bc1_block_take]
  · intro k hk
    have := bc2_nibbles _ ht k hk
    rwa [rd_take blk 8 k hk] at this

/-- Witness for C8: alpha bytes `10 32 54 76 98 BA DC FE` give pixel 5 the alpha
`17 * 5 = 85`. -/
theorem bc2_explicit_alpha_witness :
    IsBytes [0x10, 0x32, 0x54, 0x76, 0x98, 0xBA, 0xDC, 0xFE, 0, 0, 0, 0, 0xFF, 0xFF, 0xFF, 0xFF] ∧
      (bc2_bits ([0x10, 0x32, 0x54, 0x76, 0x98, 0xBA, 0xDC, 0xFE,
          0, 0, 0, 0, 0xFF, 0xFF, 0xFF, 0xFF].take 8) / 16 ^ (2 * 2 + 1)) % 16 = 5 ∧
      texel_bc2 [0x10, 0x32, 0x54, 0x76, 0x98, 0xBA, 0xDC, 0xFE,
          0, 0, 0, 0, 0xFF, 0xFF, 0xFF, 0xFF] 5 = [0, 0, 0, 85] :=
  ⟨by decide,
    ((bc2_explicit_alpha [0x10, 0x32, 0x54, 0x76, 0x98, 0xBA, 0xDC, 0xFE,
      0, 0, 0, 0, 0xFF, 0xFF, 0xFF, 0xFF] (by decide) 5 (by decide)).2.2 2 (by decide)).2.trans
      (by decide),
    (bc2_explicit_alpha [0x10, 0x32, 0x54, 0x76, 0x98, 0xBA, 0xDC, 0xFE,
      0, 0, 0, 0, 0xFF, 0xFF, 0xFF, 0xFF] (by decide) 5 (by decide)).2.1.trans (by decide)⟩

/-- C9: BC2 does not force four-colour mode. For a BC2 block of bytes whose colour
endpoints (bytes 8..11 as two little-endian 16-bit values) satisfy `c0 <= c1`, the colour
half is decoded in the BC1 three-colour branch: a pixel with colour index 3 is stored
with RGB `(0,0,0)` and a pixel with index 2 with RGB `(e0+e1)/2`, while the stored alpha
is the explicit `17 * nibble` and not the alpha 0 that `decode_bc1_block` computed for
index 3. -/
theorem bc2_keeps_bc1_branch (blk : List Nat) (hb : IsBytes blk) (r0 g0 b0 r1 g1 b1 : Nat)
    (he0 : rgb565_to_rgb888 (bc1_c0 (blk.drop 8)) = (r0, g0, b0))
    (he1 : rgb565_to_rgb888 (bc1_c1 (blk.drop 8)) = (r1, g1, b1))
    (hle : bc1_c0 (blk.drop 8) ≤ bc1_c1 (blk.drop 8)) (i : Nat) (hi : i < 16) :
    bc1_c0 (blk.drop 8) = rd blk 8 + 256 * rd blk 9 ∧
    bc1_c1 (blk.drop 8) = rd blk 10 + 256 * rd blk 11 ∧
    (bc1_idx (blk.drop 8) i = 3 →
      texel_bc2 blk i = [0, 0, 0, 17 * ((bc2_bits (blk.take 8) / 16 ^ i) % 16)] ∧
      rd (decode_bc1_block (blk.drop 8)) (i * 4 + 3) = 0) ∧
    (bc1_idx (blk.drop 8) i = 2 →
      texel_bc2 blk i = [(r0 + r1) / 2, (g0 + g1) / 2, (b0 + b1) / 2,
        17 * ((bc2_bits (blk.take 8) / 16 ^ i) % 16)]) := by
  have hd := isBytes_drop blk hb 8
  have hpal := bc1_palette_le _ _ r0 g0 b0 r1 g1 b1 hle he0 he1
  refine ⟨?_, ?_, ?_, ?_⟩
  · rw [bc1_c0_eq _ hd, rd_drop, rd_drop]
  · rw [bc1_c1_eq _ hd, rd_drop, rd_drop]
  · intro h3
    refine ⟨?_, bc1_transparent _ hle i 3 hi (by omega) h3⟩
    simp only [texel_bc2]
    rw [decode_bc2_alpha_rd _ i hi, bc1_transparent _ hle i 0 hi (by omega) h3,
      bc1_transparent _ hle i 1 hi (by omega) h3, bc1_transparent _ hle i 2 hi (by omega) h3]
  · intro h2
    simp only [texel_bc2]
    rw [decode_bc2_alpha_rd _ i hi, decode_bc1_block_rd _ i 0 hi (by omega),
      decode_bc1_block_rd _ i 1 hi (by omega), decode_bc1_block_rd _ i 2 hi (by omega),
      hpal, h2]
    simp [rd]

/-- Witness for C9: equal colour endpoints, index 3 everywhere and alpha nibbles `F`:
pixel 0 is stored as black with alpha 255. -/
theorem bc2_keeps_bc1_branch_witness :
    IsBytes [0xFF, 0xFF, 0xFF, 0xFF, 0xFF, 0xFF, 0xFF, 0xFF, 0, 0, 0, 0, 0xFF, 0xFF, 0xFF, 0xFF] ∧
      bc1_c0 ([0xFF, 0xFF, 0xFF, 0xFF, 0xFF, 0xFF, 0xFF, 0xFF,
          0, 0, 0, 0, 0xFF, 0xFF, 0xFF, 0xFF].drop 8)
        ≤ bc1_c1 ([0xFF, 0xFF, 0xFF, 0xFF, 0xFF, 0xFF, 0xFF, 0xFF,
          0, 0, 0, 0, 0xFF, 0xFF, 0xFF, 0xFF].drop 8) ∧
      texel_bc2 [0xFF, 0xFF, 0xFF, 0xFF, 0xFF, 0xFF, 0xFF, 0xFF,
          0, 0, 0, 0, 0xFF, 0xFF, 0xFF, 0xFF] 0 = [0, 0, 0, 255] :=
  ⟨by decide, by decide,
    ((bc2_keeps_bc1_branch [0xFF, 0xFF, 0xFF, 0xFF, 0xFF, 0xFF, 0xFF, 0xFF,
      0, 0, 0, 0, 0xFF, 0xFF, 0xFF, 0xFF] (by decide) 0 0 0 0 0 0 (by decide) (by decide)
      (by decide) 0 (by decide)).2.2.1 (by decide)).1.trans (by decide)⟩

/-- C10: BC3 composition. For a BC3 block and pixel `i < 16`, the four bytes stored by
the BC3 branch are the RGB bytes of pixel `i` of `decode_bc1_block` applied to bytes
8..15 followed by sample `i` of `decode_bc4_block` applied to bytes 0..7; in particular
a BC1 index-3 pixel of a three-colour block (BC1 alpha 0) is stored as `(0,0,0)` with
the BC4-interpolated alpha. -/
theorem bc3_composition (blk : List Nat) (i : Nat) (hi : i < 16) :
    texel_bc3 blk i =
      [ rd (decode_bc1_block ((blk.drop 8).take 8)) (i * 4 + 0),
        rd (decode_bc1_block ((blk.drop 8).take 8)) (i * 4 + 1),
        rd (decode_bc1_block ((blk.drop 8).take 8)) (i * 4 + 2),
        rd (decode_bc4_block (blk.take 8)) i ] ∧
    (bc1_c0 (blk.drop 8) ≤ bc1_c1 (blk.drop 8) → bc1_idx (blk.drop 8) i = 3 →
      rd (decode_bc1_block (blk.drop 8)) (i * 4 + 3) = 0 ∧
      texel_bc3 blk i = [0, 0, 0, rd (decode_bc4_block (blk.take 8)) i]) := by
  refine ⟨?_, ?_⟩
  · simp only [texel_bc3]
    rw [decode_bc1_block_take, decode_bc4_block_take]
  · intro hle h3
    refine ⟨bc1_transparent _ hle i 3 hi (by omega) h3, ?_⟩
    simp only [texel_bc3]
    rw [decode_bc4_block_take, bc1_transparent _ hle i 0 hi (by omega) h3,
      bc1_transparent _ hle i 1 hi (by omega) h3, bc1_transparent _ hle i 2 hi (by omega) h3]

/-- Witness for C10: alpha endpoints `(255, 0)` with index 0 and a transparent colour
pixel give the stored texel `(0, 0, 0, 255)`. -/
theorem bc3_composition_witness :
    (0 : Nat) < 16 ∧
      texel_bc3 [255, 0, 0, 0, 0, 0, 0, 0, 0, 0, 0, 0, 0xFF, 0xFF, 0xFF, 0xFF] 0
        = [0, 0, 0, 255] :=
  ⟨by decide,
    ((bc3_composition [255, 0, 0, 0, 0, 0, 0, 0, 0, 0, 0, 0, 0xFF, 0xFF, 0xFF, 0xFF] 0
      (by decide)).2 (by decide) (by decide)).2.trans (by decide)⟩

/-! ## BC7 wrapper: the stated property -/

theorem rd_flatMap_quad (f0 f1 f2 f3 : Nat → Nat) (n i k : Nat) (hi : i < n) (hk : k < 4) :
    rd ((List.range n).flatMap fun j => [f0 j, f1 j, f2 j, f3 j]) (i * 4 + k)
      = rd [f0 i, f1 i, f2 i, f3 i] k :=
  rd_flatMap4 (fun j => [f0 j, f1 j, f2 j, f3 j]) (fun _ => rfl) n i k hi hk

/-- C11: BC7 fallback. For every block and pixel `i < 16`: if the injected decoder
`unpack_bc7` reports failure, the four output bytes of pixel `i` are `(255, 0, 255, 255)`;
if it succeeds they are the decoder's pixel `i` in `r, g, b, a` order. -/
theorem bc7_fallback (unpack_bc7 : List Nat → Bool × List color_rgba) (block : List Nat)
    (i : Nat) (hi : i < 16) :
    ((unpack_bc7 block).1 = false →
      rd (bc7_decode_block unpack_bc7 block) (i * 4 + 0) = 255 ∧
      rd (bc7_decode_block unpack_bc7 block) (i * 4 + 1) = 0 ∧
      rd (bc7_decode_block unpack_bc7 block) (i * 4 + 2) = 255 ∧
      rd (bc7_decode_block unpack_bc7 block) (i * 4 + 3) = 255) ∧
    ((unpack_bc7 block).1 = true →
      rd (bc7_decode_block unpack_bc7 block) (i * 4 + 0)
        = (((unpack_bc7 block).2).getD i (color_rgba.mk 0 0 0 0)).r ∧
      rd (bc7_decode_block unpack_bc7 block) (i * 4 + 1)
        = (((unpack_bc7 block).2).getD i (color_rgba.mk 0 0 0 0)).g ∧
      rd (bc7_decode_block unpack_bc7 block) (i * 4 + 2)
        = (((unpack_bc7 block).2).getD i (color_rgba.mk 0 0 0 0)).b ∧
      rd (bc7_decode_block unpack_bc7 block) (i * 4 + 3)
        = (((unpack_bc7 block).2).getD i (color_rgba.mk 0 0 0 0)).a) := by
  refine ⟨?_, ?_⟩
  · intro hfail
    simp only [bc7_decode_block, hfail, Bool.not_false, if_true]
    have q := fun k hk => rd_flatMap_quad (fun _ => 255) (fun _ => 0) (fun _ => 255)
      (fun _ => 255) 16 i k hi hk
    exact ⟨(q 0 (by omega)).trans rfl, (q 1 (by omega)).trans rfl, (q 2 (by omega)).trans rfl,
      (q 3 (by omega)).trans rfl⟩
  · intro hok
    simp only [bc7_decode_block, hok, Bool.not_true, Bool.false_eq_true, if_false]
    have q := fun k hk => rd_flatMap_quad
      (fun j => (((unpack_bc7 block).2).getD j (color_rgba.mk 0 0 0 0)).r)
      (fun j => (((unpack_bc7 block).2).getD j (color_rgba.mk 0 0 0 0)).g)
      (fun j => (((unpack_bc7 block).2).getD j (color_rgba.mk 0 0 0 0)).b)
      (fun j => (((unpack_bc7 block).2).getD j (color_rgba.mk 0 0 0 0)).a) 16 i k hi hk
    exact ⟨(q 0 (by omega)).trans rfl, (q 1 (by omega)).trans rfl, (q 2 (by omega)).trans rfl,
      (q 3 (by omega)).trans rfl⟩

/-- Witness for C11: a decoder that always fails gives magenta for pixel 2. -/
theorem bc7_fallback_witness :
    (2 : Nat) < 16 ∧
      rd (bc7_decode_block (fun _ => (false, [])) [0, 0, 0, 0, 0, 0, 0, 0, 0, 0, 0, 0, 0, 0, 0, 0])
        (2 * 4 + 2) = 255 :=
  ⟨by decide,
    ((bc7_fallback (fun _ => (false, [])) [0, 0, 0, 0, 0, 0, 0, 0, 0, 0, 0, 0, 0, 0, 0, 0] 2
      (by decide)).1 rfl).2.2.1⟩

/-! ## RGB565 expansion and BC1 index order: the stated properties -/

theorem rgb565_fields (c : Nat) (hc : c < 65536) :
    u8 ((c >>> 11) &&& 0x1F) = c / 2048 ∧ u8 ((c >>> 5) &&& 0x3F) = c / 32 % 64 ∧
      u8 (c &&& 0x1F) = c % 32 := by
  have e1 : (c >>> 11) &&& 0x1F = (c / 2048) % 32 := by
    rw [show (0x1F : Nat) = 31 from rfl, and_31, Nat.shiftRight_eq_div_pow]
  have e2 : (c >>> 5) &&& 0x3F = (c / 32) % 64 := by
    rw [show (0x3F : Nat) = 63 from rfl, and_63, Nat.shiftRight_eq_div_pow]
  have e3 : c &&& 0x1F = c % 32 := by
    rw [show (0x1F : Nat) = 31 from rfl, and_31]
  rw [e1, e2, e3]
  unfold u8
  omega

/-- C18: RGB565 expansion rounds to nearest. For every 16-bit `c`, with `r5 = c / 2048`
(bits 11..15), `g6 = c / 32 mod 64` (bits 5..10) and `b5 = c mod 32` (bits 0..4),
`rgb565_to_rgb888` returns `((r5*255+15)/31, (g6*255+31)/63, (b5*255+15)/31)`; each
result is strictly nearer to `component*255/max` than every other integer (written
without fractions, after multiplying by `max` = 31 or 63); component 0 maps to 0 and
the maximum component maps to 255. -/
theorem rgb565_rounds_to_nearest (c : Nat) (hc : c < 65536) :
    rgb565_to_rgb888 c
      = ((c / 2048 * 255 + 15) / 31, (c / 32 % 64 * 255 + 31) / 63, (c % 32 * 255 + 15) / 31) ∧
    (∀ n : ℤ, n ≠ ((rgb565_to_rgb888 c).1 : ℤ) →
      |31 * ((rgb565_to_rgb888 c).1 : ℤ) - 255 * ((c / 2048 : Nat) : ℤ)|
        < |31 * n - 255 * ((c / 2048 : Nat) : ℤ)|) ∧
    (∀ n : ℤ, n ≠ ((rgb565_to_rgb888 c).2.1 : ℤ) →
      |63 * ((rgb565_to_rgb888 c).2.1 : ℤ) - 255 * ((c / 32 % 64 : Nat) : ℤ)|
        < |63 * n - 255 * ((c / 32 % 64 : Nat) : ℤ)|) ∧
    (∀ n : ℤ, n ≠ ((rgb565_to_rgb888 c).2.2 : ℤ) →
      |31 * ((rgb565_to_rgb888 c).2.2 : ℤ) - 255 * ((c % 32 : Nat) : ℤ)|
        < |31 * n - 255 * ((c % 32 : Nat) : ℤ)|) ∧
    (c / 2048 = 0 → (rgb565_to_rgb888 c).1 = 0) ∧
    (c / 2048 = 31 → (rgb565_to_rgb888 c).1 = 255) ∧
    (c / 32 % 64 = 0 → (rgb565_to_rgb888 c).2.1 = 0) ∧
    (c / 32 % 64 = 63 → (rgb565_to_rgb888 c).2.1 = 255) ∧
    (c % 32 = 0 → (rgb565_to_rgb888 c).2.2 = 0) ∧
    (c % 32 = 31 → (rgb565_to_rgb888 c).2.2 = 255) := by
  obtain ⟨f1, f2, f3⟩ := rgb565_fields c hc
  have hr : c / 2048 < 32 := by omega
  have e : rgb565_to_rgb888 c
      = ((c / 2048 * 255 + 15) / 31, (c / 32 % 64 * 255 + 31) / 63, (c % 32 * 255 + 15) / 31) := by
    simp only [rgb565_to_rgb888, f1, f2, f3]
    unfold u8
    rw [Nat.mod_eq_of_lt (a := (c / 2048 * 255 + 15) / 31) (by omega),
      Nat.mod_eq_of_lt (a := (c / 32 % 64 * 255 + 31) / 63) (by omega),
      Nat.mod_eq_of_lt (a := (c % 32 * 255 + 15) / 31) (by omega)]
  rw [e]
  refine ⟨rfl, ?_, ?_, ?_, ?_, ?_, ?_, ?_, ?_, ?_⟩
  · intro n hn
    simp only at hn ⊢
    rcases abs_cases (31 * (((c / 2048 * 255 + 15) / 31 : Nat) : ℤ) - 255 * ((c / 2048 : Nat) : ℤ))
      with ⟨h1, _⟩ | ⟨h1, _⟩ <;>
    rcases abs_cases (31 * n - 255 * ((c / 2048 : Nat) : ℤ)) with ⟨h2, _⟩ | ⟨h2, _⟩ <;>
    rw [h1, h2] <;> omega
  · intro n hn
    simp only at hn ⊢
    rcases abs_cases (63 * (((c / 32 % 64 * 255 + 31) / 63 : Nat) : ℤ)
        - 255 * ((c / 32 % 64 : Nat) : ℤ)) with ⟨h1, _⟩ | ⟨h1, _⟩ <;>
    rcases abs_cases (63 * n - 255 * ((c / 32 % 64 : Nat) : ℤ)) with ⟨h2, _⟩ | ⟨h2, _⟩ <;>
    rw [h1, h2] <;> omega
  · intro n hn
    simp only at hn ⊢
    rcases abs_cases (31 * (((c % 32 * 255 + 15) / 31 : Nat) : ℤ) - 255 * ((c % 32 : Nat) : ℤ))
      with ⟨h1, _⟩ | ⟨h1, _⟩ <;>
    rcases abs_cases (31 * n - 255 * ((c % 32 : Nat) : ℤ)) with ⟨h2, _⟩ | ⟨h2, _⟩ <;>
    rw [h1, h2] <;> omega
  all_goals intro h0; simp only; omega

/-- C19: BC1 index order is row-major. For a block of bytes and `px, py < 4`, the index
word is the little-endian 32-bit value of bytes 4..7, pixel `i = py*4+px` uses its bits
`2i..2i+1`, which are `(block[4+py] >> (2*px)) & 3`, a value below 4, so the row `py`
is determined by the single byte `block[4+py]`; the four output bytes of the pixel are
the palette entry with that index. -/
theorem bc1_row_major (block : List Nat) (hb : IsBytes block) (px py : Nat)
    (hpx : px < 4) (hpy : py < 4) :
    bc1_indices block
      = rd block 4 + 256 * rd block 5 + 65536 * rd block 6 + 16777216 * rd block 7 ∧
    bc1_idx block (py * 4 + px) = (bc1_indices block / 4 ^ (py * 4 + px)) % 4 ∧
    bc1_idx block (py * 4 + px) = (rd block (4 + py) >>> (2 * px)) &&& 3 ∧
    bc1_idx block (py * 4 + px) < 4 ∧
    (∀ k, k < 4 → rd (decode_bc1_block block) ((py * 4 + px) * 4 + k)
      = rd ((bc1_palette (bc1_c0 block) (bc1_c1 block)).getD
          ((rd block (4 + py) >>> (2 * px)) &&& 3) []) k) := by
  have h4 := isBytes_rd block hb 4
  have h5 := isBytes_rd block hb 5
  have h6 := isBytes_rd block hb 6
  have h7 := isBytes_rd block hb 7
  have hind := bc1_indices_eq block hb
  have hrow : bc1_idx block (py * 4 + px) = (rd block (4 + py) >>> (2 * px)) &&& 3 := by
    rw [bc1_idx_eq, hind, and_3, Nat.shiftRight_eq_div_pow]
    interval_cases py <;> interval_cases px <;> norm_num <;> omega
  refine ⟨hind, bc1_idx_eq block _, hrow, bc1_idx_lt block _, ?_⟩
  intro k hk
  rw [decode_bc1_block_rd block (py * 4 + px) k (by omega) hk, hrow]

/-- Witness for C19: row 1 is read from byte 5 (`E4`), and pixel 2 of the row has index 2. -/
theorem bc1_row_major_witness :
    IsBytes [255, 255, 0, 0, 0x1B, 0xE4, 0, 0xFF] ∧ 2 < 4 ∧ 1 < 4 ∧
      bc1_idx [255, 255, 0, 0, 0x1B, 0xE4, 0, 0xFF] (1 * 4 + 2)
        = (rd [255, 255, 0, 0, 0x1B, 0xE4, 0, 0xFF] (4 + 1) >>> (2 * 2)) &&& 3 :=
  ⟨by decide, by decide, by decide,
    (bc1_row_major [255, 255, 0, 0, 0x1B, 0xE4, 0, 0xFF] (by decide) 2 1 (by decide)
      (by decide)).2.2.1⟩

/-- Witness for C18: `0x1234` expands to `(16, 69, 165)`. -/
theorem rgb565_rounds_to_nearest_witness :
    4660 < 65536 ∧ rgb565_to_rgb888 4660 = (16, 69, 165) :=
  ⟨by decide, (rgb565_rounds_to_nearest 4660 (by decide)).1.trans (by decide)⟩

/-! ## Block grid size: the stated property -/

/-- The grid size is the ceiling of a quarter of the dimension when `d + 3` does not
wrap in 32 bits, and the 64-bit block count is then the exact product. -/
theorem blocks_of_ceil (w h : Nat) (hw : w + 3 < 4294967296) (hh : h + 3 < 4294967296) :
    blocks_of w = ⌈(w : ℚ) / 4⌉₊ ∧ blocks_of h = ⌈(h : ℚ) / 4⌉₊ ∧
      u64 (blocks_of w * blocks_of h) = blocks_of w * blocks_of h := by
  have key : ∀ d : Nat, d + 3 < 4294967296 → blocks_of d = ⌈(d : ℚ) / 4⌉₊ := by
    intro d hd
    rw [blocks_of_eq d hd]
    symm
    rcases Nat.eq_zero_or_pos d with h0 | hpos
    · subst h0; simp
    · rw [Nat.ceil_eq_iff (by omega)]
      constructor
      · rw [lt_div_iff₀ (by norm_num)]
        have : ((d + 3) / 4 - 1) * 4 < d := by omega
        exact_mod_cast this
      · rw [div_le_iff₀ (by norm_num)]
        have : d ≤ (d + 3) / 4 * 4 := by omega
        exact_mod_cast this
  refine ⟨key w hw, key h hh, ?_⟩
  have h1 := blocks_of_le w
  have h2 := blocks_of_le h
  have : blocks_of w * blocks_of h ≤ 1073741823 * 1073741823 := Nat.mul_le_mul h1 h2
  unfold u64
  exact Nat.mod_eq_of_lt (Nat.lt_of_le_of_lt this (by norm_num))

/-- C17: the grid size for a width near `2^32`. For `w = 4294967295` (and for
`4294967294`, `4294967293`) the 32-bit sum `w + 3` wraps and the code computes
`blocks_x = 0`, whereas the ceiling of `w / 4` is `1073741824`; with `h = 1` the block
count is 0 instead of `1073741824`. -/
theorem blocks_grid_wraps :
    blocks_of 4294967295 = 0 ∧ blocks_of 4294967294 = 0 ∧ blocks_of 4294967293 = 0 ∧
    ⌈(4294967295 : ℚ) / 4⌉₊ = 1073741824 ∧
    blocks_of 1 = ⌈(1 : ℚ) / 4⌉₊ ∧
    u64 (blocks_of 4294967295 * blocks_of 1) = 0 ∧
    ⌈(4294967295 : ℚ) / 4⌉₊ * ⌈(1 : ℚ) / 4⌉₊ = 1073741824 := by
  have hc : ⌈(4294967295 : ℚ) / 4⌉₊ = 1073741824 := by
    rw [Nat.ceil_eq_iff (by norm_num)]
    constructor <;> norm_num
  have h1 : ⌈(1 : ℚ) / 4⌉₊ = 1 := by
    rw [Nat.ceil_eq_iff (by norm_num)]
    constructor <;> norm_num
  refine ⟨by decide, by decide, by decide, hc, ?_, by decide, ?_⟩
  · rw [h1]; decide
  · rw [hc, h1]

/-! ## Container parser -/

theorem dds2png_raster_valid (env : Env) (f : List Nat) (hv : ValidHeader f) :
    dds2png_raster env (some f) =
      if le32 f 128 = 71 then convert_branch env f (le32 f 16) (le32 f 12) 8 4 6 texel_bc1
      else if le32 f 128 = 74 then convert_branch env f (le32 f 16) (le32 f 12) 16 4 6 texel_bc2
      else if le32 f 128 = 77 then convert_branch env f (le32 f 16) (le32 f 12) 16 4 6 texel_bc3
      else if le32 f 128 = 80 then convert_branch env f (le32 f 16) (le32 f 12) 8 1 0 texel_bc4
      else if le32 f 128 = 83 then
        convert_branch env f (le32 f 16) (le32 f 12) 16 3 2 (texel_bc5 env.fl env.fsqrt)
      else if le32 f 128 = 98 then
        convert_branch env f (le32 f 16) (le32 f 12) 16 4 6 (texel_bc7 env.unpack_bc7)
      else .error Reject.unsupported := by
  obtain ⟨hlen, hm, hf, hw, hh⟩ := hv
  have h1 : ¬ (f.length < 4 ∨ le32 f 0 ≠ DDS_MAGIC) := by
    intro h; rcases h with h | h
    · omega
    · exact h hm
  have h2 : ¬ f.length < 128 := by omega
  have h3 : ¬ le32 f 84 ≠ FOURCC_DX10 := fun h => h hf
  have h4 : ¬ f.length < 148 := by omega
  have h5 : ¬ (le32 f 16 = 0 ∨ le32 f 12 = 0) := by tauto
  unfold dds2png_raster
  dsimp only
  rw [if_neg h1, if_neg h2, if_neg h3, if_neg h4, if_neg h5]

theorem dds2png_raster_invalid (env : Env) (f : List Nat) (hv : ¬ ValidHeader f) :
    ∃ e, dds2png_raster env (some f) = .error e ∧ e.at_header := by
  unfold dds2png_raster Reject.at_header
  dsimp only
  by_cases h1 : f.length < 4 ∨ le32 f 0 ≠ DDS_MAGIC
  · rw [if_pos h1]; exact ⟨_, rfl, by simp⟩
  rw [if_neg h1]
  by_cases h2 : f.length < 128
  · rw [if_pos h2]; exact ⟨_, rfl, by simp⟩
  rw [if_neg h2]
  by_cases h3 : le32 f 84 ≠ FOURCC_DX10
  · rw [if_pos h3]; exact ⟨_, rfl, by simp⟩
  rw [if_neg h3]
  by_cases h4 : f.length < 148
  · rw [if_pos h4]; exact ⟨_, rfl, by simp⟩
  rw [if_neg h4]
  by_cases h5 : le32 f 16 = 0 ∨ le32 f 12 = 0
  · rw [if_pos h5]; exact ⟨_, rfl, by simp⟩
  exfalso
  apply hv
  refine ⟨by omega, ?_, ?_, ?_, ?_⟩
  · by_contra h; exact h1 (Or.inr h)
  · by_contra h; exact h3 h
  · exact fun h => h5 (Or.inl h)
  · exact fun h => h5 (Or.inr h)

/-- C15: header rejection. For every input, if the first four bytes are not the magic
`0x20534444`, or the FourCC is not `DX10`, or the width or the height is 0, or the format
code is none of 71, 74, 77, 80, 83, 98, then `dds2png_convert` returns 1 at one of its
header checks, before any payload byte is read or decoded, and writes nothing. -/
theorem header_rejection (env : Env) (f : List Nat)
    (hbad : le32 f 0 ≠ DDS_MAGIC ∨ le32 f 84 ≠ FOURCC_DX10 ∨ le32 f 16 = 0 ∨ le32 f 12 = 0 ∨
      (le32 f 128 ≠ 71 ∧ le32 f 128 ≠ 74 ∧ le32 f 128 ≠ 77 ∧ le32 f 128 ≠ 80 ∧
        le32 f 128 ≠ 83 ∧ le32 f 128 ≠ 98)) :
    (∃ e, dds2png_raster env (some f) = .error e ∧ e.at_header) ∧
    dds2png_convert env (some f) = (1, []) := by
  have key : ∃ e, dds2png_raster env (some f) = .error e ∧ e.at_header := by
    by_cases hv : ValidHeader f
    · have hfmt : le32 f 128 ≠ 71 ∧ le32 f 128 ≠ 74 ∧ le32 f 128 ≠ 77 ∧ le32 f 128 ≠ 80 ∧
          le32 f 128 ≠ 83 ∧ le32 f 128 ≠ 98 := by
        obtain ⟨_, hm, hf, hw, hh⟩ := hv
        rcases hbad with h | h | h | h | h
        · exact absurd hm h
        · exact absurd hf h
        · exact absurd h hw
        · exact absurd h hh
        · exact h
      obtain ⟨a, b, c, d, e, g⟩ := hfmt
      rw [dds2png_raster_valid env f hv, if_neg a, if_neg b, if_neg c, if_neg d, if_neg e,
        if_neg g]
      exact ⟨_, rfl, by simp [Reject.at_header]⟩
    · exact dds2png_raster_invalid env f hv
  obtain ⟨e, he, hat⟩ := key
  refine ⟨⟨e, he, hat⟩, ?_⟩
  unfold dds2png_convert
  rw [he]

set_option maxRecDepth 100000 in
/-- Witness for C15: a complete 4x4 file with the unsupported format code 99. -/
theorem header_rejection_witness :
    le32 (dds_header 4 4 99 ++ [255, 0, 0, 0, 0, 0, 0, 0]) 128 ≠ 71 ∧
      dds2png_convert (sample_env true) (some (dds_header 4 4 99 ++ [255, 0, 0, 0, 0, 0, 0, 0]))
        = (1, []) :=
  ⟨by decide,
    (header_rejection (sample_env true) (dds_header 4 4 99 ++ [255, 0, 0, 0, 0, 0, 0, 0])
      (Or.inr (Or.inr (Or.inr (Or.inr (by decide)))))).2⟩

theorem payload_size_exact (w h bs : Nat) (hbs : bs ≤ 16) :
    u64 (u64 (blocks_of w * blocks_of h) * bs) = blocks_of w * blocks_of h * bs := by
  have h1 := blocks_of_le w
  have h2 := blocks_of_le h
  have h3 : blocks_of w * blocks_of h ≤ 1073741823 * 1073741823 := Nat.mul_le_mul h1 h2
  have h4 : blocks_of w * blocks_of h * bs ≤ 1073741823 * 1073741823 * 16 :=
    Nat.mul_le_mul h3 hbs
  unfold u64
  rw [Nat.mod_eq_of_lt (a := blocks_of w * blocks_of h)
    (Nat.lt_of_le_of_lt h3 (by norm_num))]
  exact Nat.mod_eq_of_lt (Nat.lt_of_le_of_lt h4 (by norm_num))

theorem convert_branch_cases (env : Env) (f : List Nat) (w h bs c color_type : Nat)
    (texel : List Nat → Nat → List Nat) (hbs : bs ≤ 16) :
    (env.malloc_bc (blocks_of w * blocks_of h * bs) = false →
      convert_branch env f w h bs c color_type texel = .error Reject.no_payload_buffer) ∧
    (env.malloc_bc (blocks_of w * blocks_of h * bs) = true →
      f.length - 148 < blocks_of w * blocks_of h * bs →
      convert_branch env f w h bs c color_type texel = .error Reject.truncated) ∧
    (env.malloc_bc (blocks_of w * blocks_of h * bs) = true →
      ¬ f.length - 148 < blocks_of w * blocks_of h * bs →
      env.malloc_img (u64 (u64 (w * h) * c)) = none →
      convert_branch env f w h bs c color_type texel = .error Reject.no_raster) ∧
    (env.malloc_bc (blocks_of w * blocks_of h * bs) = true →
      ¬ f.length - 148 < blocks_of w * blocks_of h * bs →
      ∀ img0, env.malloc_img (u64 (u64 (w * h) * c)) = some img0 →
      convert_branch env f w h bs c color_type texel
        = .ok (Raster.mk w h color_type c (assemble w h c bs texel
            ((f.drop 148).take (blocks_of w * blocks_of h * bs)) img0))) := by
  have hsz := payload_size_exact w h bs hbs
  refine ⟨?_, ?_, ?_, ?_⟩
  · intro ha
    unfold convert_branch
    simp only [hsz, ha, Bool.not_false, if_true]
  · intro ha ht
    unfold convert_branch
    simp only [hsz, ha, Bool.not_true, Bool.false_eq_true, if_false, if_pos ht]
  · intro ha ht hi
    unfold convert_branch
    simp only [hsz, ha, Bool.not_true, Bool.false_eq_true, if_false, if_neg ht, hi]
  · intro ha ht img0 hi
    unfold convert_branch
    simp only [hsz, ha, Bool.not_true, Bool.false_eq_true, if_false, if_neg ht, hi]

/-- With a valid header and a supported format code, the conversion is the branch of
that format, with its block size, channel count and colour type. -/
theorem dds2png_raster_branch (env : Env) (f : List Nat) (bs : Nat) (hv : ValidHeader f)
    (hfmt : ((le32 f 128 = 71 ∨ le32 f 128 = 80) ∧ bs = 8) ∨
      ((le32 f 128 = 74 ∨ le32 f 128 = 77 ∨ le32 f 128 = 83 ∨ le32 f 128 = 98) ∧ bs = 16)) :
    ∃ c color_type texel,
      dds2png_raster env (some f)
        = convert_branch env f (le32 f 16) (le32 f 12) bs c color_type texel ∧
      ((le32 f 128 = 80 ∧ c = 1 ∧ color_type = 0) ∨ (le32 f 128 = 83 ∧ c = 3 ∧ color_type = 2) ∨
        ((le32 f 128 = 71 ∨ le32 f 128 = 74 ∨ le32 f 128 = 77 ∨ le32 f 128 = 98) ∧
          c = 4 ∧ color_type = 6)) := by
  rw [dds2png_raster_valid env f hv]
  rcases hfmt with ⟨h | h, rfl⟩ | ⟨h | h | h | h, rfl⟩
  · exact ⟨4, 6, texel_bc1, by rw [h]; rfl, by simp [h]⟩
  · exact ⟨1, 0, texel_bc4, by rw [h]; rfl, by simp [h]⟩
  · exact ⟨4, 6, texel_bc2, by rw [h]; rfl, by simp [h]⟩
  · exact ⟨4, 6, texel_bc3, by rw [h]; rfl, by simp [h]⟩
  · exact ⟨3, 2, texel_bc5 env.fl env.fsqrt, by rw [h]; rfl, by simp [h]⟩
  · exact ⟨4, 6, texel_bc7 env.unpack_bc7, by rw [h]; rfl, by simp [h]⟩

/-- C16, amended: the truncation check. For an input with a valid header, non-zero
dimensions and a supported format code, with `blockCount = blocks_x * blocks_y` as the
code computes them and `blockSize` 8 for formats 71 and 80 and 16 for formats 74, 77, 83
and 98: the conversion returns at the truncation check exactly when the payload buffer
was allocated and fewer than `blockCount * blockSize` bytes follow the DX10 header; it
returns at the allocation of the payload buffer exactly when that allocation fails; in
every other case it either returns because the raster cannot be allocated or proceeds
to decode, and its result is then the result of the PNG writer. -/
theorem truncation_check (env : Env) (f : List Nat) (bs : Nat) (hv : ValidHeader f)
    (hfmt : ((le32 f 128 = 71 ∨ le32 f 128 = 80) ∧ bs = 8) ∨
      ((le32 f 128 = 74 ∨ le32 f 128 = 77 ∨ le32 f 128 = 83 ∨ le32 f 128 = 98) ∧ bs = 16)) :
    (dds2png_raster env (some f) = .error Reject.truncated ↔
      env.malloc_bc (blocks_of (le32 f 16) * blocks_of (le32 f 12) * bs) = true ∧
        f.length - 148 < blocks_of (le32 f 16) * blocks_of (le32 f 12) * bs) ∧
    (dds2png_raster env (some f) = .error Reject.no_payload_buffer ↔
      env.malloc_bc (blocks_of (le32 f 16) * blocks_of (le32 f 12) * bs) = false) ∧
    (env.malloc_bc (blocks_of (le32 f 16) * blocks_of (le32 f 12) * bs) = true →
      ¬ f.length - 148 < blocks_of (le32 f 16) * blocks_of (le32 f 12) * bs →
      dds2png_raster env (some f) = .error Reject.no_raster ∨
      ∃ r, dds2png_raster env (some f) = .ok r ∧
        dds2png_convert env (some f)
          = write_png_core env.png r.w r.h r.img r.color_type r.bytes_per_pixel) := by
  obtain ⟨c, ct, texel, hbr, _⟩ := dds2png_raster_branch env f bs hv hfmt
  have hbs : bs ≤ 16 := by
    rcases hfmt with ⟨_, rfl⟩ | ⟨_, rfl⟩ <;> omega
  obtain ⟨k1, k2, k3, k4⟩ :=
    convert_branch_cases env f (le32 f 16) (le32 f 12) bs c ct texel hbs
  rw [hbr]
  cases ha : env.malloc_bc (blocks_of (le32 f 16) * blocks_of (le32 f 12) * bs)
  · rw [k1 ha]
    simp
  · by_cases ht : f.length - 148 < blocks_of (le32 f 16) * blocks_of (le32 f 12) * bs
    · rw [k2 ha ht]
      simp [ht]
    · cases hi : env.malloc_img (u64 (u64 (le32 f 16 * le32 f 12) * c)) with
      | none =>
        rw [k3 ha ht hi]
        simp [ht]
      | some img0 =>
        rw [k4 ha ht img0 hi]
        refine ⟨by simp [ht], by simp, fun _ _ => Or.inr ⟨_, rfl, ?_⟩⟩
        unfold dds2png_convert
        rw [hbr, k4 ha ht img0 hi]

set_option maxRecDepth 100000 in
/-- Witness for C16: a 4x4 BC4 file cut one byte short stops at the truncation check. -/
theorem truncation_check_witness :
    ValidHeader (dds_header 4 4 80 ++ [255, 0, 0, 0, 0, 0, 0]) ∧
      dds2png_raster (sample_env true) (some (dds_header 4 4 80 ++ [255, 0, 0, 0, 0, 0, 0]))
        = .error Reject.truncated :=
  ⟨by unfold ValidHeader; decide,
    (truncation_check (sample_env true) (dds_header 4 4 80 ++ [255, 0, 0, 0, 0, 0, 0]) 8
      (by unfold ValidHeader; decide) (by decide)).1.2 (by decide)⟩

set_option maxRecDepth 100000 in
/-- Counterexample to C16 as stated: a complete 4x4 BC4 file (valid header, 8 payload
bytes for one 8-byte block) is not truncated, yet the conversion fails when the output
path cannot be opened, and it fails before decoding when the payload buffer cannot be
allocated. -/
theorem truncation_not_the_only_failure :
    ValidHeader (dds_header 4 4 80 ++ [255, 0, 0, 0, 0, 0, 0, 0]) ∧
      le32 (dds_header 4 4 80 ++ [255, 0, 0, 0, 0, 0, 0, 0]) 128 = 80 ∧
      ¬ ((dds_header 4 4 80 ++ [255, 0, 0, 0, 0, 0, 0, 0]).length - 148
          < blocks_of (le32 (dds_header 4 4 80 ++ [255, 0, 0, 0, 0, 0, 0, 0]) 16)
            * blocks_of (le32 (dds_header 4 4 80 ++ [255, 0, 0, 0, 0, 0, 0, 0]) 12) * 8) ∧
      (dds2png_convert (sample_env false)
        (some (dds_header 4 4 80 ++ [255, 0, 0, 0, 0, 0, 0, 0]))).1 = 1 ∧
      dds2png_raster
          (Env.mk (fun _ => (false, [])) id id (fun _ => false)
            (fun n => some (List.replicate n 0)) (sample_png_env true))
          (some (dds_header 4 4 80 ++ [255, 0, 0, 0, 0, 0, 0, 0]))
        = .error Reject.no_payload_buffer := by
  refine ⟨by unfold ValidHeader; decide, by decide, by decide, by decide, by rfl⟩

/-! ## PNG writer: the stated properties -/

theorem png_write_u32_eq (v : Nat) : png_write_u32 v = be32 v := by
  have e : ∀ x : Nat, u8 (x &&& 0xFF) = x % 256 := by
    intro x
    have : x &&& 0xFF = x % 256 := Nat.and_pow_two_sub_one_eq_mod x 8
    rw [this]
    unfold u8
    exact Nat.mod_mod _ _
  simp only [png_write_u32, be32, e, Nat.shiftRight_eq_div_pow]

theorem be32_u32 (v : Nat) : be32 (u32 v) = be32 v := by
  simp only [be32, u32]
  congr 1
  · omega
  congr 1
  · omega
  congr 1
  · omega
  congr 1
  omega

theorem png_ihdr_eq (width height color_type : Nat) :
    png_ihdr width height color_type = be32 width ++ be32 height ++ [8, color_type, 0, 0, 0] := by
  have hw := png_write_u32_eq width
  have hh := png_write_u32_eq height
  simp only [png_write_u32, be32, List.cons.injEq, and_true] at hw hh
  obtain ⟨w0, w1, w2, w3⟩ := hw
  obtain ⟨h0, h1, h2, h3⟩ := hh
  simp only [png_ihdr, be32, w0, w1, w2, w3, h0, h1, h2, h3, List.cons_append, List.nil_append]

/-- C13: IHDR contents. For 32-bit `width` and `height` the 13-byte IHDR payload is
`be32(width) ++ be32(height) ++ [8, colorType, 0, 0, 0]`, its two big-endian fields decode
back to `width` and `height`, and for a conversion that reaches the PNG writer the
dimensions passed to it are the header's and the colour type follows the format code:
80 gives colour type 0 with 1 byte per pixel, 83 gives 2 with 3, and 71, 74, 77, 98
give 6 with 4. -/
theorem ihdr_contents (width height color_type : Nat) (hw : width < 4294967296)
    (hh : height < 4294967296) (env : Env) (f : List Nat) (r : Raster)
    (hok : dds2png_raster env (some f) = .ok r) :
    png_ihdr width height color_type = be32 width ++ be32 height ++ [8, color_type, 0, 0, 0] ∧
    (png_ihdr width height color_type).length = 13 ∧
    16777216 * rd (png_ihdr width height color_type) 0
      + 65536 * rd (png_ihdr width height color_type) 1
      + 256 * rd (png_ihdr width height color_type) 2
      + rd (png_ihdr width height color_type) 3 = width ∧
    16777216 * rd (png_ihdr width height color_type) 4
      + 65536 * rd (png_ihdr width height color_type) 5
      + 256 * rd (png_ihdr width height color_type) 6
      + rd (png_ihdr width height color_type) 7 = height ∧
    r.w = le32 f 16 ∧ r.h = le32 f 12 ∧
    (le32 f 128 = 80 → r.color_type = 0 ∧ r.bytes_per_pixel = 1) ∧
    (le32 f 128 = 83 → r.color_type = 2 ∧ r.bytes_per_pixel = 3) ∧
    (le32 f 128 = 71 ∨ le32 f 128 = 74 ∨ le32 f 128 = 77 ∨ le32 f 128 = 98 →
      r.color_type = 6 ∧ r.bytes_per_pixel = 4) ∧
    (le32 f 128 = 71 ∨ le32 f 128 = 74 ∨ le32 f 128 = 77 ∨ le32 f 128 = 80 ∨
      le32 f 128 = 83 ∨ le32 f 128 = 98) ∧
    dds2png_convert env (some f)
      = write_png_core env.png r.w r.h r.img r.color_type r.bytes_per_pixel := by
  have hconv : dds2png_convert env (some f)
      = write_png_core env.png r.w r.h r.img r.color_type r.bytes_per_pixel := by
    unfold dds2png_convert
    rw [hok]
  have hi := png_ihdr_eq width height color_type
  refine ⟨hi, by simp [png_ihdr], ?_, ?_, ?_⟩
  · rw [hi]
    simp only [be32, rd, List.cons_append, List.nil_append, List.getElem?_cons_succ,
      List.getElem?_cons_zero, Option.getD_some]
    omega
  · rw [hi]
    simp only [be32, rd, List.cons_append, List.nil_append, List.getElem?_cons_succ,
      List.getElem?_cons_zero, Option.getD_some]
    omega
  · have hv : ValidHeader f := by
      by_contra hnv
      obtain ⟨e, he, _⟩ := dds2png_raster_invalid env f hnv
      rw [he] at hok
      cases hok
    have branch : ∀ (bs c ct : Nat) (texel : List Nat → Nat → List Nat),
        convert_branch env f (le32 f 16) (le32 f 12) bs c ct texel = .ok r →
        r.w = le32 f 16 ∧ r.h = le32 f 12 ∧ r.color_type = ct ∧ r.bytes_per_pixel = c := by
      intro bs c ct texel hb
      unfold convert_branch at hb
      simp only at hb
      split at hb
      · cases hb
      · split at hb
        · cases hb
        · split at hb
          · cases hb
          · cases hb
            exact ⟨rfl, rfl, rfl, rfl⟩
    rw [dds2png_raster_valid env f hv] at hok
    split_ifs at hok with h71 h74 h77 h80 h83 h98
    · obtain ⟨a, b, c, d⟩ := branch _ _ _ _ hok
      refine ⟨a, b, ?_, ?_, ?_, ?_, hconv⟩ <;> simp [h71, c, d]
    · obtain ⟨a, b, c, d⟩ := branch _ _ _ _ hok
      refine ⟨a, b, ?_, ?_, ?_, ?_, hconv⟩ <;> simp [h74, c, d]
    · obtain ⟨a, b, c, d⟩ := branch _ _ _ _ hok
      refine ⟨a, b, ?_, ?_, ?_, ?_, hconv⟩ <;> simp [h77, c, d]
    · obtain ⟨a, b, c, d⟩ := branch _ _ _ _ hok
      refine ⟨a, b, ?_, ?_, ?_, ?_, hconv⟩ <;> simp [h80, c, d]
    · obtain ⟨a, b, c, d⟩ := branch _ _ _ _ hok
      refine ⟨a, b, ?_, ?_, ?_, ?_, hconv⟩ <;> simp [h83, c, d]
    · obtain ⟨a, b, c, d⟩ := branch _ _ _ _ hok
      refine ⟨a, b, ?_, ?_, ?_, ?_, hconv⟩ <;> simp [h98, c, d]

set_option maxRecDepth 100000 in
/-- Witness for C13: a 4x4 BC4 file reaches the writer with colour type 0. -/
theorem ihdr_contents_witness :
    (4 : Nat) < 4294967296 ∧
      dds2png_raster (sample_env true)
          (some (dds_header 4 4 80 ++ [255, 0, 0x88, 0xC6, 0xFA, 0x88, 0xC6, 0xFA]))
        = .ok (Raster.mk 4 4 0 1
            [255, 0, 219, 182, 146, 109, 73, 36, 255, 0, 219, 182, 146, 109, 73, 36]) ∧
      png_ihdr 4 4 0 = be32 4 ++ be32 4 ++ [8, 0, 0, 0, 0] :=
  ⟨by decide, by rfl,
    (ihdr_contents 4 4 0 (by decide) (by decide) (sample_env true)
      (dds_header 4 4 80 ++ [255, 0, 0x88, 0xC6, 0xFA, 0x88, 0xC6, 0xFA])
      (Raster.mk 4 4 0 1 [255, 0, 219, 182, 146, 109, 73, 36, 255, 0, 219, 182, 146, 109, 73, 36])
      (by rfl)).1⟩

theorem xor_lt_32 (a b : Nat) (ha : a < 4294967296) (hb : b < 4294967296) :
    a ^^^ b < 4294967296 :=
  Nat.xor_lt_two_pow (n := 32) ha hb

theorem crc32_step_lt (c b : Nat) (hc : c < 4294967296) : crc32_step c b < 4294967296 := by
  unfold crc32_step
  have hb : u8 b < 4294967296 := by unfold u8; omega
  have h0 := xor_lt_32 c (u8 b) hc hb
  generalize c ^^^ u8 b = s at h0
  generalize List.range 8 = l
  induction l generalizing s with
  | nil => exact h0
  | cons _ l ih =>
    rw [List.foldl_cons]
    apply ih
    have hs : s >>> 1 < 4294967296 := by
      rw [Nat.shiftRight_eq_div_pow]; omega
    split
    · exact xor_lt_32 _ _ hs (by norm_num)
    · exact hs

theorem crc32_fold_lt (buf : List Nat) (s : Nat) (hs : s < 4294967296) :
    buf.foldl crc32_step s < 4294967296 := by
  induction buf generalizing s with
  | nil => exact hs
  | cons b buf ih => exact ih _ (crc32_step_lt s b hs)

theorem xor_xor_cancel (x m : Nat) : (x ^^^ m) ^^^ m = x := by
  rw [Nat.xor_assoc, Nat.xor_self, Nat.xor_zero]

theorem crc32_zlib_contract (n : Nat → Nat) (k : List Nat → Nat → Option (List Nat)) :
    CrcContract (Zlib.mk crc32_zlib n k) := by
  have hinit : ∀ c, u32 c ^^^ 0xFFFFFFFF < 4294967296 := by
    intro c
    exact xor_lt_32 _ _ (by unfold u32; omega) (by norm_num)
  have hlt : ∀ c a, crc32_zlib c a < 4294967296 := by
    intro c a
    unfold crc32_zlib
    exact xor_lt_32 _ _ (crc32_fold_lt a _ (hinit c)) (by norm_num)
  refine ⟨?_, hlt⟩
  intro c a b
  show crc32_zlib (crc32_zlib c a) b = crc32_zlib c (a ++ b)
  have hu : u32 (crc32_zlib c a) = crc32_zlib c a := by
    unfold u32
    exact Nat.mod_eq_of_lt (hlt c a)
  unfold crc32_zlib at hu ⊢
  rw [hu, xor_xor_cancel, List.foldl_append]

theorem png_crc_eq (z : Zlib) (hz : CrcContract z) (tag payload : List Nat) :
    png_crc z tag (some payload)
        = z.crc32 0 (tag ++ payload.take (payload.length % 4294967296)) ∧
      (payload.length < 4294967296 →
        png_crc z tag (some payload) = z.crc32 0 (tag ++ payload)) ∧
      png_crc z tag none = z.crc32 0 (tag ++ []) := by
  obtain ⟨happ, hlt⟩ := hz
  have hu : ∀ c a, u32 (z.crc32 c a) = z.crc32 c a := by
    intro c a
    unfold u32
    exact Nat.mod_eq_of_lt (hlt c a)
  have h0 : z.crc32 (z.crc32 0 []) tag = z.crc32 0 tag := by
    rw [happ, List.nil_append]
  have h1 : png_crc z tag (some payload)
      = z.crc32 0 (tag ++ payload.take (payload.length % 4294967296)) := by
    simp only [png_crc, hu, h0, happ]
    rfl
  refine ⟨h1, fun hlen => ?_, ?_⟩
  · rw [h1, Nat.mod_eq_of_lt hlen, List.take_length]
  · simp only [png_crc, hu, h0, List.append_nil]

/-- PNG framing for compressed payloads shorter than `2^32` bytes. With zlib's `crc32`
satisfying its contract and the compressor a given function: whenever `write_png_core`
returns 0, the raw buffer was allocated, the compressor returned a payload `comp` for
the scanline buffer at level 9, the stream starts with the signature and ends with the
zero-length IEND chunk, the IHDR and IEND chunks are `chunk("IHDR", ihdr)` and
`chunk("IEND", [])`, the IDAT chunk stores the checksum of the type and of the first
`length comp mod 2^32` bytes of `comp`; if `comp` is shorter than `2^32` bytes the bytes
written are exactly the signature followed by `chunk("IHDR", ihdr)`,
`chunk("IDAT", comp)` and `chunk("IEND", [])`, where
`chunk(t, p) = be32(length p) ++ t ++ p ++ be32(crc32(t ++ p))`. -/
theorem png_framing (env : PngEnv) (hz : CrcContract env.zlib)
    (width height : Nat) (image : List Nat) (color_type bytes_per_pixel : Nat)
    (out : List Nat)
    (hret : write_png_core env width height image color_type bytes_per_pixel = (0, out)) :
    ∃ raw0 comp,
      env.malloc_raw (png_raw_size width height bytes_per_pixel) = some raw0 ∧
      env.zlib.compress2 (png_fill_raw width height bytes_per_pixel image raw0) 9 = some comp ∧
      out = png_sig ++ png_chunk env.zlib tag_IHDR (png_ihdr width height color_type)
          ++ (be32 comp.length ++ tag_IDAT ++ comp
              ++ be32 (env.zlib.crc32 0
                  (tag_IDAT ++ comp.take (comp.length % 4294967296))))
          ++ png_chunk env.zlib tag_IEND [] ∧
      (comp.length < 4294967296 →
        out = png_sig ++ png_chunk env.zlib tag_IHDR (png_ihdr width height color_type)
          ++ png_chunk env.zlib tag_IDAT comp ++ png_chunk env.zlib tag_IEND []) ∧
      out.take 8 = [137, 80, 78, 71, 13, 10, 26, 10] ∧
      png_chunk env.zlib tag_IEND []
        = [0, 0, 0, 0, 73, 69, 78, 68] ++ be32 (env.zlib.crc32 0 [73, 69, 78, 68]) := by
  unfold write_png_core at hret
  simp only at hret
  split at hret
  · cases hret
  · split at hret
    · cases hret
    · rename_i raw0 hraw
      split at hret
      · cases hret
      · split at hret
        · cases hret
        · rename_i comp hcomp
          simp only [Prod.mk.injEq, true_and] at hret
          have hl : (png_ihdr width height color_type).length = 13 := by simp [png_ihdr]
          have hihdr := (png_crc_eq env.zlib hz tag_IHDR (png_ihdr width height color_type)).2.1
            (by rw [hl]; norm_num)
          have e : out = png_sig ++ png_chunk env.zlib tag_IHDR (png_ihdr width height color_type)
              ++ (be32 comp.length ++ tag_IDAT ++ comp
                  ++ be32 (env.zlib.crc32 0
                      (tag_IDAT ++ comp.take (comp.length % 4294967296))))
              ++ png_chunk env.zlib tag_IEND [] := by
            rw [← hret]
            simp only [png_chunk, png_write_u32_eq, be32_u32, hihdr,
              (png_crc_eq env.zlib hz tag_IDAT comp).1,
              (png_crc_eq env.zlib hz tag_IEND []).2.2, List.append_assoc, List.append_nil,
              List.length_nil]
            rw [hl]
          refine ⟨raw0, comp, hraw, hcomp, e, fun hlen => ?_, ?_, ?_⟩
          · rw [e, Nat.mod_eq_of_lt hlen, List.take_length]
            simp only [png_chunk, List.append_assoc]
          · rw [e]
            simp [png_sig]
          · simp [png_chunk, be32, tag_IEND]

/-- A 2x1 grayscale image written with the real CRC-32; the stream starts with the
signature. -/
theorem png_framing_witness :
    CrcContract (sample_png_env true).zlib ∧
      (write_png_core (sample_png_env true) 2 1 [10, 20] 0 1).1 = 0 ∧
      ((write_png_core (sample_png_env true) 2 1 [10, 20] 0 1).2).take 8
        = [137, 80, 78, 71, 13, 10, 26, 10] := by
  refine ⟨crc32_zlib_contract _ _, by decide, ?_⟩
  obtain ⟨_, _, _, _, _, _, h, _⟩ := png_framing (sample_png_env true)
    (crc32_zlib_contract _ _)
    2 1 [10, 20] 0 1 (write_png_core (sample_png_env true) 2 1 [10, 20] 0 1).2
    (Prod.ext (by decide) rfl)
  exact h

theorem sum_zlib_contract (comp : List Nat) : CrcContract (sum_zlib comp) := by
  refine ⟨fun c a b => ?_, fun c a => Nat.mod_lt _ (by norm_num)⟩
  show ((c + a.sum) % 4294967296 + b.sum) % 4294967296 = (c + (a ++ b).sum) % 4294967296
  rw [List.sum_append]
  omega

theorem wide_payload_facts (n : Nat) :
    (wide_payload n).length = n + 2 ∧ (wide_payload n).take 1 = [0] ∧
      (wide_payload n).sum = 7 := by
  unfold wide_payload
  refine ⟨?_, rfl, ?_⟩
  · simp only [List.length_cons, List.length_append, List.length_replicate,
      List.length_singleton, List.length_nil]
  · simp only [List.sum_cons, List.sum_append, List.sum_replicate, smul_zero, List.sum_nil,
      zero_add, add_zero]

/-- The IDAT chunk written for the compressed payload `wide_payload n` when its length
`n + 2` is `1` modulo `2^32`. -/
theorem png_idat_wide (n : Nat) (hn : (n + 2) % 4294967296 = 1)
    (width height : Nat) (image : List Nat) (color_type bytes_per_pixel : Nat) :
    write_png_core (wide_png_env n) width height image color_type bytes_per_pixel
      = (0, png_sig
          ++ png_chunk (wide_png_env n).zlib tag_IHDR (png_ihdr width height color_type)
          ++ ([0, 0, 0, 1] ++ tag_IDAT ++ wide_payload n ++ [0, 0, 1, 34])
          ++ png_chunk (wide_png_env n).zlib tag_IEND []) ∧
    png_chunk (wide_png_env n).zlib tag_IDAT (wide_payload n)
      = [0, 0, 0, 1] ++ tag_IDAT ++ wide_payload n ++ [0, 0, 1, 41] := by
  obtain ⟨hlen, htake, hsum⟩ := wide_payload_facts n
  have hz : CrcContract (wide_png_env n).zlib := sum_zlib_contract _
  have hw : write_png_core (wide_png_env n) width height image color_type bytes_per_pixel
      = (0, (write_png_core (wide_png_env n) width height image color_type
          bytes_per_pixel).2) := by
    unfold write_png_core wide_png_env sum_zlib
    rfl
  have hbe : be32 (wide_payload n).length = [0, 0, 0, 1] := by
    rw [hlen]
    simp only [be32]
    have h1 : (n + 2) / 16777216 % 256 = 0 := by omega
    have h2 : (n + 2) / 65536 % 256 = 0 := by omega
    have h3 : (n + 2) / 256 % 256 = 0 := by omega
    have h4 : (n + 2) % 256 = 1 := by omega
    rw [h1, h2, h3, h4]
  have hcrc : ∀ buf : List Nat, (wide_png_env n).zlib.crc32 0 (tag_IDAT ++ buf)
      = (290 + buf.sum) % 4294967296 := by
    intro buf
    show (0 + (tag_IDAT ++ buf).sum) % 4294967296 = (290 + buf.sum) % 4294967296
    rw [List.sum_append]
    simp [tag_IDAT]
  obtain ⟨raw0, comp, _, hcomp, e, _, _, _⟩ := png_framing (wide_png_env n) hz width height
    image color_type bytes_per_pixel _ hw
  have hc : comp = wide_payload n := by
    have : (wide_png_env n).zlib.compress2
        (png_fill_raw width height bytes_per_pixel image raw0) 9 = some (wide_payload n) := rfl
    rw [this] at hcomp
    exact (Option.some.inj hcomp).symm
  subst hc
  constructor
  · rw [hw, e, hbe, hcrc, hlen, hn, htake]
    rfl
  · unfold png_chunk
    rw [hbe, hcrc, hsum]
    rfl

/-- C12 fails on the code: a compressed payload of `2^32 + 1` bytes. With a checksum
that satisfies the contract of `crc32`, `write_png_core` returns 0 and writes an IDAT
chunk whose length field is 1 and whose stored checksum 290 is that of the type and of
the first byte of the payload, because the 64-bit `comp_bound` is passed to the 32-bit
length parameter of `crc32`; `chunk("IDAT", comp)` ends with the checksum 297 of the type
and the whole payload. -/
theorem png_idat_crc_wide_payload :
    CrcContract (wide_png_env 4294967295).zlib ∧
    (wide_payload 4294967295).length = 4294967297 ∧
    (∀ (width height : Nat) (image : List Nat) (color_type bytes_per_pixel : Nat),
      write_png_core (wide_png_env 4294967295) width height image color_type bytes_per_pixel
        = (0, png_sig
            ++ png_chunk (wide_png_env 4294967295).zlib tag_IHDR
                (png_ihdr width height color_type)
            ++ ([0, 0, 0, 1] ++ tag_IDAT ++ wide_payload 4294967295 ++ [0, 0, 1, 34])
            ++ png_chunk (wide_png_env 4294967295).zlib tag_IEND [])) ∧
    png_chunk (wide_png_env 4294967295).zlib tag_IDAT (wide_payload 4294967295)
      = [0, 0, 0, 1] ++ tag_IDAT ++ wide_payload 4294967295 ++ [0, 0, 1, 41] ∧
    (wide_png_env 4294967295).zlib.crc32 0 (tag_IDAT ++ wide_payload 4294967295) = 297 ∧
    (wide_png_env 4294967295).zlib.crc32 0 (tag_IDAT ++ (wide_payload 4294967295).take 1)
      = 290 := by
  have hn : (4294967295 + 2) % 4294967296 = 1 := by norm_num
  obtain ⟨hlen, htake, hsum⟩ := wide_payload_facts 4294967295
  have hcrc : ∀ buf : List Nat, (wide_png_env 4294967295).zlib.crc32 0 (tag_IDAT ++ buf)
      = (290 + buf.sum) % 4294967296 := by
    intro buf
    show (0 + (tag_IDAT ++ buf).sum) % 4294967296 = (290 + buf.sum) % 4294967296
    rw [List.sum_append]
    simp [tag_IDAT]
  refine ⟨sum_zlib_contract _, hlen, fun width height image color_type bytes_per_pixel =>
    (png_idat_wide 4294967295 hn width height image color_type bytes_per_pixel).1,
    (png_idat_wide 4294967295 hn 0 0 [] 0 0).2, ?_, ?_⟩
  · rw [hcrc, hsum]
  · rw [hcrc, htake]
    rfl

/-! ## Scanline buffer -/

theorem memcpy_length (dst src : List Nat) (doff soff n : Nat) :
    (memcpy dst doff src soff n).length = dst.length := by
  unfold memcpy
  exact store_pixel_length _ _ _

theorem memcpy_rd (dst src : List Nat) (doff soff n j : Nat) (hj : j < dst.length) :
    rd (memcpy dst doff src soff n) j
      = if doff ≤ j ∧ j < doff + n then rd src (soff + (j - doff)) else rd dst j := by
  unfold memcpy
  rw [store_pixel_rd _ _ _ _ hj]
  simp only [List.length_map, List.length_range]
  by_cases h : doff ≤ j ∧ j < doff + n
  · rw [if_pos h, if_pos h, rd_map_range _ n (j - doff) (by omega)]
  · rw [if_neg h, if_neg h]

theorem png_fill_row_length (width bpp : Nat) (image raw : List Nat) (y : Nat) :
    (png_fill_row width bpp image raw y).length = raw.length := by
  unfold png_fill_row
  simp only
  rw [memcpy_length, List.length_set]

/-- One row of the scanline loop when nothing wraps: position `y*stride` gets the filter
byte 0, the next `width*bpp` positions get the bytes of image row `y`, every other
position keeps its content. -/
theorem png_fill_row_rd (width bpp : Nat) (image raw : List Nat) (y j : Nat)
    (hrow : width * bpp < 4294967296) (hoff : (y + 1) * (width * bpp + 1) < 18446744073709551616)
    (hj : j < raw.length) :
    rd (png_fill_row width bpp image raw y) j
      = if j = y * (width * bpp + 1) then 0
        else if y * (width * bpp + 1) < j ∧ j < (y + 1) * (width * bpp + 1) then
          rd image (y * width * bpp + (j - (y * (width * bpp + 1) + 1)))
        else rd raw j := by
  have hstride : png_stride_raw width bpp = width * bpp + 1 := by
    unfold png_stride_raw u64
    rw [Nat.mod_eq_of_lt (a := width * bpp) (by omega), Nat.mod_eq_of_lt (by omega)]
  have hmul : (y + 1) * (width * bpp + 1) = y * (width * bpp + 1) + (width * bpp + 1) := by
    rw [Nat.add_mul, Nat.one_mul]
  have hro : u64 (y * png_stride_raw width bpp) = y * (width * bpp + 1) := by
    rw [hstride]
    unfold u64
    exact Nat.mod_eq_of_lt (by omega)
  have hyw : y * width * bpp ≤ y * (width * bpp + 1) := by
    rw [Nat.mul_assoc]
    exact Nat.mul_le_mul_left y (by omega)
  have hsrc : u64 (u64 (y * width) * bpp) = y * width * bpp := by
    have h1 : y * width ≤ y * width * bpp ∨ bpp = 0 := by
      rcases Nat.eq_zero_or_pos bpp with h | h
      · exact Or.inr h
      · exact Or.inl (Nat.le_mul_of_pos_right _ h)
    rcases h1 with h1 | h1
    · unfold u64
      rw [Nat.mod_eq_of_lt (a := y * width) (by omega), Nat.mod_eq_of_lt (by omega)]
    · subst h1
      simp [u64]
  have hn : u32 (width * bpp) = width * bpp := by
    unfold u32
    exact Nat.mod_eq_of_lt hrow
  unfold png_fill_row
  simp only
  rw [hro, hsrc, hn, memcpy_rd _ _ _ _ _ _ (by rw [List.length_set]; exact hj)]
  by_cases h0 : j = y * (width * bpp + 1)
  · rw [if_pos h0, if_neg (by omega), rd_set _ _ _ _ hj, if_pos h0.symm]
  · rw [if_neg h0]
    by_cases h1 : y * (width * bpp + 1) < j ∧ j < (y + 1) * (width * bpp + 1)
    · rw [if_pos h1, if_pos (by omega)]
    · rw [if_neg h1, if_neg (by omega), rd_set _ _ _ _ hj, if_neg (fun h => h0 h.symm)]

/-- Content of the scanline buffer when nothing wraps: `width * bpp` below `2^32` and the
buffer size `height * (width*bpp + 1)` below `2^64`. -/
theorem png_fill_raw_content (width height bpp : Nat) (image raw0 : List Nat)
    (hrow : width * bpp < 4294967296)
    (hsz : height * (width * bpp + 1) < 18446744073709551616)
    (hlen : raw0.length = height * (width * bpp + 1)) :
    png_raw_size width height bpp = height * (width * bpp + 1) ∧
    (png_fill_raw width height bpp image raw0).length = height * (width * bpp + 1) ∧
    ∀ y, y < height →
      rd (png_fill_raw width height bpp image raw0) (y * (width * bpp + 1)) = 0 ∧
      ∀ k, k < width * bpp →
        rd (png_fill_raw width height bpp image raw0) (y * (width * bpp + 1) + 1 + k)
          = rd image (y * width * bpp + k) := by
  have hstride : png_stride_raw width bpp = width * bpp + 1 := by
    unfold png_stride_raw u64
    rw [Nat.mod_eq_of_lt (a := width * bpp) (by omega), Nat.mod_eq_of_lt (by omega)]
  have hsize : png_raw_size width height bpp = height * (width * bpp + 1) := by
    unfold png_raw_size u64
    rw [hstride, Nat.mul_comm, Nat.mod_eq_of_lt hsz]
  have key : ∀ n, n ≤ height →
      ((List.range n).foldl (png_fill_row width bpp image) raw0).length = raw0.length ∧
      ∀ y, y < n →
        rd ((List.range n).foldl (png_fill_row width bpp image) raw0)
            (y * (width * bpp + 1)) = 0 ∧
        ∀ k, k < width * bpp →
          rd ((List.range n).foldl (png_fill_row width bpp image) raw0)
              (y * (width * bpp + 1) + 1 + k) = rd image (y * width * bpp + k) := by
    intro n
    induction n with
    | zero =>
      intro _
      exact ⟨rfl, fun y hy => absurd hy (Nat.not_lt_zero y)⟩
    | succ n ih =>
      intro hn
      obtain ⟨ihl, ihr⟩ := ih (by omega)
      rw [List.range_succ, List.foldl_append]
      simp only [List.foldl_cons, List.foldl_nil]
      have hmuln : (n + 1) * (width * bpp + 1) ≤ height * (width * bpp + 1) :=
        Nat.mul_le_mul_right _ hn
      have hexp : (n + 1) * (width * bpp + 1) = n * (width * bpp + 1) + (width * bpp + 1) := by
        rw [Nat.add_mul, Nat.one_mul]
      refine ⟨by rw [png_fill_row_length, ihl], ?_⟩
      intro y hy
      have hrowy : (y + 1) * (width * bpp + 1) ≤ (n + 1) * (width * bpp + 1) :=
        Nat.mul_le_mul_right _ (by omega)
      have hexpy : (y + 1) * (width * bpp + 1) = y * (width * bpp + 1) + (width * bpp + 1) := by
        rw [Nat.add_mul, Nat.one_mul]
      by_cases hyn : y = n
      · subst hyn
        constructor
        · rw [png_fill_row_rd _ _ _ _ _ _ hrow (by omega) (by rw [ihl, hlen]; omega),
            if_pos rfl]
        · intro k hk
          rw [png_fill_row_rd _ _ _ _ _ _ hrow (by omega) (by rw [ihl, hlen]; omega),
            if_neg (by omega), if_pos (by omega)]
          congr 1
          omega
      · have hylt : y < n := by omega
        have hle : (y + 1) * (width * bpp + 1) ≤ n * (width * bpp + 1) :=
          Nat.mul_le_mul_right _ hylt
        obtain ⟨a, b⟩ := ihr y hylt
        constructor
        · rw [png_fill_row_rd _ _ _ _ _ _ hrow (by omega) (by rw [ihl, hlen]; omega),
            if_neg (by omega), if_neg (by omega)]
          exact a
        · intro k hk
          rw [png_fill_row_rd _ _ _ _ _ _ hrow (by omega) (by rw [ihl, hlen]; omega),
            if_neg (by omega), if_neg (by omega)]
          exact b k hk
  obtain ⟨kl, kr⟩ := key height (Nat.le_refl _)
  exact ⟨hsize, by unfold png_fill_raw; rw [kl, hlen], fun y hy => by
    unfold png_fill_raw; exact kr y hy⟩

/-- C14: the scanline buffer for a row of `2^32` bytes. For `width = 1073741824`,
`height = 1` and 4 bytes per pixel the stride is `4294967297`, but the `memcpy` length
`width * bytes_per_pixel` is a 32-bit product and wraps to 0: the loop only stores the
filter byte, so byte 1 of the buffer handed to the compressor is whatever the allocation
held, not byte 0 of the image row. -/
theorem png_scanline_wide_row :
    png_stride_raw 1073741824 4 = 4294967297 ∧
    png_raw_size 1073741824 1 4 = 1 * (1073741824 * 4 + 1) ∧
    u32 (1073741824 * 4) = 0 ∧
    (∀ image raw0 : List Nat, png_fill_raw 1073741824 1 4 image raw0 = raw0.set 0 0) ∧
    (∀ image raw0 : List Nat,
      rd (png_fill_raw 1073741824 1 4 image raw0) (0 * (1073741824 * 4 + 1) + 1 + 0)
        = rd raw0 1) := by
  have hfill : ∀ image raw0 : List Nat, png_fill_raw 1073741824 1 4 image raw0 = raw0.set 0 0 := by
    intro image raw0
    have h0 : u32 (1073741824 * 4) = 0 := by decide
    have h1 : u64 (0 * png_stride_raw 1073741824 4) = 0 := by simp [u64]
    simp only [png_fill_raw, List.range_succ, List.range_zero, List.nil_append, List.foldl_cons,
      List.foldl_nil, png_fill_row, h0, h1, memcpy, store_pixel, List.map_nil, List.length_nil]
  refine ⟨by decide, by decide, by decide, hfill, ?_⟩
  intro image raw0
  rw [hfill]
  simp [rd]

/-! ## BC5 remap -/

theorem isRounding_id : IsRounding id := by
  intro x
  simp only [id, sub_self, abs_zero]
  positivity

theorem fl_near (fl : ℚ → ℚ) (hfl : IsRounding fl) (x B : ℚ) (hx : |x| ≤ B) :
    |fl x - x| ≤ B / 9007199254740992 :=
  (hfl x).trans (div_le_div_of_nonneg_right hx (by norm_num))

/-- Accumulated rounding error of the remap expression for `v` in `[-1, 1]`. -/
theorem bc5_remap_error (fl : ℚ → ℚ) (hfl : IsRounding fl) (v : ℚ) (h1 : -1 ≤ v) (h2 : v ≤ 1) :
    |fl (fl (fl (fl (v * (1 / 2)) + 1 / 2) * 255) + 1 / 2) - ((v * (1 / 2) + 1 / 2) * 255 + 1 / 2)|
      ≤ 1 / 1099511627776 := by
  have ea := fl_near fl hfl (v * (1 / 2)) (1 / 2) (by rw [abs_le]; constructor <;> linarith)
  rw [abs_le] at ea
  have eb := fl_near fl hfl (fl (v * (1 / 2)) + 1 / 2) 2
    (by rw [abs_le]; constructor <;> linarith [ea.1, ea.2])
  rw [abs_le] at eb
  have ec := fl_near fl hfl (fl (fl (v * (1 / 2)) + 1 / 2) * 255) 512
    (by rw [abs_le]; constructor <;> linarith [ea.1, ea.2, eb.1, eb.2])
  rw [abs_le] at ec
  have ed := fl_near fl hfl (fl (fl (fl (v * (1 / 2)) + 1 / 2) * 255) + 1 / 2) 512
    (by rw [abs_le]; constructor <;> linarith [ea.1, ea.2, eb.1, eb.2, ec.1, ec.2])
  rw [abs_le] at ed
  rw [abs_le]
  constructor <;> linarith [ea.1, ea.2, eb.1, eb.2, ec.1, ec.2, ed.1, ed.2]

theorem bc5_byte_of_floor (fl : ℚ → ℚ) (v : ℚ) (n : ℕ) (hn : n < 256)
    (hlo : (n : ℚ) ≤ fl (fl (fl (fl (v * (1 / 2)) + 1 / 2) * 255) + 1 / 2))
    (hhi : fl (fl (fl (fl (v * (1 / 2)) + 1 / 2) * 255) + 1 / 2) < (n : ℚ) + 1) :
    bc5_byte fl v = n := by
  have hf : ⌊fl (fl (fl (fl (v * (1 / 2)) + 1 / 2) * 255) + 1 / 2)⌋ = (n : ℤ) := by
    rw [Int.floor_eq_iff]
    exact ⟨by exact_mod_cast hlo, by exact_mod_cast hhi⟩
  unfold bc5_byte u8
  rw [hf, Int.toNat_ofNat]
  exact Nat.mod_eq_of_lt hn

/-- Accumulated rounding error of the normalisation of a sample. -/
theorem bc5_normal_error (fl : ℚ → ℚ) (hfl : IsRounding fl) (s : ℕ) (hs : s ≤ 255) :
    |bc5_normal fl s - ((s : ℚ) / 255 * 2 - 1)| ≤ 1 / 1099511627776 := by
  have hs0 : (0 : ℚ) ≤ (s : ℚ) / 255 := by positivity
  have hs1 : (s : ℚ) / 255 ≤ 1 := by
    rw [div_le_one (by norm_num)]
    exact_mod_cast hs
  have ea := fl_near fl hfl ((s : ℚ) / 255) 1 (by rw [abs_le]; constructor <;> linarith)
  rw [abs_le] at ea
  have eb := fl_near fl hfl (fl ((s : ℚ) / 255) * 2) 4
    (by rw [abs_le]; constructor <;> linarith [ea.1, ea.2])
  rw [abs_le] at eb
  have ec := fl_near fl hfl (fl (fl ((s : ℚ) / 255) * 2) - 1) 4
    (by rw [abs_le]; constructor <;> linarith [ea.1, ea.2, eb.1, eb.2])
  rw [abs_le] at ec
  unfold bc5_normal
  rw [abs_le]
  constructor <;> linarith [ea.1, ea.2, eb.1, eb.2, ec.1, ec.2]

/-- Under every rounding of `double` arithmetic, the sample 128 is remapped to the byte
128. -/
theorem bc5_sample_128 (fl : ℚ → ℚ) (hfl : IsRounding fl) :
    bc5_byte fl (bc5_normal fl 128) = 128 := by
  have hn := bc5_normal_error fl hfl 128 (by norm_num)
  rw [abs_le] at hn
  have he := bc5_remap_error fl hfl (bc5_normal fl 128) (by linarith [hn.1]) (by linarith [hn.2])
  rw [abs_le] at he
  apply bc5_byte_of_floor fl _ 128 (by norm_num)
  · push_cast at hn he ⊢
    linarith [hn.1, hn.2, he.1, he.2]
  · push_cast at hn he ⊢
    linarith [hn.1, hn.2, he.1, he.2]

/-- C20, amended: the BC5 remap. Under every rounding of `double` arithmetic, a
component `v` in `[-1, 1]` is written as a byte in `0..255` that lies within
`1/2 + 2^-40` of `(v*0.5+0.5)*255`: the product is rounded to the nearest integer
after the scaling by 255, not before. In exact arithmetic the byte is
`floor((v*0.5+0.5)*255 + 0.5)`. -/
theorem bc5_remap_rounds_scaled (fl : ℚ → ℚ) (hfl : IsRounding fl) (v : ℚ)
    (h1 : -1 ≤ v) (h2 : v ≤ 1) :
    bc5_byte fl v ≤ 255 ∧
    |((bc5_byte fl v : ℕ) : ℚ) - (v * (1 / 2) + 1 / 2) * 255| ≤ 1 / 2 + 1 / 1099511627776 ∧
    bc5_byte id v = Int.toNat ⌊(v * (1 / 2) + 1 / 2) * 255 + 1 / 2⌋ := by
  have he := bc5_remap_error fl hfl v h1 h2
  rw [abs_le] at he
  have hg0 : (0 : ℚ) ≤ fl (fl (fl (fl (v * (1 / 2)) + 1 / 2) * 255) + 1 / 2) := by
    linarith [he.1]
  have hg1 : fl (fl (fl (fl (v * (1 / 2)) + 1 / 2) * 255) + 1 / 2) < 256 := by
    linarith [he.2]
  have hfl0 : (0 : ℤ) ≤ ⌊fl (fl (fl (fl (v * (1 / 2)) + 1 / 2) * 255) + 1 / 2)⌋ :=
    Int.floor_nonneg.2 hg0
  have hfl1 : ⌊fl (fl (fl (fl (v * (1 / 2)) + 1 / 2) * 255) + 1 / 2)⌋ < 256 := by
    rw [Int.floor_lt]
    exact_mod_cast hg1
  have hb : bc5_byte fl v
      = Int.toNat ⌊fl (fl (fl (fl (v * (1 / 2)) + 1 / 2) * 255) + 1 / 2)⌋ := by
    unfold bc5_byte u8
    apply Nat.mod_eq_of_lt
    omega
  have hcast : ((bc5_byte fl v : ℕ) : ℚ)
      = ((⌊fl (fl (fl (fl (v * (1 / 2)) + 1 / 2) * 255) + 1 / 2)⌋ : ℤ) : ℚ) := by
    rw [hb]
    have := Int.toNat_of_nonneg hfl0
    exact_mod_cast this
  have hle := Int.floor_le (fl (fl (fl (fl (v * (1 / 2)) + 1 / 2) * 255) + 1 / 2))
  have hlt := Int.lt_floor_add_one (fl (fl (fl (fl (v * (1 / 2)) + 1 / 2) * 255) + 1 / 2))
  refine ⟨by rw [hb]; omega, ?_, ?_⟩
  · rw [hcast, abs_le]
    constructor <;> linarith [he.1, he.2]
  · unfold bc5_byte u8
    simp only [id]
    apply Nat.mod_eq_of_lt
    have hx0 : (0 : ℚ) ≤ (v * (1 / 2) + 1 / 2) * 255 + 1 / 2 := by linarith
    have hx1 : (v * (1 / 2) + 1 / 2) * 255 + 1 / 2 < 256 := by linarith
    have k0 : (0 : ℤ) ≤ ⌊(v * (1 / 2) + 1 / 2) * 255 + 1 / 2⌋ := Int.floor_nonneg.2 hx0
    have k1 : ⌊(v * (1 / 2) + 1 / 2) * 255 + 1 / 2⌋ < 256 := by
      rw [Int.floor_lt]
      exact_mod_cast hx1
    omega

/-- Witness for C20: exact arithmetic and the component `1/255` of the sample 128. -/
theorem bc5_remap_rounds_scaled_witness :
    IsRounding id ∧ (-1 : ℚ) ≤ 1 / 255 ∧ (1 : ℚ) / 255 ≤ 1 ∧ bc5_byte id (1 / 255) ≤ 255 :=
  ⟨isRounding_id, by norm_num, by norm_num,
    (bc5_remap_rounds_scaled id isRounding_id (1 / 255) (by norm_num) (by norm_num)).1⟩

/-- Counterexample to C20 as stated: the sample 128 normalises to `v = 1/255`, the code
writes the byte 128, and `round(v*0.5+0.5)*255` is 255. -/
theorem bc5_remap_is_not_round_times_255 :
    bc5_normal id 128 = 1 / 255 ∧ (-1 : ℚ) ≤ 1 / 255 ∧ (1 : ℚ) / 255 ≤ 1 ∧
      bc5_byte id (bc5_normal id 128) = 128 ∧ bc5_byte_spec (bc5_normal id 128) = 255 := by
  have hn : bc5_normal id 128 = 1 / 255 := by
    unfold bc5_normal
    norm_num
  refine ⟨hn, by norm_num, by norm_num, bc5_sample_128 id isRounding_id, ?_⟩
  rw [hn]
  unfold bc5_byte_spec
  have hr : round ((1 : ℚ) / 255 * (1 / 2) + 1 / 2) = 1 := by
    rw [round_eq, Int.floor_eq_iff]
    constructor <;> norm_num
  rw [hr]
  norm_num

/-! ## The wrapped grid, end to end -/

set_option maxRecDepth 100000 in
/-- The 148-byte file that holds only a header with width `4294967295`, height 1 and the
BC4 format code is converted without any payload: the grid has no block, the
truncation check passes, and the raster handed to the PNG writer is the unwritten
allocation. -/
theorem dds2png_accepts_wrapped_width (env : Env) (img0 : List Nat)
    (hbc : env.malloc_bc 0 = true) (himg : env.malloc_img 4294967295 = some img0) :
    dds2png_raster env (some (dds_header 4294967295 1 80))
      = .ok (Raster.mk 4294967295 1 0 1 img0) := by
  have hv : ValidHeader (dds_header 4294967295 1 80) := by
    unfold ValidHeader; decide
  have hw : le32 (dds_header 4294967295 1 80) 16 = 4294967295 := by decide
  have hh : le32 (dds_header 4294967295 1 80) 12 = 1 := by decide
  have hf : le32 (dds_header 4294967295 1 80) 128 = 80 := by decide
  have hb : blocks_of 4294967295 = 0 := by decide
  have hl : loop_tuples 4294967295 1 = [] := by simp [loop_tuples, hb]
  obtain ⟨_, _, _, k4⟩ := convert_branch_cases env (dds_header 4294967295 1 80)
    4294967295 1 8 1 0 texel_bc4 (by decide)
  rw [hb, Nat.zero_mul, Nat.zero_mul] at k4
  have hsz : u64 (u64 (4294967295 * 1) * 1) = 4294967295 := by decide
  rw [hsz] at k4
  rw [dds2png_raster_valid _ _ hv, hf, hw, hh]
  simp only [show ¬ (80 = 71) by decide, show ¬ (80 = 74) by decide,
    show ¬ (80 = 77) by decide, if_false, if_true]
  rw [k4 hbc (by omega) img0 himg]
  simp [assemble, hl]

/-! ## BC4 interpolation (monotone, nearest) -/

theorem nearest_seventh (a : Nat) : |(((a + 3) / 7 : Nat) : ℚ) - (a : ℚ) / 7| < 1 / 2 := by
  have h1 : 7 * ((a + 3) / 7) ≤ a + 3 := Nat.mul_div_le _ _
  have h2 : a + 4 ≤ 7 * ((a + 3) / 7) + 7 := by omega
  have h1q : (7 : ℚ) * (((a + 3) / 7 : Nat) : ℚ) ≤ (a : ℚ) + 3 := by exact_mod_cast h1
  have h2q : (a : ℚ) + 4 ≤ 7 * (((a + 3) / 7 : Nat) : ℚ) + 7 := by exact_mod_cast h2
  rw [abs_lt]
  constructor <;> linarith

theorem nearest_fifth (a : Nat) : |(((a + 2) / 5 : Nat) : ℚ) - (a : ℚ) / 5| < 1 / 2 := by
  have h1 : 5 * ((a + 2) / 5) ≤ a + 2 := Nat.mul_div_le _ _
  have h2 : a + 3 ≤ 5 * ((a + 2) / 5) + 5 := by omega
  have h1q : (5 : ℚ) * (((a + 2) / 5 : Nat) : ℚ) ≤ (a : ℚ) + 2 := by exact_mod_cast h1
  have h2q : (a : ℚ) + 3 ≤ 5 * (((a + 2) / 5 : Nat) : ℚ) + 5 := by exact_mod_cast h2
  rw [abs_lt]
  constructor <;> linarith

theorem bc4_palette_gt (r0 r1 : Nat) (h0 : r0 < 256) (h : r0 > r1) :
    bc4_palette r0 r1 = [r0, r1, (6*r0 + r1 + 3) / 7, (5*r0 + 2*r1 + 3) / 7,
      (4*r0 + 3*r1 + 3) / 7, (3*r0 + 4*r1 + 3) / 7, (2*r0 + 5*r1 + 3) / 7,
      (r0 + 6*r1 + 3) / 7] := by
  have e : ∀ n, n < 256 → n % 256 = n := fun n hn => Nat.mod_eq_of_lt hn
  simp only [bc4_palette, if_pos h, u8]
  rw [e _ (by omega), e _ (by omega), e _ (by omega), e _ (by omega), e _ (by omega),
    e _ (by omega)]

theorem bc4_palette_le (r0 r1 : Nat) (h1 : r1 < 256) (h : r0 ≤ r1) :
    bc4_palette r0 r1 = [r0, r1, (4*r0 + r1 + 2) / 5, (3*r0 + 2*r1 + 2) / 5,
      (2*r0 + 3*r1 + 2) / 5, (r0 + 4*r1 + 2) / 5, 0, 255] := by
  have e : ∀ n, n < 256 → n % 256 = n := fun n hn => Nat.mod_eq_of_lt hn
  have hn : ¬ r0 > r1 := by omega
  simp only [bc4_palette, if_neg hn, u8]
  rw [e _ (by omega), e _ (by omega), e _ (by omega), e _ (by omega)]

/-- C26: the BC4 interpolation is monotone and rounds to nearest. For endpoint bytes
`r0 > r1` the palette satisfies `r0 >= pal[2] >= ... >= pal[7] >= r1`, for `r0 <= r1` it
satisfies `r0 <= pal[2] <= ... <= pal[5] <= r1`; every interpolated entry is the
quotient of the source formula without any truncation by the 8-bit cast, is at most
255, and lies at a distance less than 1/2 from the exact weighted average. -/
theorem bc4_interpolation_monotone_nearest (r0 r1 : Nat) (h0 : r0 < 256) (h1 : r1 < 256) :
    (r0 > r1 →
      (r0 ≥ rd (bc4_palette r0 r1) 2 ∧ rd (bc4_palette r0 r1) 2 ≥ rd (bc4_palette r0 r1) 3 ∧
        rd (bc4_palette r0 r1) 3 ≥ rd (bc4_palette r0 r1) 4 ∧
        rd (bc4_palette r0 r1) 4 ≥ rd (bc4_palette r0 r1) 5 ∧
        rd (bc4_palette r0 r1) 5 ≥ rd (bc4_palette r0 r1) 6 ∧
        rd (bc4_palette r0 r1) 6 ≥ rd (bc4_palette r0 r1) 7 ∧
        rd (bc4_palette r0 r1) 7 ≥ r1) ∧
      (rd (bc4_palette r0 r1) 2 = (6*r0 + r1 + 3) / 7 ∧
        rd (bc4_palette r0 r1) 3 = (5*r0 + 2*r1 + 3) / 7 ∧
        rd (bc4_palette r0 r1) 4 = (4*r0 + 3*r1 + 3) / 7 ∧
        rd (bc4_palette r0 r1) 5 = (3*r0 + 4*r1 + 3) / 7 ∧
        rd (bc4_palette r0 r1) 6 = (2*r0 + 5*r1 + 3) / 7 ∧
        rd (bc4_palette r0 r1) 7 = (r0 + 6*r1 + 3) / 7) ∧
      (|((rd (bc4_palette r0 r1) 2 : Nat) : ℚ) - (6 * (r0 : ℚ) + r1) / 7| < 1 / 2 ∧
        |((rd (bc4_palette r0 r1) 3 : Nat) : ℚ) - (5 * (r0 : ℚ) + 2 * r1) / 7| < 1 / 2 ∧
        |((rd (bc4_palette r0 r1) 4 : Nat) : ℚ) - (4 * (r0 : ℚ) + 3 * r1) / 7| < 1 / 2 ∧
        |((rd (bc4_palette r0 r1) 5 : Nat) : ℚ) - (3 * (r0 : ℚ) + 4 * r1) / 7| < 1 / 2 ∧
        |((rd (bc4_palette r0 r1) 6 : Nat) : ℚ) - (2 * (r0 : ℚ) + 5 * r1) / 7| < 1 / 2 ∧
        |((rd (bc4_palette r0 r1) 7 : Nat) : ℚ) - ((r0 : ℚ) + 6 * r1) / 7| < 1 / 2)) ∧
    (r0 ≤ r1 →
      (r0 ≤ rd (bc4_palette r0 r1) 2 ∧ rd (bc4_palette r0 r1) 2 ≤ rd (bc4_palette r0 r1) 3 ∧
        rd (bc4_palette r0 r1) 3 ≤ rd (bc4_palette r0 r1) 4 ∧
        rd (bc4_palette r0 r1) 4 ≤ rd (bc4_palette r0 r1) 5 ∧
        rd (bc4_palette r0 r1) 5 ≤ r1) ∧
      (rd (bc4_palette r0 r1) 2 = (4*r0 + r1 + 2) / 5 ∧
        rd (bc4_palette r0 r1) 3 = (3*r0 + 2*r1 + 2) / 5 ∧
        rd (bc4_palette r0 r1) 4 = (2*r0 + 3*r1 + 2) / 5 ∧
        rd (bc4_palette r0 r1) 5 = (r0 + 4*r1 + 2) / 5) ∧
      (|((rd (bc4_palette r0 r1) 2 : Nat) : ℚ) - (4 * (r0 : ℚ) + r1) / 5| < 1 / 2 ∧
        |((rd (bc4_palette r0 r1) 3 : Nat) : ℚ) - (3 * (r0 : ℚ) + 2 * r1) / 5| < 1 / 2 ∧
        |((rd (bc4_palette r0 r1) 4 : Nat) : ℚ) - (2 * (r0 : ℚ) + 3 * r1) / 5| < 1 / 2 ∧
        |((rd (bc4_palette r0 r1) 5 : Nat) : ℚ) - ((r0 : ℚ) + 4 * r1) / 5| < 1 / 2)) ∧
    (∀ k, k < 8 → rd (bc4_palette r0 r1) k ≤ 255) := by
  refine ⟨fun h => ?_, fun h => ?_, fun k hk => ?_⟩
  · rw [bc4_palette_gt r0 r1 h0 h]
    simp only [rd, List.getElem?_cons_succ, List.getElem?_cons_zero, Option.getD_some]
    refine ⟨by omega, by simp, ?_, ?_, ?_, ?_, ?_, ?_⟩
    · have := nearest_seventh (6*r0 + r1); push_cast at this ⊢; exact this
    · have := nearest_seventh (5*r0 + 2*r1); push_cast at this ⊢; exact this
    · have := nearest_seventh (4*r0 + 3*r1); push_cast at this ⊢; exact this
    · have := nearest_seventh (3*r0 + 4*r1); push_cast at this ⊢; exact this
    · have := nearest_seventh (2*r0 + 5*r1); push_cast at this ⊢; exact this
    · have := nearest_seventh (r0 + 6*r1); push_cast at this ⊢; exact this
  · rw [bc4_palette_le r0 r1 h1 h]
    simp only [rd, List.getElem?_cons_succ, List.getElem?_cons_zero, Option.getD_some]
    refine ⟨by omega, by simp, ?_, ?_, ?_, ?_⟩
    · have := nearest_fifth (4*r0 + r1); push_cast at this ⊢; exact this
    · have := nearest_fifth (3*r0 + 2*r1); push_cast at this ⊢; exact this
    · have := nearest_fifth (2*r0 + 3*r1); push_cast at this ⊢; exact this
    · have := nearest_fifth (r0 + 4*r1); push_cast at this ⊢; exact this
  · by_cases h : r0 > r1
    · rw [bc4_palette_gt r0 r1 h0 h]
      interval_cases k <;> simp [rd] <;> omega
    · rw [bc4_palette_le r0 r1 h1 (by omega)]
      interval_cases k <;> simp [rd] <;> omega

theorem bc4_interpolation_monotone_nearest_witness :
    (200 ≥ rd (bc4_palette 200 100) 2 ∧ rd (bc4_palette 200 100) 2 = 186 ∧
      rd (bc4_palette 200 100) 7 = 114 ∧ rd (bc4_palette 200 100) 7 ≥ 100) ∧
    (10 ≤ rd (bc4_palette 10 250) 2 ∧ rd (bc4_palette 10 250) 2 = 58 ∧
      rd (bc4_palette 10 250) 5 = 202 ∧ rd (bc4_palette 10 250) 5 ≤ 250) := by
  have h := bc4_interpolation_monotone_nearest 200 100 (by decide) (by decide)
  have g := bc4_interpolation_monotone_nearest 10 250 (by decide) (by decide)
  have h1 := h.1 (by decide)
  have g1 := g.2.1 (by decide)
  exact ⟨⟨h1.1.1, by decide, by decide, h1.1.2.2.2.2.2.2⟩,
    ⟨g1.1.1, by decide, by decide, g1.1.2.2.2.2⟩⟩

/-! ## BC1 transparency -/

/-- C27: BC1 transparency. With `c0`, `c1` the two colour words of a block and `idx` the
2-bit index of pixel `i`, the decoded alpha of pixel `i` is 0 exactly when `c0 <= c1`
and `idx = 3`; otherwise it is 255; a pixel with alpha 0 has RGB `(0, 0, 0)`. -/
theorem bc1_transparency (block : List Nat) (i : Nat) (hi : i < 16) :
    (rd (decode_bc1_block block) (i * 4 + 3) = 0
        ↔ bc1_c0 block ≤ bc1_c1 block ∧ bc1_idx block i = 3) ∧
    (¬ (bc1_c0 block ≤ bc1_c1 block ∧ bc1_idx block i = 3)
        → rd (decode_bc1_block block) (i * 4 + 3) = 255) ∧
    (rd (decode_bc1_block block) (i * 4 + 3) = 0 →
        rd (decode_bc1_block block) (i * 4) = 0 ∧
        rd (decode_bc1_block block) (i * 4 + 1) = 0 ∧
        rd (decode_bc1_block block) (i * 4 + 2) = 0) := by
  have hlt := bc1_idx_lt block i
  have key : rd (decode_bc1_block block) (i * 4 + 3)
      = if bc1_c0 block ≤ bc1_c1 block ∧ bc1_idx block i = 3 then 0 else 255 := by
    rw [decode_bc1_block_rd block i 3 hi (by norm_num)]
    by_cases hle : bc1_c0 block ≤ bc1_c1 block
    · rw [bc1_palette_le _ _ _ _ _ _ _ _ hle rfl rfl]
      generalize bc1_idx block i = idx at hlt ⊢
      interval_cases idx <;> simp [rd, hle]
    · rw [bc1_palette_gt _ _ _ _ _ _ _ _ (by omega) rfl rfl]
      generalize bc1_idx block i = idx at hlt ⊢
      interval_cases idx <;> simp [rd, hle]
  have hiff : rd (decode_bc1_block block) (i * 4 + 3) = 0
      ↔ bc1_c0 block ≤ bc1_c1 block ∧ bc1_idx block i = 3 := by
    rw [key]
    by_cases hc : bc1_c0 block ≤ bc1_c1 block ∧ bc1_idx block i = 3
    · simp [hc]
    · simp [hc]
  refine ⟨hiff, fun hn => by rw [key, if_neg hn], fun h0 => ?_⟩
  obtain ⟨hle, h3⟩ := hiff.mp h0
  have e0 := bc1_transparent block hle i 0 hi (by norm_num) h3
  exact ⟨e0, bc1_transparent block hle i 1 hi (by norm_num) h3,
    bc1_transparent block hle i 2 hi (by norm_num) h3⟩

theorem bc1_transparency_witness :
    (rd (decode_bc1_block [0, 0, 255, 255, 3, 0, 0, 0]) (0 * 4 + 3) = 0
        ↔ bc1_c0 [0, 0, 255, 255, 3, 0, 0, 0] ≤ bc1_c1 [0, 0, 255, 255, 3, 0, 0, 0]
          ∧ bc1_idx [0, 0, 255, 255, 3, 0, 0, 0] 0 = 3) ∧
    rd (decode_bc1_block [0, 0, 255, 255, 3, 0, 0, 0]) (0 * 4 + 3) = 0 ∧
    rd (decode_bc1_block [0, 0, 255, 255, 3, 0, 0, 0]) (1 * 4 + 3) = 255 :=
  ⟨(bc1_transparency [0, 0, 255, 255, 3, 0, 0, 0] 0 (by decide)).1, by decide, by decide⟩

/-! ## The two BC4 decoders -/

/-- C29: the function `decode_bc4` of `dds_bc4_bc5_to_png.c` and the function
`decode_bc4_block` of `dds_bc_all_to_png.c` produce the same 16 samples for every
block. -/
theorem decode_bc4_agrees (blk : List Nat) :
    decode_bc4 blk = decode_bc4_block blk ∧ (decode_bc4 blk).length = 16 := by
  refine ⟨?_, by simp [decode_bc4]⟩
  unfold decode_bc4 decode_bc4_block bc4_bits bc4_palette
  by_cases h : rd blk 0 > rd blk 1
  · simp only [if_pos h]
  · simp only [if_neg h]


/-! ## BC5 red and green channels -/

theorem decode_bc4_block_lt (blk : List Nat) (hb : IsBytes blk) (i : Nat) (hi : i < 16) :
    rd (decode_bc4_block blk) i < 256 := by
  rw [decode_bc4_block_rd blk i hi]
  have h0 := isBytes_rd blk hb 0
  have h1 := isBytes_rd blk hb 1
  have hk : (bc4_bits blk >>> (3 * i)) &&& 7 < 8 := by rw [and_7]; omega
  generalize (bc4_bits blk >>> (3 * i)) &&& 7 = k at hk
  generalize rd blk 0 = r0 at h0 ⊢
  generalize rd blk 1 = r1 at h1 ⊢
  unfold bc4_palette
  split <;> interval_cases k <;> simp [rd, u8] <;> omega

/-- Accumulated rounding error of the remap expression for `v` in `[-2, 2]`. -/
theorem bc5_remap_error_wide (fl : ℚ → ℚ) (hfl : IsRounding fl) (v : ℚ) (h1 : -2 ≤ v)
    (h2 : v ≤ 2) :
    |fl (fl (fl (fl (v * (1 / 2)) + 1 / 2) * 255) + 1 / 2) - ((v * (1 / 2) + 1 / 2) * 255 + 1 / 2)|
      ≤ 1 / 1099511627776 := by
  have ea := fl_near fl hfl (v * (1 / 2)) 1 (by rw [abs_le]; constructor <;> linarith)
  rw [abs_le] at ea
  have eb := fl_near fl hfl (fl (v * (1 / 2)) + 1 / 2) 2
    (by rw [abs_le]; constructor <;> linarith [ea.1, ea.2])
  rw [abs_le] at eb
  have ec := fl_near fl hfl (fl (fl (v * (1 / 2)) + 1 / 2) * 255) 512
    (by rw [abs_le]; constructor <;> linarith [ea.1, ea.2, eb.1, eb.2])
  rw [abs_le] at ec
  have ed := fl_near fl hfl (fl (fl (fl (v * (1 / 2)) + 1 / 2) * 255) + 1 / 2) 512
    (by rw [abs_le]; constructor <;> linarith [ea.1, ea.2, eb.1, eb.2, ec.1, ec.2])
  rw [abs_le] at ed
  rw [abs_le]
  constructor <;> linarith [ea.1, ea.2, eb.1, eb.2, ec.1, ec.2, ed.1, ed.2]

theorem bc5_sample_round_trip (fl : ℚ → ℚ) (hfl : IsRounding fl) (s : Nat) (hs : s ≤ 255) :
    bc5_byte fl (bc5_normal fl s) = s := by
  have hn := bc5_normal_error fl hfl s hs
  rw [abs_le] at hn
  have hs0 : (0 : ℚ) ≤ (s : ℚ) := by positivity
  have hs1 : (s : ℚ) ≤ 255 := by exact_mod_cast hs
  have he := bc5_remap_error_wide fl hfl (bc5_normal fl s) (by linarith [hn.1])
    (by linarith [hn.2])
  rw [abs_le] at he
  apply bc5_byte_of_floor fl _ s (by omega)
  · linarith [hn.1, hn.2, he.1, he.2]
  · linarith [hn.1, hn.2, he.1, he.2]

theorem texel_bc5_eq (fl fsqrt : ℚ → ℚ) (blk : List Nat) (idx : Nat) :
    texel_bc5 fl fsqrt blk idx =
      [bc5_byte fl (bc5_normal fl (rd (decode_bc4_block blk) idx)),
       bc5_byte fl (bc5_normal fl (rd (decode_bc4_block (blk.drop 8)) idx)),
       bc5_byte fl (bc5_nz fl fsqrt (bc5_normal fl (rd (decode_bc4_block blk) idx))
         (bc5_normal fl (rd (decode_bc4_block (blk.drop 8)) idx)))] := rfl

/-- C28: BC5 red and green pass through. Over exact rational arithmetic the remap
`floor((v*0.5+0.5)*255 + 0.5)` of `v = s/255*2 - 1` returns `s` for every sample `s` in
`0..255`, and the same holds for the code under every rounding of `double` arithmetic;
so the red and green bytes of a BC5 pixel are the `decode_bc4_block` samples of the
first and of the second 8 bytes of the block, and only blue is derived. -/
theorem bc5_red_green_pass_through (fl : ℚ → ℚ) (hfl : IsRounding fl) (fsqrt : ℚ → ℚ)
    (blk : List Nat) (hb : IsBytes blk) (idx : Nat) (hidx : idx < 16) :
    (∀ s : Nat, s ≤ 255 →
      ⌊(((s : ℚ) / 255 * 2 - 1) * (1 / 2) + 1 / 2) * 255 + 1 / 2⌋ = (s : ℤ)) ∧
    (∀ s : Nat, s ≤ 255 → bc5_byte id (bc5_normal id s) = s) ∧
    (∀ s : Nat, s ≤ 255 → bc5_byte fl (bc5_normal fl s) = s) ∧
    rd (texel_bc5 fl fsqrt blk idx) 0 = rd (decode_bc4_block blk) idx ∧
    rd (texel_bc5 fl fsqrt blk idx) 1 = rd (decode_bc4_block (blk.drop 8)) idx ∧
    rd (texel_bc5 fl fsqrt blk idx) 2 =
      bc5_byte fl (bc5_nz fl fsqrt (bc5_normal fl (rd (decode_bc4_block blk) idx))
         (bc5_normal fl (rd (decode_bc4_block (blk.drop 8)) idx))) := by
  have hx := decode_bc4_block_lt blk hb idx hidx
  have hy := decode_bc4_block_lt (blk.drop 8) (isBytes_drop blk hb 8) idx hidx
  refine ⟨fun s _ => ?_, fun s hs => bc5_sample_round_trip id isRounding_id s hs,
    fun s hs => bc5_sample_round_trip fl hfl s hs, ?_, ?_, ?_⟩
  · rw [Int.floor_eq_iff]
    push_cast
    constructor
    · linarith
    · linarith
  · rw [texel_bc5_eq]
    simp only [rd, List.getElem?_cons_zero, Option.getD_some]
    exact bc5_sample_round_trip fl hfl _ (by unfold rd at hx; omega)
  · rw [texel_bc5_eq]
    simp only [rd, List.getElem?_cons_succ, List.getElem?_cons_zero, Option.getD_some]
    exact bc5_sample_round_trip fl hfl _ (by unfold rd at hy; omega)
  · rw [texel_bc5_eq]
    simp only [rd, List.getElem?_cons_succ, List.getElem?_cons_zero, Option.getD_some]

theorem bc5_red_green_pass_through_witness :
    IsRounding id ∧ IsBytes [200, 100, 1, 0, 0, 0, 0, 0, 10, 250, 2, 0, 0, 0, 0, 0] ∧
    rd (texel_bc5 id id [200, 100, 1, 0, 0, 0, 0, 0, 10, 250, 2, 0, 0, 0, 0, 0] 0) 0 = 100 ∧
    rd (texel_bc5 id id [200, 100, 1, 0, 0, 0, 0, 0, 10, 250, 2, 0, 0, 0, 0, 0] 0) 1 = 58 := by
  have h := bc5_red_green_pass_through id isRounding_id id
    [200, 100, 1, 0, 0, 0, 0, 0, 10, 250, 2, 0, 0, 0, 0, 0] (by decide) 0 (by decide)
  refine ⟨isRounding_id, by decide, ?_, ?_⟩
  · rw [h.2.2.2.1]; decide
  · rw [h.2.2.2.2.1]; decide

/-! ## Header layout and trailing data -/

theorem rd_append_left (p t : List Nat) (i : Nat) (hi : i < p.length) :
    rd (p ++ t) i = rd p i := by
  unfold rd
  rw [List.getElem?_append_left hi]

theorem le32_append_left (p t : List Nat) (off : Nat) (h : off + 3 < p.length) :
    le32 (p ++ t) off = le32 p off := by
  unfold le32
  rw [rd_append_left p t off (by omega), rd_append_left p t (off + 1) (by omega),
    rd_append_left p t (off + 2) (by omega), rd_append_left p t (off + 3) (by omega)]

/-- A conversion that produces a raster has passed every header check, has a supported
format code, and its raster is assembled from the payload that starts at offset 148. -/
theorem dds2png_raster_ok (env : Env) (f : List Nat) (r : Raster)
    (h : dds2png_raster env (some f) = .ok r) :
    ValidHeader f ∧
    (le32 f 128 = 71 ∨ le32 f 128 = 74 ∨ le32 f 128 = 77 ∨ le32 f 128 = 80 ∨
      le32 f 128 = 83 ∨ le32 f 128 = 98) ∧
    ¬ f.length - 148 < payload_bytes f ∧
    ∃ img0, r = Raster.mk (le32 f 16) (le32 f 12) (format_color_type (le32 f 128))
      (format_channels (le32 f 128))
      (assemble (le32 f 16) (le32 f 12) (format_channels (le32 f 128))
        (block_size (le32 f 128)) (format_texel env (le32 f 128))
        ((f.drop 148).take (payload_bytes f)) img0) := by
  have hv : ValidHeader f := by
    by_contra hv
    obtain ⟨e, he, _⟩ := dds2png_raster_invalid env f hv
    rw [he] at h
    cases h
  refine ⟨hv, ?_⟩
  rw [dds2png_raster_valid env f hv] at h
  have branch : ∀ (bs c ct : Nat) (texel : List Nat → Nat → List Nat), bs ≤ 16 →
      convert_branch env f (le32 f 16) (le32 f 12) bs c ct texel = .ok r →
      ¬ f.length - 148 < blocks_of (le32 f 16) * blocks_of (le32 f 12) * bs ∧
      ∃ img0, r = Raster.mk (le32 f 16) (le32 f 12) ct c
        (assemble (le32 f 16) (le32 f 12) c bs texel
          ((f.drop 148).take (blocks_of (le32 f 16) * blocks_of (le32 f 12) * bs)) img0) := by
    intro bs c ct texel hbs hok
    obtain ⟨c1, c2, c3, c4⟩ := convert_branch_cases env f (le32 f 16) (le32 f 12) bs c ct
      texel hbs
    cases ha : env.malloc_bc (blocks_of (le32 f 16) * blocks_of (le32 f 12) * bs) with
    | false => rw [c1 ha] at hok; cases hok
    | true =>
      by_cases ht : f.length - 148 < blocks_of (le32 f 16) * blocks_of (le32 f 12) * bs
      · rw [c2 ha ht] at hok; cases hok
      · refine ⟨ht, ?_⟩
        cases hi : env.malloc_img (u64 (u64 (le32 f 16 * le32 f 12) * c)) with
        | none => rw [c3 ha ht hi] at hok; cases hok
        | some img0 =>
          rw [c4 ha ht img0 hi] at hok
          exact ⟨img0, (Except.ok.inj hok).symm⟩
  unfold payload_bytes
  by_cases h71 : le32 f 128 = 71
  · rw [if_pos h71] at h
    have := branch 8 4 6 texel_bc1 (by norm_num) h
    simpa [h71, block_size, format_texel, format_channels, format_color_type] using this
  rw [if_neg h71] at h
  by_cases h74 : le32 f 128 = 74
  · rw [if_pos h74] at h
    have := branch 16 4 6 texel_bc2 (by norm_num) h
    simpa [h74, block_size, format_texel, format_channels, format_color_type] using this
  rw [if_neg h74] at h
  by_cases h77 : le32 f 128 = 77
  · rw [if_pos h77] at h
    have := branch 16 4 6 texel_bc3 (by norm_num) h
    simpa [h77, block_size, format_texel, format_channels, format_color_type] using this
  rw [if_neg h77] at h
  by_cases h80 : le32 f 128 = 80
  · rw [if_pos h80] at h
    have := branch 8 1 0 texel_bc4 (by norm_num) h
    simpa [h80, block_size, format_texel, format_channels, format_color_type] using this
  rw [if_neg h80] at h
  by_cases h83 : le32 f 128 = 83
  · rw [if_pos h83] at h
    have := branch 16 3 2 (texel_bc5 env.fl env.fsqrt) (by norm_num) h
    simpa [h83, block_size, format_texel, format_channels, format_color_type] using this
  rw [if_neg h83] at h
  by_cases h98 : le32 f 128 = 98
  · rw [if_pos h98] at h
    have := branch 16 4 6 (texel_bc7 env.unpack_bc7) (by norm_num) h
    simpa [h98, block_size, format_texel, format_channels, format_color_type] using this
  rw [if_neg h98] at h
  cases h

/-- C25: header field layout. A conversion that passes validation has an input of at
least 148 bytes and takes the height from bytes 12..15, the width from bytes 16..19,
the FourCC from bytes 84..87 and the DX10 format code from bytes 128..131, each decoded
as a little-endian 32-bit value; its raster is assembled from the payload whose byte `i`
is byte `148 + i` of the input, so block 0 starts at offset 148. Any input shorter than
148 bytes is rejected at a header check. The offsets are those of the packed structs
after the 4-byte magic. -/
theorem header_field_layout (env : Env) (f : List Nat) :
    (f.length < 148 →
      dds2png_convert env (some f) = (1, []) ∧
      ∃ e, dds2png_raster env (some f) = .error e ∧ e.at_header) ∧
    (∀ r, dds2png_raster env (some f) = .ok r →
      148 ≤ f.length ∧
      r.h = rd f 12 + 256 * rd f 13 + 65536 * rd f 14 + 16777216 * rd f 15 ∧
      r.w = rd f 16 + 256 * rd f 17 + 65536 * rd f 18 + 16777216 * rd f 19 ∧
      rd f 84 + 256 * rd f 85 + 65536 * rd f 86 + 16777216 * rd f 87 = FOURCC_DX10 ∧
      (∃ fmt, fmt = rd f 128 + 256 * rd f 129 + 65536 * rd f 130 + 16777216 * rd f 131 ∧
        (fmt = 71 ∨ fmt = 74 ∨ fmt = 77 ∨ fmt = 80 ∨ fmt = 83 ∨ fmt = 98) ∧
        r.bytes_per_pixel = format_channels fmt ∧ r.color_type = format_color_type fmt ∧
        ∃ img0, r.img = assemble r.w r.h (format_channels fmt) (block_size fmt)
          (format_texel env fmt) ((f.drop 148).take (payload_bytes f)) img0) ∧
      (∀ i, i < payload_bytes f →
        rd ((f.drop 148).take (payload_bytes f)) i = rd f (148 + i))) ∧
    (4 + field_offset DDS_HEADER_fields 2 = 12 ∧
      4 + field_offset DDS_HEADER_fields 3 = 16 ∧
      4 + field_offset DDS_HEADER_fields 8 + field_offset DDS_PIXELFORMAT_fields 2 = 84 ∧
      4 + DDS_HEADER_fields.sum + field_offset DDS_HEADER_DX10_fields 0 = 128 ∧
      4 + DDS_HEADER_fields.sum + DDS_HEADER_DX10_fields.sum = 148) := by
  refine ⟨fun hlt => ?_, fun r hr => ?_, by decide⟩
  · have hv : ¬ ValidHeader f := fun hv => by
      have := hv.1
      omega
    obtain ⟨e, he, hat⟩ := dds2png_raster_invalid env f hv
    refine ⟨?_, e, he, hat⟩
    unfold dds2png_convert
    rw [he]
  · obtain ⟨hv, hfmt, _, img0, himg⟩ := dds2png_raster_ok env f r hr
    subst himg
    refine ⟨hv.1, rfl, rfl, hv.2.2.1, ⟨le32 f 128, rfl, hfmt, rfl, rfl, img0, rfl⟩, ?_⟩
    intro i hi
    rw [rd_take _ _ _ hi, rd_drop]

set_option maxRecDepth 100000 in
/-- Witness for C25: a complete 4x4 BC4 file is converted with the width and height of
its header, and the first 147 bytes of the header alone are rejected. -/
theorem header_field_layout_witness :
    dds2png_raster (sample_env true) (some (dds_header 4 4 80 ++ [255, 0, 0, 0, 0, 0, 0, 0]))
      = .ok (Raster.mk 4 4 0 1 (List.replicate 16 255)) ∧
    148 ≤ (dds_header 4 4 80 ++ [255, 0, 0, 0, 0, 0, 0, 0]).length ∧
    (Raster.mk 4 4 0 1 (List.replicate 16 255)).h
      = rd (dds_header 4 4 80 ++ [255, 0, 0, 0, 0, 0, 0, 0]) 12
        + 256 * rd (dds_header 4 4 80 ++ [255, 0, 0, 0, 0, 0, 0, 0]) 13
        + 65536 * rd (dds_header 4 4 80 ++ [255, 0, 0, 0, 0, 0, 0, 0]) 14
        + 16777216 * rd (dds_header 4 4 80 ++ [255, 0, 0, 0, 0, 0, 0, 0]) 15 ∧
    dds2png_convert (sample_env true) (some ((dds_header 4 4 80).take 147)) = (1, []) := by
  have h := header_field_layout (sample_env true)
    (dds_header 4 4 80 ++ [255, 0, 0, 0, 0, 0, 0, 0])
  have g := header_field_layout (sample_env true) ((dds_header 4 4 80).take 147)
  have hr : dds2png_raster (sample_env true)
      (some (dds_header 4 4 80 ++ [255, 0, 0, 0, 0, 0, 0, 0]))
      = .ok (Raster.mk 4 4 0 1 (List.replicate 16 255)) := by rfl
  exact ⟨hr, (h.2.1 _ hr).1, (h.2.1 _ hr).2.1, (g.1 (by decide)).1⟩

theorem convert_branch_append (env : Env) (p t : List Nat) (w h bs c color_type : Nat)
    (texel : List Nat → Nat → List Nat) (hbs : bs ≤ 16)
    (hp : 148 + blocks_of w * blocks_of h * bs ≤ p.length) :
    convert_branch env (p ++ t) w h bs c color_type texel
      = convert_branch env p w h bs c color_type texel := by
  have hsz := payload_size_exact w h bs hbs
  have e1 : ((p ++ t).drop 148).take (blocks_of w * blocks_of h * bs)
      = (p.drop 148).take (blocks_of w * blocks_of h * bs) := by
    rw [List.drop_append_of_le_length (by omega), List.take_append_of_le_length]
    rw [List.length_drop]; omega
  have e2 : ¬ (p ++ t).length - 148 < blocks_of w * blocks_of h * bs := by
    rw [List.length_append]; omega
  have e3 : ¬ p.length - 148 < blocks_of w * blocks_of h * bs := by omega
  unfold convert_branch
  simp only [hsz, e1, if_neg e2, if_neg e3]

theorem dds2png_raster_long_invalid (env : Env) (f : List Nat) (hlen : 148 ≤ f.length)
    (hv : ¬ ValidHeader f) :
    dds2png_raster env (some f) =
      if le32 f 0 ≠ DDS_MAGIC then .error Reject.bad_magic
      else if le32 f 84 ≠ FOURCC_DX10 then .error Reject.not_dx10
      else .error Reject.zero_dim := by
  have h128 : ¬ (f.length < 128) := by omega
  have h148 : ¬ (f.length < 148) := by omega
  unfold dds2png_raster
  dsimp only
  by_cases hm : le32 f 0 = DDS_MAGIC
  · have c1 : ¬ (f.length < 4 ∨ le32 f 0 ≠ DDS_MAGIC) := by
      intro h; rcases h with h | h
      · omega
      · exact h hm
    have c2 : ¬ (le32 f 0 ≠ DDS_MAGIC) := fun h => h hm
    rw [if_neg c1, if_neg h128, if_neg c2]
    by_cases hf : le32 f 84 = FOURCC_DX10
    · have c3 : ¬ (le32 f 84 ≠ FOURCC_DX10) := fun h => h hf
      rw [if_neg c3, if_neg h148, if_neg c3]
      have hz : le32 f 16 = 0 ∨ le32 f 12 = 0 := by
        by_contra hz
        exact hv ⟨hlen, hm, hf, fun h => hz (Or.inl h), fun h => hz (Or.inr h)⟩
      rw [if_pos hz]
    · rw [if_pos hf, if_pos hf]
  · have c1 : f.length < 4 ∨ le32 f 0 ≠ DDS_MAGIC := Or.inr hm
    rw [if_pos c1, if_pos hm]

theorem dds2png_raster_append (env : Env) (p t : List Nat)
    (hp : 148 + payload_bytes p ≤ p.length) :
    dds2png_raster env (some (p ++ t)) = dds2png_raster env (some p) := by
  have hl : ∀ off, off + 3 < 148 → le32 (p ++ t) off = le32 p off :=
    fun off h => le32_append_left p t off (by omega)
  have l0 := hl 0 (by norm_num)
  have l84 := hl 84 (by norm_num)
  have l16 := hl 16 (by norm_num)
  have l12 := hl 12 (by norm_num)
  have l128 := hl 128 (by norm_num)
  have hlen : 148 ≤ (p ++ t).length := by rw [List.length_append]; omega
  unfold payload_bytes block_size at hp
  by_cases hv : ValidHeader p
  · have hv2 : ValidHeader (p ++ t) := by
      obtain ⟨a, b, c, d, e⟩ := hv
      exact ⟨hlen, by rw [l0]; exact b, by rw [l84]; exact c, by rw [l16]; exact d,
        by rw [l12]; exact e⟩
    rw [dds2png_raster_valid env p hv, dds2png_raster_valid env (p ++ t) hv2, l16, l12, l128]
    by_cases h71 : le32 p 128 = 71
    · rw [if_pos h71, if_pos h71]
      rw [if_pos (Or.inl h71)] at hp
      exact convert_branch_append env p t _ _ 8 4 6 _ (by norm_num) hp
    rw [if_neg h71, if_neg h71]
    by_cases h74 : le32 p 128 = 74
    · rw [if_pos h74, if_pos h74]
      rw [if_neg (by omega)] at hp
      exact convert_branch_append env p t _ _ 16 4 6 _ (by norm_num) hp
    rw [if_neg h74, if_neg h74]
    by_cases h77 : le32 p 128 = 77
    · rw [if_pos h77, if_pos h77]
      rw [if_neg (by omega)] at hp
      exact convert_branch_append env p t _ _ 16 4 6 _ (by norm_num) hp
    rw [if_neg h77, if_neg h77]
    by_cases h80 : le32 p 128 = 80
    · rw [if_pos h80, if_pos h80]
      rw [if_pos (Or.inr h80)] at hp
      exact convert_branch_append env p t _ _ 8 1 0 _ (by norm_num) hp
    rw [if_neg h80, if_neg h80]
    by_cases h83 : le32 p 128 = 83
    · rw [if_pos h83, if_pos h83]
      rw [if_neg (by omega)] at hp
      exact convert_branch_append env p t _ _ 16 3 2 _ (by norm_num) hp
    rw [if_neg h83, if_neg h83]
    by_cases h98 : le32 p 128 = 98
    · rw [if_pos h98, if_pos h98]
      rw [if_neg (by omega)] at hp
      exact convert_branch_append env p t _ _ 16 4 6 _ (by norm_num) hp
    rw [if_neg h98, if_neg h98]
  · have hv2 : ¬ ValidHeader (p ++ t) := by
      rintro ⟨a, b, c, d, e⟩
      exact hv ⟨by omega, by rw [← l0]; exact b, by rw [← l84]; exact c,
        by rw [← l16]; exact d, by rw [← l12]; exact e⟩
    rw [dds2png_raster_long_invalid env p (by omega) hv,
      dds2png_raster_long_invalid env (p ++ t) hlen hv2, l0, l84]

/-- C30: trailing data is ignored. Two inputs `p ++ t1` and `p ++ t2` whose common part
`p` holds the 148 header bytes and the payload of the top-level image give the same
outcome of the conversion: the same raster or the same rejection, hence the same raw
scanline buffer handed to the compressor, the same result code and the same output. -/
theorem trailing_data_ignored (env : Env) (p t1 t2 : List Nat)
    (hp : 148 + payload_bytes p ≤ p.length) :
    dds2png_raster env (some (p ++ t1)) = dds2png_raster env (some (p ++ t2)) ∧
    dds2png_convert env (some (p ++ t1)) = dds2png_convert env (some (p ++ t2)) ∧
    (∀ r1 r2, dds2png_raster env (some (p ++ t1)) = .ok r1 →
      dds2png_raster env (some (p ++ t2)) = .ok r2 →
      r1 = r2 ∧
      ∀ raw0, png_fill_raw r1.w r1.h r1.bytes_per_pixel r1.img raw0
        = png_fill_raw r2.w r2.h r2.bytes_per_pixel r2.img raw0) := by
  have e : dds2png_raster env (some (p ++ t1)) = dds2png_raster env (some (p ++ t2)) := by
    rw [dds2png_raster_append env p t1 hp, dds2png_raster_append env p t2 hp]
  refine ⟨e, ?_, ?_⟩
  · unfold dds2png_convert
    rw [e]
  · intro r1 r2 h1 h2
    rw [e, h2] at h1
    have := Except.ok.inj h1
    subst this
    exact ⟨rfl, fun _ => rfl⟩

set_option maxRecDepth 100000 in
/-- Witness for C30: a complete 4x4 BC4 file followed by one mip byte or by three. -/
theorem trailing_data_ignored_witness :
    148 + payload_bytes (dds_header 4 4 80 ++ [255, 0, 0, 0, 0, 0, 0, 0])
      ≤ (dds_header 4 4 80 ++ [255, 0, 0, 0, 0, 0, 0, 0]).length ∧
    dds2png_raster (sample_env true)
        (some ((dds_header 4 4 80 ++ [255, 0, 0, 0, 0, 0, 0, 0]) ++ [7]))
      = .ok (Raster.mk 4 4 0 1 (List.replicate 16 255)) ∧
    dds2png_convert (sample_env true)
        (some ((dds_header 4 4 80 ++ [255, 0, 0, 0, 0, 0, 0, 0]) ++ [7]))
      = dds2png_convert (sample_env true)
        (some ((dds_header 4 4 80 ++ [255, 0, 0, 0, 0, 0, 0, 0]) ++ [1, 2, 3])) :=
  ⟨by decide, by rfl,
    (trailing_data_ignored (sample_env true) (dds_header 4 4 80 ++ [255, 0, 0, 0, 0, 0, 0, 0])
      [7] [1, 2, 3] (by decide)).2.1⟩

/-! ## BC5 midpoint -/

/-- The value `nz2` for two samples 128, under every rounding of `double` arithmetic. -/
theorem bc5_nz2_midpoint (fl : ℚ → ℚ) (hfl : IsRounding fl) :
    |bc5_nz2 fl (bc5_normal fl 128) (bc5_normal fl 128) - (1 - 2 / 65025)|
      ≤ 1 / 4398046511104 := by
  have hn := bc5_normal_error fl hfl 128 (by norm_num)
  rw [abs_le] at hn
  push_cast at hn
  generalize bc5_normal fl 128 = nx at hn
  have hsq : |nx * nx - 1 / 65025| ≤ 1 / 70368744177664 := by
    rw [abs_le]
    constructor <;> nlinarith [hn.1, hn.2, mul_nonneg (sub_nonneg.mpr hn.1) (sub_nonneg.mpr hn.2)]
  rw [abs_le] at hsq
  have ea := fl_near fl hfl (nx * nx) 1 (by rw [abs_le]; constructor <;> linarith [hsq.1, hsq.2])
  rw [abs_le] at ea
  have eb := fl_near fl hfl (1 - fl (nx * nx)) 2
    (by rw [abs_le]; constructor <;> linarith [hsq.1, hsq.2, ea.1, ea.2])
  rw [abs_le] at eb
  have ec := fl_near fl hfl (fl (1 - fl (nx * nx)) - fl (nx * nx)) 2
    (by rw [abs_le]; constructor <;> linarith [hsq.1, hsq.2, ea.1, ea.2, eb.1, eb.2])
  rw [abs_le] at ec
  unfold bc5_nz2
  rw [abs_le]
  constructor <;> linarith [hsq.1, hsq.2, ea.1, ea.2, eb.1, eb.2, ec.1, ec.2]

/-- C21, amended: the BC5 midpoint. For every pixel whose decoded X and Y samples are
both 128, under every rounding of `double` arithmetic and every `sqrt` that returns a
non-negative `z` whose square is the argument up to a relative error of `2^-50`, the
reconstructed `z` satisfies `|z*z - (1 - 2/65025)| <= 2^-40` and the output pixel is
`(128, 128, 255)`. -/
theorem bc5_midpoint (fl : ℚ → ℚ) (hfl : IsRounding fl) (fsqrt : ℚ → ℚ) (blk : List Nat)
    (idx : Nat) (hx : rd (decode_bc4_block blk) idx = 128)
    (hy : rd (decode_bc4_block (blk.drop 8)) idx = 128)
    (hs0 : 0 ≤ fsqrt (bc5_nz2 fl (bc5_normal fl 128) (bc5_normal fl 128)))
    (hs : |fsqrt (bc5_nz2 fl (bc5_normal fl 128) (bc5_normal fl 128))
            * fsqrt (bc5_nz2 fl (bc5_normal fl 128) (bc5_normal fl 128))
          - bc5_nz2 fl (bc5_normal fl 128) (bc5_normal fl 128)|
        ≤ bc5_nz2 fl (bc5_normal fl 128) (bc5_normal fl 128) / 1125899906842624) :
    texel_bc5 fl fsqrt blk idx = [128, 128, 255] ∧
    |bc5_nz fl fsqrt (bc5_normal fl 128) (bc5_normal fl 128)
        * bc5_nz fl fsqrt (bc5_normal fl 128) (bc5_normal fl 128) - (1 - 2 / 65025)|
      ≤ 1 / 1099511627776 := by
  have h2 := bc5_nz2_midpoint fl hfl
  rw [abs_le] at h2
  have hpos : bc5_nz2 fl (bc5_normal fl 128) (bc5_normal fl 128) > 0 := by linarith [h2.1]
  have hz : bc5_nz fl fsqrt (bc5_normal fl 128) (bc5_normal fl 128)
      = fsqrt (bc5_nz2 fl (bc5_normal fl 128) (bc5_normal fl 128)) := by
    unfold bc5_nz
    rw [if_pos hpos]
  rw [texel_bc5_eq, hx, hy, bc5_sample_128 fl hfl, hz]
  generalize bc5_nz2 fl (bc5_normal fl 128) (bc5_normal fl 128) = x at h2 hpos hs0 hs
  generalize fsqrt x = z at hs0 hs
  rw [abs_le] at hs
  have hzz1 : z * z ≤ 1 - 1 / 65025 := by linarith [hs.2, h2.2]
  have hzz0 : 1 - 3 / 65025 ≤ z * z := by linarith [hs.1, h2.1]
  have hz1 : z ≤ 1 := by nlinarith
  have hz0 : 1 - 3 / 65025 ≤ z := by nlinarith
  have he := bc5_remap_error fl hfl z (by linarith) hz1
  rw [abs_le] at he
  have hb : bc5_byte fl z = 255 := by
    apply bc5_byte_of_floor fl z 255 (by norm_num)
    · push_cast; linarith [he.1]
    · push_cast; linarith [he.2]
  rw [hb]
  refine ⟨rfl, ?_⟩
  rw [abs_le]
  constructor <;> linarith [hs.1, hs.2, h2.1, h2.2]

/-- Witness for C21: the block whose four endpoint bytes are 128 and whose index bits
are zero, in exact arithmetic with a rational approximation of the square root. -/
theorem bc5_midpoint_witness :
    rd (decode_bc4_block [128, 128, 0, 0, 0, 0, 0, 0, 128, 128, 0, 0, 0, 0, 0, 0]) 5 = 128 ∧
    texel_bc5 id (fun _ => 16912352255 / 16912612351)
      [128, 128, 0, 0, 0, 0, 0, 0, 128, 128, 0, 0, 0, 0, 0, 0] 5 = [128, 128, 255] := by
  have e : bc5_nz2 id (bc5_normal id 128) (bc5_normal id 128) = 65023 / 65025 := by
    norm_num [bc5_nz2, bc5_normal]
  exact ⟨by decide,
    (bc5_midpoint id isRounding_id (fun _ => 16912352255 / 16912612351)
      [128, 128, 0, 0, 0, 0, 0, 0, 128, 128, 0, 0, 0, 0, 0, 0] 5 (by decide) (by decide)
      (by norm_num) (by rw [e, abs_le]; constructor <;> norm_num)).1⟩

/-- Counterexample to C21 as stated: `z` is a `double`, hence a rational number, and no
rational number has the square `1 - 2/65025 = 65023/65025`; so the reconstructed `z` of
two samples 128 does not satisfy `z*z = 1 - 2/65025`, neither in exact arithmetic with a
rational approximation of the square root nor under any rounding and any `sqrt`,
although the pixel is `(128, 128, 255)`. -/
theorem bc5_midpoint_square_not_exact :
    bc5_nz id (fun _ => 16912352255 / 16912612351) (bc5_normal id 128) (bc5_normal id 128)
        * bc5_nz id (fun _ => 16912352255 / 16912612351) (bc5_normal id 128)
            (bc5_normal id 128)
      ≠ 1 - 2 / 65025 ∧
    ¬ ∃ fl fsqrt : ℚ → ℚ,
      bc5_nz fl fsqrt (bc5_normal fl 128) (bc5_normal fl 128)
          * bc5_nz fl fsqrt (bc5_normal fl 128) (bc5_normal fl 128)
        = 1 - 2 / 65025 := by
  have key : ∀ z : ℚ, z * z ≠ 1 - 2 / 65025 := by
    intro z hz
    have h1 : (255 * z) * (255 * z) = ((65023 : ℕ) : ℚ) := by
      push_cast
      linear_combination 65025 * hz
    have hsq : IsSquare (((65023 : ℕ) : ℚ)) := ⟨255 * z, h1.symm⟩
    rw [Rat.isSquare_natCast_iff] at hsq
    obtain ⟨m, hm⟩ := hsq
    rcases le_or_lt m 254 with h | h
    · nlinarith
    · nlinarith
  exact ⟨key _, fun ⟨_, _, h⟩ => key _ h⟩

/-! ## Failures of the PNG writer -/

/-- C22, amended: failures of the PNG writer. Whenever opening the output file fails, an
allocation fails or the compressor reports an error, `write_png_core` returns 1, and so
does `dds2png_convert`, which returns the writer's result; `write_png_core` returns 0 or
1, and 0 only if all of these steps succeeded and the complete PNG stream was passed to
`fwrite`. The results of `fwrite` and `fclose` are not inspected: on a device that
accepts only the first `cap` bytes the return value is unchanged. -/
theorem png_failures_reported (env : PngEnv) (width height : Nat) (image : List Nat)
    (color_type bytes_per_pixel : Nat) :
    (env.fopen_ok = false →
      (write_png_core env width height image color_type bytes_per_pixel).1 = 1) ∧
    (env.malloc_raw (png_raw_size width height bytes_per_pixel) = none →
      (write_png_core env width height image color_type bytes_per_pixel).1 = 1) ∧
    (env.malloc_comp (env.zlib.compressBound (png_raw_size width height bytes_per_pixel))
        = false →
      (write_png_core env width height image color_type bytes_per_pixel).1 = 1) ∧
    (∀ raw0, env.malloc_raw (png_raw_size width height bytes_per_pixel) = some raw0 →
      env.zlib.compress2 (png_fill_raw width height bytes_per_pixel image raw0) 9 = none →
      (write_png_core env width height image color_type bytes_per_pixel).1 = 1) ∧
    ((write_png_core env width height image color_type bytes_per_pixel).1 = 0 ∨
      (write_png_core env width height image color_type bytes_per_pixel).1 = 1) ∧
    ((write_png_core env width height image color_type bytes_per_pixel).1 = 0 →
      env.fopen_ok = true ∧
      env.malloc_comp (env.zlib.compressBound (png_raw_size width height bytes_per_pixel))
        = true ∧
      ∃ raw0 comp, env.malloc_raw (png_raw_size width height bytes_per_pixel) = some raw0 ∧
        env.zlib.compress2 (png_fill_raw width height bytes_per_pixel image raw0) 9
          = some comp ∧
        (write_png_core env width height image color_type bytes_per_pixel).2
          = png_sig ++ png_write_u32 13 ++ tag_IHDR ++ png_ihdr width height color_type
            ++ png_write_u32 (png_crc env.zlib tag_IHDR
                (some (png_ihdr width height color_type)))
            ++ png_write_u32 (u32 comp.length) ++ tag_IDAT ++ comp
            ++ png_write_u32 (png_crc env.zlib tag_IDAT (some comp))
            ++ png_write_u32 0 ++ tag_IEND
            ++ png_write_u32 (png_crc env.zlib tag_IEND none)) ∧
    (∀ cap,
      (write_png_core_disk env cap width height image color_type bytes_per_pixel).1
        = (write_png_core env width height image color_type bytes_per_pixel).1 ∧
      (write_png_core_disk env cap width height image color_type bytes_per_pixel).2
        = ((write_png_core env width height image color_type bytes_per_pixel).2).take cap) ∧
    (∀ (cenv : Env) (file : Option (List Nat)),
      cenv.png = env →
      (∀ e, dds2png_raster cenv file = .error e → (dds2png_convert cenv file).1 = 1) ∧
      (∀ r, dds2png_raster cenv file = .ok r →
        dds2png_convert cenv file
          = write_png_core env r.w r.h r.img r.color_type r.bytes_per_pixel)) := by
  have hdisk : ∀ cap,
      (write_png_core_disk env cap width height image color_type bytes_per_pixel).1
        = (write_png_core env width height image color_type bytes_per_pixel).1 ∧
      (write_png_core_disk env cap width height image color_type bytes_per_pixel).2
        = ((write_png_core env width height image color_type bytes_per_pixel).2).take cap :=
    fun cap => ⟨rfl, rfl⟩
  have hconv : ∀ (cenv : Env) (file : Option (List Nat)),
      cenv.png = env →
      (∀ e, dds2png_raster cenv file = .error e → (dds2png_convert cenv file).1 = 1) ∧
      (∀ r, dds2png_raster cenv file = .ok r →
        dds2png_convert cenv file
          = write_png_core env r.w r.h r.img r.color_type r.bytes_per_pixel) := by
    intro cenv file he
    subst he
    constructor
    · intro e h
      unfold dds2png_convert
      rw [h]
    · intro r h
      unfold dds2png_convert
      rw [h]
  refine ⟨?_, ?_, ?_, ?_, ?_, ?_, hdisk, hconv⟩
  all_goals unfold write_png_core
  all_goals simp only
  · intro h
    simp [h]
  · intro h
    cases hf : env.fopen_ok <;> simp [h]
  · intro h
    cases hf : env.fopen_ok
    · simp
    · cases hr : env.malloc_raw (png_raw_size width height bytes_per_pixel) <;> simp [h]
  · intro raw0 hr h
    cases hf : env.fopen_ok
    · simp
    · cases hc : env.malloc_comp
        (env.zlib.compressBound (png_raw_size width height bytes_per_pixel)) <;>
        simp [hr, h]
  · cases hf : env.fopen_ok
    · simp
    · cases hr : env.malloc_raw (png_raw_size width height bytes_per_pixel) with
      | none => simp
      | some raw0 =>
        cases hc : env.malloc_comp
          (env.zlib.compressBound (png_raw_size width height bytes_per_pixel))
        · simp
        · cases hz : env.zlib.compress2
            (png_fill_raw width height bytes_per_pixel image raw0) 9 <;> simp [hz]
  · cases hf : env.fopen_ok
    · simp
    · cases hr : env.malloc_raw (png_raw_size width height bytes_per_pixel) with
      | none => simp
      | some raw0 =>
        cases hc : env.malloc_comp
          (env.zlib.compressBound (png_raw_size width height bytes_per_pixel))
        · simp
        · cases hz : env.zlib.compress2
            (png_fill_raw width height bytes_per_pixel image raw0) 9 <;> simp [hz]

/-- Witness for C22: with the output path unopenable the writer returns 1; with every
step succeeding it returns 0. -/
theorem png_failures_reported_witness :
    (sample_png_env false).fopen_ok = false ∧
    (write_png_core (sample_png_env false) 2 1 [10, 20] 0 1).1 = 1 ∧
    (write_png_core (sample_png_env true) 2 1 [10, 20] 0 1).1 = 0 ∧
    (sample_png_env true).fopen_ok = true :=
  ⟨rfl, (png_failures_reported (sample_png_env false) 2 1 [10, 20] 0 1).1 rfl, by decide,
    ((png_failures_reported (sample_png_env true) 2 1 [10, 20] 0 1).2.2.2.2.2.1
      (by decide)).1⟩

/-- Counterexample to C22 as stated: on a device that accepts only 8 bytes every
`fwrite` after the signature fails, only 8 of the 60 bytes of the PNG stream reach the
file, and `write_png_core` still returns 0. -/
theorem png_write_failure_is_silent :
    write_png_core_disk (sample_png_env true) 8 2 1 [10, 20] 0 1
      = (0, [137, 80, 78, 71, 13, 10, 26, 10]) ∧
    ((write_png_core (sample_png_env true) 2 1 [10, 20] 0 1).2).length = 60 := by
  refine ⟨Prod.ext (by decide) (by decide), by decide⟩

/-! ## Scheduler: the completion counter -/

theorem sched_run_none (schedule : List Actor) :
    schedule.foldl (fun st a => st.bind fun s => sched_step s a) none = none := by
  induction schedule with
  | nil => rfl
  | cons a l ih => simpa using ih

theorem sched_run_cons (s : Sched) (a : Actor) (l : List Actor) :
    sched_run s (a :: l) = (sched_step s a).bind fun s1 => sched_run s1 l := by
  unfold sched_run
  simp only [List.foldl_cons, Option.some_bind]
  cases h : sched_step s a with
  | none => simpa using sched_run_none l
  | some s1 => rfl

theorem sched_run_induction (P : Sched → Prop)
    (hstep : ∀ s a s1, P s → sched_step s a = some s1 → P s1)
    (schedule : List Actor) : ∀ s s1, P s → sched_run s schedule = some s1 → P s1 := by
  induction schedule with
  | nil =>
    intro s s1 hP h
    have : s = s1 := by simpa [sched_run] using h
    exact this ▸ hP
  | cons a l ih =>
    intro s s1 hP h
    rw [sched_run_cons] at h
    cases hs : sched_step s a with
    | none => rw [hs] at h; cases h
    | some s2 =>
      rw [hs] at h
      exact ih s2 s1 (hstep s a s2 hP hs) h

theorem in_flight_set (ws : List WorkerPc) (i : Nat) (w w1 : WorkerPc)
    (h : ws[i]? = some w) :
    ((worker_job w ++ in_flight (ws.set i w1) : List Job) : Multiset Job)
      = ((worker_job w1 ++ in_flight ws : List Job) : Multiset Job) := by
  induction ws generalizing i with
  | nil => simp at h
  | cons x xs ih =>
    cases i with
    | zero =>
      simp only [List.getElem?_cons_zero, Option.some.injEq] at h
      subst h
      simp only [List.set_cons_zero, in_flight, List.flatMap_cons, ← Multiset.coe_add]
      abel
    | succ i =>
      simp only [List.getElem?_cons_succ] at h
      have := ih i h
      simp only [List.set_cons_succ, in_flight, List.flatMap_cons, ← Multiset.coe_add] at this ⊢
      rw [add_left_comm, this]
      abel

theorem in_flight_notify_all (ws : List WorkerPc) : in_flight (notify_all ws) = in_flight ws := by
  unfold in_flight notify_all
  induction ws with
  | nil => rfl
  | cons x xs ih =>
    simp only [List.map_cons, List.flatMap_cons, ih]
    congr 1
    split
    · rename_i h; rw [h]; rfl
    · rfl

/-- The counter invariant of a batch of `jobs`. -/
theorem sched_invariant_step (jobs : List Job) (s : Sched) (a : Actor) (s1 : Sched)
    (hI : s.jobsTotal = jobs.length ∧ s.jobsFinished = s.counted.length ∧
      ((s.counted ++ in_flight s.workers ++ s.jobQueue : List Job) : Multiset Job) = jobs)
    (hs : sched_step s a = some s1) :
    s1.jobsTotal = jobs.length ∧ s1.jobsFinished = s1.counted.length ∧
      ((s1.counted ++ in_flight s1.workers ++ s1.jobQueue : List Job) : Multiset Job) = jobs := by
  obtain ⟨h1, h2, h3⟩ := hI
  cases a with
  | main_thread =>
    simp only [sched_step, main_step] at hs
    split at hs
    · cases hs; exact ⟨h1, h2, by simpa [in_flight_notify_all] using h3⟩
    · split at hs
      · cases hs
      · cases hs; exact ⟨h1, h2, h3⟩
    · cases hs; exact ⟨h1, h2, h3⟩
    · cases hs; exact ⟨h1, h2, by simpa [in_flight_notify_all] using h3⟩
    · split at hs
      · cases hs; exact ⟨h1, h2, h3⟩
      · cases hs
    · cases hs
  | worker i ret =>
    simp only [sched_step, worker_step] at hs
    split at hs
    · rename_i hw
      split at hs
      · rename_i hq
        split at hs
        · cases hs
          have := in_flight_set s.workers i _ WorkerPc.exited hw
          simp only [worker_job, List.nil_append] at this
          refine ⟨h1, h2, ?_⟩
          simp only [← Multiset.coe_add] at h3 ⊢
          rw [this]; exact h3
        · cases hs
          have := in_flight_set s.workers i _ WorkerPc.parking hw
          simp only [worker_job, List.nil_append] at this
          refine ⟨h1, h2, ?_⟩
          simp only [← Multiset.coe_add] at h3 ⊢
          rw [this]; exact h3
      · rename_i job rest hq
        cases hs
        have := in_flight_set s.workers i _ (WorkerPc.working job) hw
        simp only [worker_job, List.nil_append, ← Multiset.coe_add] at this
        refine ⟨h1, h2, ?_⟩
        rw [hq] at h3
        simp only [← Multiset.coe_add] at h3 ⊢
        rw [this, ← h3, ← Multiset.cons_coe job rest, ← Multiset.singleton_add]
        simp only [← Multiset.coe_singleton]
        abel
    · rename_i hw
      cases hs
      have := in_flight_set s.workers i _ WorkerPc.waiting hw
      simp only [worker_job, List.nil_append] at this
      refine ⟨h1, h2, ?_⟩
      simp only [← Multiset.coe_add] at h3 ⊢
      rw [this]; exact h3
    · rename_i job hw
      cases hs
      have := in_flight_set s.workers i _ WorkerPc.check hw
      simp only [worker_job, List.nil_append, ← Multiset.coe_add] at this
      refine ⟨h1, by simp [h2], ?_⟩
      simp only [← Multiset.coe_add] at h3 ⊢
      rw [← h3, ← this, ← Multiset.cons_coe job s.counted, ← Multiset.singleton_add]
      simp only [← Multiset.coe_singleton]
      abel
    · cases hs


theorem sched_init_invariant (jobs : List Job) (threads : Int) :
    (sched_init jobs threads).jobsTotal = jobs.length ∧
      (sched_init jobs threads).jobsFinished = (sched_init jobs threads).counted.length ∧
      (((sched_init jobs threads).counted ++ in_flight (sched_init jobs threads).workers
        ++ (sched_init jobs threads).jobQueue : List Job) : Multiset Job) = jobs := by
  unfold sched_init
  by_cases h : jobs = []
  · subst h; simp [in_flight]
  · have hf : ∀ n, in_flight (List.replicate n WorkerPc.check) = [] := by
      intro n
      induction n with
      | zero => rfl
      | succ n ih =>
        simp only [in_flight, List.replicate_succ, List.flatMap_cons] at ih ⊢
        rw [ih]; rfl
    simp [h, hf]

theorem sched_invariant (jobs : List Job) (threads : Int) (s : Sched)
    (hr : Reachable jobs threads s) :
    s.jobsTotal = jobs.length ∧ s.jobsFinished = s.counted.length ∧
      ((s.counted ++ in_flight s.workers ++ s.jobQueue : List Job) : Multiset Job) = jobs := by
  obtain ⟨schedule, h⟩ := hr
  exact sched_run_induction
    (fun s => s.jobsTotal = jobs.length ∧ s.jobsFinished = s.counted.length ∧
      ((s.counted ++ in_flight s.workers ++ s.jobQueue : List Job) : Multiset Job) = jobs)
    (fun s a s1 hP hs => sched_invariant_step jobs s a s1 hP hs)
    schedule _ s (sched_init_invariant jobs threads) h

theorem sched_step_monotone (s : Sched) (a : Actor) (s1 : Sched)
    (hs : sched_step s a = some s1) :
    s.jobsFinished ≤ s1.jobsFinished ∧ s1.jobsTotal = s.jobsTotal := by
  cases a with
  | main_thread =>
    simp only [sched_step, main_step] at hs
    split at hs
    · cases hs; exact ⟨le_refl _, rfl⟩
    · split at hs
      · cases hs
      · cases hs; exact ⟨le_refl _, rfl⟩
    · cases hs; exact ⟨le_refl _, rfl⟩
    · cases hs; exact ⟨le_refl _, rfl⟩
    · split at hs
      · cases hs; exact ⟨le_refl _, rfl⟩
      · cases hs
    · cases hs
  | worker i ret =>
    simp only [sched_step, worker_step] at hs
    split at hs
    · split at hs
      · split at hs
        · cases hs; exact ⟨le_refl _, rfl⟩
        · cases hs; exact ⟨le_refl _, rfl⟩
      · cases hs; exact ⟨le_refl _, rfl⟩
    · cases hs; exact ⟨le_refl _, rfl⟩
    · cases hs; exact ⟨Nat.le_succ _, rfl⟩
    · cases hs

/-- C23: the completion counter invariant. In every state `s` reachable by the steps of
the workers and of the main thread, `jobsFinished + |in flight| + |jobQueue| = jobsTotal`
and `jobsTotal` is the number of jobs of the batch; the jobs counted so far, the jobs in
flight and the queued jobs together are exactly the jobs of the batch, so each job is
counted once; `jobsFinished` is the number of counted jobs; no step decreases
`jobsFinished`; a worker that pops takes the queue head; and the step of a worker that
finishes a job adds exactly 1 to `jobsFinished` whatever `dds2png_convert` returned. -/
theorem completion_counter_invariant (jobs : List Job) (threads : Int) (s : Sched)
    (hr : Reachable jobs threads s) :
    s.jobsFinished + (in_flight s.workers).length + s.jobQueue.length = s.jobsTotal ∧
    s.jobsTotal = jobs.length ∧
    s.jobsFinished = s.counted.length ∧
    List.Perm (s.counted ++ in_flight s.workers ++ s.jobQueue) jobs ∧
    (∀ a s1, sched_step s a = some s1 →
      s.jobsFinished ≤ s1.jobsFinished ∧ s1.jobsTotal = s.jobsTotal) ∧
    (∀ i ret job rest, s.workers[i]? = some WorkerPc.check → s.jobQueue = job :: rest →
      ∃ s1, sched_step s (Actor.worker i ret) = some s1 ∧ s1.jobQueue = rest ∧
        s1.workers = s.workers.set i (WorkerPc.working job) ∧
        s1.jobsFinished = s.jobsFinished) ∧
    (∀ i ret job, s.workers[i]? = some (WorkerPc.working job) →
      ∃ s1, sched_step s (Actor.worker i ret) = some s1 ∧
        s1.jobsFinished = s.jobsFinished + 1 ∧ s1.counted = job :: s.counted ∧
        s1.workers = s.workers.set i WorkerPc.check ∧ s1.jobQueue = s.jobQueue) := by
  obtain ⟨h1, h2, h3⟩ := sched_invariant jobs threads s hr
  have hperm : List.Perm (s.counted ++ in_flight s.workers ++ s.jobQueue) jobs :=
    Multiset.coe_eq_coe.mp h3
  refine ⟨?_, h1, h2, hperm, fun a s1 hs => sched_step_monotone s a s1 hs, ?_, ?_⟩
  · have := hperm.length_eq
    simp only [List.length_append] at this
    omega
  · intro i ret job rest hw hq
    refine ⟨{ s with jobQueue := rest, workers := s.workers.set i (WorkerPc.working job) },
      ?_, rfl, rfl, rfl⟩
    simp only [sched_step, worker_step, hw, hq]
  · intro i ret job hw
    refine ⟨{ s with jobsFinished := s.jobsFinished + 1, counted := job :: s.counted,
                     workers := s.workers.set i WorkerPc.check }, ?_, rfl, rfl, rfl, rfl⟩
    simp only [sched_step, worker_step, hw]

/-- Witness for C23: two jobs and two workers; both jobs are popped, the second one has
failed and is counted, the first one is still in flight. -/
theorem completion_counter_invariant_witness :
    Reachable [sample_job, sample_job2] 2
      (Sched.mk [] false 2 1 [WorkerPc.working sample_job, WorkerPc.check]
        MainPc.notify_start [sample_job2]) ∧
    1 + (in_flight [WorkerPc.working sample_job, WorkerPc.check]).length
      + ([] : List Job).length = 2 := by
  have hr : Reachable [sample_job, sample_job2] 2
      (Sched.mk [] false 2 1 [WorkerPc.working sample_job, WorkerPc.check]
        MainPc.notify_start [sample_job2]) :=
    ⟨[Actor.worker 0 0, Actor.worker 1 0, Actor.worker 1 1], by decide⟩
  exact ⟨hr, (completion_counter_invariant [sample_job, sample_job2] 2 _ hr).1⟩

/-! ## Scheduler: shutdown -/

/-- C24 fails on the code: one job, one worker. The worker pops the job, finishes it,
evaluates the wait predicate (queue empty, `done` false) and is about to block; the main
thread, which sets `done` and notifies without holding `queueMutex`, leaves its polling
loop, sets `done = true` and calls `notify_all` while no thread waits; the worker then
blocks in `wait`. In the state reached, `jobsFinished = jobsTotal = 1`, the worker waits
for a notification that nobody will send, the main thread is blocked in `join`, and no
thread can take a step. -/
theorem shutdown_wakeup_lost :
    sched_run (sched_init [sample_job] 1)
        [Actor.main_thread, Actor.worker 0 0, Actor.worker 0 0, Actor.worker 0 0,
          Actor.main_thread, Actor.main_thread, Actor.main_thread, Actor.worker 0 0]
      = some (Sched.mk [] true 1 1 [WorkerPc.waiting] MainPc.joining [sample_job]) ∧
    ∀ a, sched_step (Sched.mk [] true 1 1 [WorkerPc.waiting] MainPc.joining [sample_job]) a
      = none := by
  refine ⟨by decide, fun a => ?_⟩
  cases a with
  | main_thread => rfl
  | worker i ret =>
    cases i with
    | zero => rfl
    | succ i => rfl

theorem worker_rank_set (ws : List WorkerPc) (i : Nat) (w w1 : WorkerPc)
    (h : ws[i]? = some w) :
    ((ws.set i w1).map worker_rank).sum + worker_rank w
      = (ws.map worker_rank).sum + worker_rank w1 := by
  induction ws generalizing i with
  | nil => simp at h
  | cons x xs ih =>
    cases i with
    | zero =>
      simp only [List.getElem?_cons_zero, Option.some.injEq] at h
      subst h
      simp only [List.set_cons_zero, List.map_cons, List.sum_cons]
      omega
    | succ i =>
      simp only [List.getElem?_cons_succ] at h
      have := ih i h
      simp only [List.set_cons_succ, List.map_cons, List.sum_cons]
      omega

theorem worker_rank_notify_all (ws : List WorkerPc) :
    ((notify_all ws).map worker_rank).sum ≤ (ws.map worker_rank).sum + 2 * ws.length ∧
      (notify_all ws).length = ws.length := by
  unfold notify_all
  refine ⟨?_, by simp⟩
  induction ws with
  | nil => simp
  | cons x xs ih =>
    simp only [List.map_cons, List.sum_cons, List.length_cons]
    have : worker_rank (if x = WorkerPc.waiting then WorkerPc.check else x)
        ≤ worker_rank x + 2 := by
      split
      · rename_i h; rw [h]; simp [worker_rank]
      · omega
    omega

/-- Every step decreases the measure: no run of the scheduler is infinite. -/
theorem sched_step_decreases (s : Sched) (a : Actor) (s1 : Sched)
    (hs : sched_step s a = some s1) : sched_measure s1 < sched_measure s := by
  unfold sched_measure
  cases a with
  | main_thread =>
    simp only [sched_step, main_step] at hs
    have hn := worker_rank_notify_all s.workers
    split at hs
    · rename_i hm
      cases hs
      simp only [hm, main_rank, hn.2]
      have := hn.1
      omega
    · rename_i hm
      split at hs
      · cases hs
      · cases hs
        simp only [hm, main_rank]
        omega
    · rename_i hm
      cases hs
      simp only [hm, main_rank]
      omega
    · rename_i hm
      cases hs
      simp only [hm, main_rank, hn.2]
      have := hn.1
      omega
    · rename_i hm
      split at hs
      · cases hs
        simp only [hm, main_rank]
        omega
      · cases hs
    · cases hs
  | worker i ret =>
    simp only [sched_step, worker_step] at hs
    split at hs
    · rename_i hw
      split at hs
      · rename_i hq
        split at hs
        · cases hs
          have := worker_rank_set s.workers i _ WorkerPc.exited hw
          simp only [worker_rank, List.length_set] at this ⊢
          omega
        · cases hs
          have := worker_rank_set s.workers i _ WorkerPc.parking hw
          simp only [worker_rank, List.length_set] at this ⊢
          omega
      · rename_i job rest hq
        cases hs
        have := worker_rank_set s.workers i _ (WorkerPc.working job) hw
        simp only [worker_rank, List.length_set, hq, List.length_cons] at this ⊢
        omega
    · rename_i hw
      cases hs
      have := worker_rank_set s.workers i _ WorkerPc.waiting hw
      simp only [worker_rank, List.length_set] at this ⊢
      omega
    · rename_i job hw
      cases hs
      have := worker_rank_set s.workers i _ WorkerPc.check hw
      simp only [worker_rank, List.length_set] at this ⊢
      omega
    · cases hs

/-- A schedule that can be run is no longer than the measure of its first state. -/
theorem sched_run_bounded (schedule : List Actor) :
    ∀ s s1, sched_run s schedule = some s1 →
      schedule.length + sched_measure s1 ≤ sched_measure s := by
  induction schedule with
  | nil =>
    intro s s1 h
    have : s = s1 := by simpa [sched_run] using h
    subst this
    simp
  | cons a l ih =>
    intro s s1 h
    rw [sched_run_cons] at h
    cases hs : sched_step s a with
    | none => rw [hs] at h; cases h
    | some s2 =>
      rw [hs] at h
      have h1 := ih s2 s1 h
      have h2 := sched_step_decreases s a s2 hs
      simp only [List.length_cons]
      omega

theorem sched_queue_invariant_step (s : Sched) (a : Actor) (s1 : Sched)
    (hI : (∀ w ∈ s.workers, w = WorkerPc.check ∨ ∃ j, w = WorkerPc.working j) ∨ s.jobQueue = [])
    (hs : sched_step s a = some s1) :
    ((∀ w ∈ s1.workers, w = WorkerPc.check ∨ ∃ j, w = WorkerPc.working j) ∨ s1.jobQueue = []) ∧
      s1.workers.length = s.workers.length := by
  have hset : ∀ i (w1 : WorkerPc), (w1 = WorkerPc.check ∨ ∃ j, w1 = WorkerPc.working j) →
      (∀ w ∈ s.workers, w = WorkerPc.check ∨ ∃ j, w = WorkerPc.working j) →
      ∀ w ∈ s.workers.set i w1, w = WorkerPc.check ∨ ∃ j, w = WorkerPc.working j := by
    intro i w1 h1 hall w hw
    rcases List.mem_or_eq_of_mem_set hw with h | h
    · exact hall w h
    · rw [h]; exact h1
  have hnot : (∀ w ∈ s.workers, w = WorkerPc.check ∨ ∃ j, w = WorkerPc.working j) →
      ∀ w ∈ notify_all s.workers, w = WorkerPc.check ∨ ∃ j, w = WorkerPc.working j := by
    intro hall w hw
    unfold notify_all at hw
    obtain ⟨w0, hw0, rfl⟩ := List.mem_map.mp hw
    split
    · exact Or.inl rfl
    · exact hall w0 hw0
  cases a with
  | main_thread =>
    simp only [sched_step, main_step] at hs
    split at hs
    · cases hs
      exact ⟨hI.imp hnot id, (worker_rank_notify_all s.workers).2⟩
    · split at hs
      · cases hs
      · cases hs; exact ⟨hI, rfl⟩
    · cases hs; exact ⟨hI, rfl⟩
    · cases hs
      exact ⟨hI.imp hnot id, (worker_rank_notify_all s.workers).2⟩
    · split at hs
      · cases hs; exact ⟨hI, rfl⟩
      · cases hs
    · cases hs
  | worker i ret =>
    simp only [sched_step, worker_step] at hs
    split at hs
    · rename_i hw
      split at hs
      · rename_i hq
        split at hs
        · cases hs; exact ⟨Or.inr hq, List.length_set _ _ _⟩
        · cases hs; exact ⟨Or.inr hq, List.length_set _ _ _⟩
      · rename_i job rest hq
        cases hs
        refine ⟨Or.inl ?_, List.length_set _ _ _⟩
        rcases hI with h | h
        · exact hset i _ (Or.inr ⟨job, rfl⟩) h
        · rw [hq] at h; cases h
    · rename_i hw
      cases hs
      refine ⟨Or.inr ?_, List.length_set _ _ _⟩
      rcases hI with h | h
      · have := h _ (List.getElem?_mem hw)
        rcases this with h1 | ⟨j, h1⟩ <;> cases h1
      · exact h
    · rename_i job hw
      cases hs
      exact ⟨hI.imp (hset i _ (Or.inl rfl)) id, List.length_set _ _ _⟩
    · cases hs

theorem sched_queue_invariant (jobs : List Job) (threads : Int) (s : Sched)
    (hr : Reachable jobs threads s) :
    ((∀ w ∈ s.workers, w = WorkerPc.check ∨ ∃ j, w = WorkerPc.working j) ∨ s.jobQueue = []) ∧
      (jobs ≠ [] → 1 ≤ s.workers.length) := by
  obtain ⟨schedule, h⟩ := hr
  refine sched_run_induction
    (fun s => ((∀ w ∈ s.workers, w = WorkerPc.check ∨ ∃ j, w = WorkerPc.working j)
        ∨ s.jobQueue = []) ∧ (jobs ≠ [] → 1 ≤ s.workers.length))
    (fun s a s1 hP hs => ?_) schedule _ s ?_ h
  · obtain ⟨h1, h2⟩ := sched_queue_invariant_step s a s1 hP.1 hs
    exact ⟨h1, fun hj => by rw [h2]; exact hP.2 hj⟩
  · unfold sched_init
    by_cases hj : jobs = []
    · simp [hj]
    · simp only [hj, if_false]
      refine ⟨Or.inl fun w hw => Or.inl (List.eq_of_mem_replicate hw), fun _ => ?_⟩
      simp only [List.length_replicate]
      split <;> omega

/-- No job is lost: in a reachable state in which no thread can take a step, every job
of the batch has been counted, every worker is blocked in `wait` or has returned, and
the main thread is blocked in `join` or has finished. -/
theorem sched_stuck_complete (jobs : List Job) (threads : Int) (s : Sched)
    (hr : Reachable jobs threads s) (hstuck : ∀ a, sched_step s a = none) :
    s.jobsFinished = jobs.length ∧
    (∀ w ∈ s.workers, w = WorkerPc.waiting ∨ w = WorkerPc.exited) ∧
    (s.main = MainPc.joining ∨ s.main = MainPc.finished) := by
  obtain ⟨h1, h2, h3⟩ := sched_invariant jobs threads s hr
  obtain ⟨hq, hlen⟩ := sched_queue_invariant jobs threads s hr
  have hw : ∀ w ∈ s.workers, w = WorkerPc.waiting ∨ w = WorkerPc.exited := by
    intro w hw
    obtain ⟨i, hi, hget⟩ := List.mem_iff_getElem.mp hw
    have hopt : s.workers[i]? = some w := by rw [List.getElem?_eq_getElem hi, hget]
    have := hstuck (Actor.worker i 0)
    simp only [sched_step, worker_step, hopt] at this
    cases w with
    | check =>
      simp only at this
      split at this
      · split at this <;> cases this
      · cases this
    | parking => cases this
    | waiting => exact Or.inl rfl
    | working job => cases this
    | exited => exact Or.inr rfl
  have hfl : in_flight s.workers = [] := by
    unfold in_flight
    rw [List.flatMap_eq_nil_iff]
    intro w hmem
    rcases hw w hmem with h | h <;> rw [h] <;> rfl
  have hqueue : s.jobQueue = [] := by
    rcases hq with h | h
    · by_cases hj : jobs = []
      · rw [hj, hfl] at h3
        have := Multiset.coe_eq_coe.mp h3
        have := this.length_eq
        simp only [List.length_append, List.length_nil] at this
        exact List.length_eq_zero.mp (by omega)
      · have hl := hlen hj
        have hmem : s.workers[0] ∈ s.workers := List.getElem_mem _
        rcases h _ hmem with h0 | ⟨j, h0⟩ <;> rcases hw _ hmem with h1 | h1 <;>
          rw [h0] at h1 <;> cases h1
    · exact h
  have hfin : s.jobsFinished = jobs.length := by
    have := (Multiset.coe_eq_coe.mp h3).length_eq
    simp only [List.length_append, hfl, hqueue, List.length_nil] at this
    omega
  refine ⟨hfin, hw, ?_⟩
  have hm := hstuck Actor.main_thread
  simp only [sched_step, main_step] at hm
  cases hmain : s.main with
  | notify_start => rw [hmain] at hm; cases hm
  | polling =>
    rw [hmain] at hm
    simp only at hm
    split at hm
    · omega
    · cases hm
  | set_done => rw [hmain] at hm; cases hm
  | notify_done => rw [hmain] at hm; cases hm
  | joining => exact Or.inl rfl
  | finished => exact Or.inr rfl

end RemixDDS
